import Mathlib

/-
Verification development for the population-annealing optimizer core
(optimize_utils.py): the Individual data model, the Pareto
dominance/fitness/rank algorithms, objective normalization helpers,
PopulationStorage (append/save/load), the RelativeBoundedStep operator and
the PopulationAnnealing driver state machine.

Numeric values carried by individuals are modelled over an arbitrary
linearly ordered ring (instantiated at Int or Rat for concrete runs); the
step operator and normalize_dynamic, which use log10, are modelled over the
real numbers. Python floats are idealized as exact numbers throughout.
-/

/-- Candidate data model (class Individual): one parameter vector plus its
evaluation results and ranking metadata. All evaluation attributes start
unset (None); survivor starts False. -/
structure Ind (A : Type) where
  x : List A
  features : Option (List A)
  objectives : Option (List A)
  normalizedObjectives : Option (List A)
  energy : Option A
  rank : Option Nat
  distance : Option A
  fitness : Option Nat
  survivor : Bool
  modelId : Option Nat
deriving Repr, DecidableEq

/-- Individual.__init__: stores x and model_id; every other attribute unset. -/
def mkInd {A : Type} (x : List A) (modelId : Option Nat) : Ind A :=
  ⟨x, none, none, none, none, none, none, none, false, modelId⟩

/-- Pareto dominance test (assign_fitness_by_dominance.dominates): with
diff = p - q componentwise, p dominates q iff every diff is <= 0 and at
least one diff is < 0 (lower objective values are better). -/
def dominatesL {A : Type} [LinearOrderedRing A] (p q : List A) : Bool :=
  ((List.zipWith (fun a b => a - b) p q).all (fun d => d ≤ 0)) &&
    ((List.zipWith (fun a b => a - b) p q).any (fun d => d < 0))

/-- Index p dominates index q in a list of objective vectors. -/
def DomIdx {A : Type} [LinearOrderedRing A] (objs : List (List A)) (p q : Nat) : Prop :=
  dominatesL (objs.getD p []) (objs.getD q []) = true

/-- The list S[p] of indices that index p dominates. -/
def domList {A : Type} [LinearOrderedRing A] (objs : List (List A)) (p : Nat) : List Nat :=
  (List.range objs.length).filter (fun q => dominatesL (objs.getD p []) (objs.getD q []))

/-- The initial domination counter n[p]: how many indices dominate p.
Python stores it in a plain int, so we use Int. -/
def domCount {A : Type} [LinearOrderedRing A] (objs : List (List A)) (p : Nat) : Int :=
  ((List.range objs.length).filter (fun q => dominatesL (objs.getD q []) (objs.getD p []))).length

/-- One inner step of the front-peeling loop: decrement the domination
counter n[q] and collect q into the next front when the counter reaches
exactly 0 (the `n[q] -= 1; if n[q] == 0` body of the source loop). -/
def decCollect (st : List Int × List Nat) (q : Nat) : List Int × List Nat :=
  let cs := st.1.set q (st.1.getD q 0 - 1)
  if cs.getD q 0 = 0 then (cs, st.2 ++ [q]) else (cs, st.2)

/-- Process one front F: for each p in F, for each q in S[p], decrement
n[q]; the indices whose counter reaches 0 form the next front. -/
def processFront {A : Type} [LinearOrderedRing A] (objs : List (List A)) (cs : List Int)
    (F : List Nat) : List Int × List Nat :=
  (F.flatMap (domList objs)).foldl decCollect (cs, [])

/-- Record fitness value v for every index in F. -/
def assignFit (fit : List (Option Nat)) (F : List Nat) (v : Nat) : List (Option Nat) :=
  F.foldl (fun f p => f.set p (some v)) fit

/-- The while-loop of assign_fitness_by_dominance: peel successive fronts
while the current front is nonempty, giving front i+1 fitness i+1. The
loop runs at most (population size + 1) times, supplied as fuel. -/
def peelLoop {A : Type} [LinearOrderedRing A] (objs : List (List A)) :
    Nat → List Int → List Nat → List (Option Nat) → Nat → List (Option Nat)
  | 0, _, _, fit, _ => fit
  | fuel + 1, cs, F, fit, i =>
    if F.isEmpty then fit
    else
      let st := processFront objs cs F
      peelLoop objs fuel st.1 st.2 (assignFit fit st.2 (i + 1)) (i + 1)

/-- Fitness assignment of assign_fitness_by_dominance over the list of
objective vectors. When the maximal number of objectives is not larger
than 1 the source assigns fitness 0 to every individual without any
dominance computation (its else-branch). -/
def fitnessByDominance {A : Type} [LinearOrderedRing A] (objs : List (List A)) :
    List (Option Nat) :=
  let numObjectives := (objs.map List.length).foldl max 0
  if 1 < numObjectives then
    let cs := (List.range objs.length).map (domCount objs)
    let F0 := (List.range objs.length).filter (fun p => domCount objs p = 0)
    let fit0 := assignFit (List.replicate objs.length none) F0 0
    peelLoop objs (objs.length + 1) cs F0 fit0 0
  else
    List.replicate objs.length (some 0)

/-- assign_fitness_by_dominance on a population of Individuals: raises when
any Individual lacks objectives (the guard of the source); on an empty
population the source raises through Python max([]). Individuals keep
their order, with fitness set to the computed front number. -/
def assignFitnessByDominance {A : Type} [LinearOrderedRing A] (pop : List (Ind A)) :
    Except String (List (Ind A)) :=
  if (pop.filter (fun ind => ind.objectives.isSome)).length < pop.length then
    Except.error "assign_fitness_by_dominance: objectives have not been stored for all Individuals in population"
  else if pop.isEmpty then
    Except.error "max() arg is an empty sequence"
  else
    let objs := pop.map (fun ind => ind.objectives.getD [])
    let fit := fitnessByDominance objs
    Except.ok ((pop.zip fit).map (fun pr =>
      { pr.1 with fitness := match pr.2 with
                             | some v => some v
                             | none => pr.1.fitness }))

/-! Basic properties of the dominance test. -/

lemma zipWith_sub_self {A : Type} [LinearOrderedRing A] (l : List A) :
    List.zipWith (fun a b => a - b) l l = List.replicate l.length 0 := by
  induction l with
  | nil => rfl
  | cons a t ih => simp [List.zipWith, ih, List.replicate]

lemma dominatesL_irrefl {A : Type} [LinearOrderedRing A] (l : List A) :
    dominatesL l l = false := by
  unfold dominatesL
  rw [zipWith_sub_self]
  simp

lemma dominatesL_ne_nil {A : Type} [LinearOrderedRing A] {p q : List A}
    (h : dominatesL p q = true) : p ≠ [] ∧ q ≠ [] := by
  unfold dominatesL at h
  rw [Bool.and_eq_true] at h
  rcases h with ⟨-, hany⟩
  rw [List.any_eq_true] at hany
  rcases hany with ⟨d, hd, -⟩
  constructor
  · rintro rfl; simp at hd
  · rintro rfl; simp at hd

lemma dominatesL_all_iff {A : Type} [LinearOrderedRing A] :
    ∀ (p q : List A), p.length = q.length →
      (((List.zipWith (fun a b => a - b) p q).all (fun d => decide (d ≤ 0))) = true ↔
        ∀ i, i < p.length → p.getD i 0 ≤ q.getD i 0) := by
  intro p
  induction p with
  | nil => intro q hq; simp
  | cons a t ih =>
    intro q hq
    cases q with
    | nil => simp at hq
    | cons b tq =>
      simp only [List.length_cons, Nat.succ_inj] at hq
      rw [List.zipWith_cons_cons, List.all_cons, Bool.and_eq_true, decide_eq_true_eq,
        ih tq hq]
      constructor
      · rintro ⟨hab, htail⟩ i hi
        cases i with
        | zero => simpa using sub_nonpos.mp hab
        | succ j =>
          simp only [List.length_cons, Nat.succ_lt_succ_iff] at hi
          simpa using htail j hi
      · intro h
        refine ⟨sub_nonpos.mpr (by simpa using h 0 (by simp)), ?_⟩
        intro i hi
        simpa using h (i + 1) (by simpa using hi)

lemma dominatesL_any_iff {A : Type} [LinearOrderedRing A] :
    ∀ (p q : List A), p.length = q.length →
      (((List.zipWith (fun a b => a - b) p q).any (fun d => decide (d < 0))) = true ↔
        ∃ i, i < p.length ∧ p.getD i 0 < q.getD i 0) := by
  intro p
  induction p with
  | nil => intro q hq; simp
  | cons a t ih =>
    intro q hq
    cases q with
    | nil => simp at hq
    | cons b tq =>
      simp only [List.length_cons, Nat.succ_inj] at hq
      rw [List.zipWith_cons_cons, List.any_cons, Bool.or_eq_true, decide_eq_true_eq,
        ih tq hq]
      constructor
      · rintro (hab | ⟨j, hj, hjlt⟩)
        · exact ⟨0, by simp, by simpa using sub_neg.mp hab⟩
        · exact ⟨j + 1, by simpa using hj, by simpa using hjlt⟩
      · rintro ⟨i, hi, hilt⟩
        cases i with
        | zero => exact Or.inl (sub_neg.mpr (by simpa using hilt))
        | succ j =>
          simp only [List.length_cons, Nat.succ_lt_succ_iff] at hi
          exact Or.inr ⟨j, hi, by simpa using hilt⟩

lemma dominatesL_iff {A : Type} [LinearOrderedRing A] (p q : List A)
    (h : p.length = q.length) :
    dominatesL p q = true ↔
      (∀ i, i < p.length → p.getD i 0 ≤ q.getD i 0) ∧
        (∃ i, i < p.length ∧ p.getD i 0 < q.getD i 0) := by
  unfold dominatesL
  rw [Bool.and_eq_true, dominatesL_all_iff p q h, dominatesL_any_iff p q h]

lemma dominatesL_trans {A : Type} [LinearOrderedRing A] {p q r : List A}
    (hpq : p.length = q.length) (hqr : q.length = r.length)
    (h1 : dominatesL p q = true) (h2 : dominatesL q r = true) :
    dominatesL p r = true := by
  rw [dominatesL_iff p q hpq] at h1
  rw [dominatesL_iff q r hqr] at h2
  rw [dominatesL_iff p r (hpq.trans hqr)]
  refine ⟨?_, ?_⟩
  · intro i hi
    exact le_trans (h1.1 i hi) (h2.1 i (hpq ▸ hi))
  · rcases h1.2 with ⟨i, hi, hilt⟩
    exact ⟨i, hi, lt_of_lt_of_le hilt (h2.1 i (hpq ▸ hi))⟩

lemma DomIdx_lt {A : Type} [LinearOrderedRing A] {objs : List (List A)} {p q : Nat}
    (h : DomIdx objs p q) : p < objs.length ∧ q < objs.length := by
  unfold DomIdx at h
  have hne := dominatesL_ne_nil h
  refine ⟨?_, ?_⟩
  · by_contra hp
    push_neg at hp
    have hnil : objs.getD p [] = [] := by
      rw [List.getD_eq_getElem?_getD, List.getElem?_eq_none (by omega)]
      rfl
    exact hne.1 hnil
  · by_contra hp
    push_neg at hp
    have hnil : objs.getD q [] = [] := by
      rw [List.getD_eq_getElem?_getD, List.getElem?_eq_none (by omega)]
      rfl
    exact hne.2 hnil

lemma DomIdx_irrefl {A : Type} [LinearOrderedRing A] (objs : List (List A)) (p : Nat) :
    ¬ DomIdx objs p p := by
  intro h
  unfold DomIdx at h
  rw [dominatesL_irrefl] at h
  exact Bool.false_ne_true h

lemma DomIdx_trans {A : Type} [LinearOrderedRing A] {objs : List (List A)} {m : Nat}
    (hlen : ∀ l ∈ objs, l.length = m) {p q r : Nat}
    (h1 : DomIdx objs p q) (h2 : DomIdx objs q r) : DomIdx objs p r := by
  have hp := (DomIdx_lt h1).1
  have hq := (DomIdx_lt h1).2
  have hr := (DomIdx_lt h2).2
  unfold DomIdx at h1 h2 ⊢
  have lenOf : ∀ a : Nat, a < objs.length → (objs.getD a []).length = m := by
    intro a ha
    rw [List.getD_eq_getElem objs [] ha]
    exact hlen _ (List.getElem_mem ha)
  exact dominatesL_trans (by rw [lenOf p hp, lenOf q hq]) (by rw [lenOf q hq, lenOf r hr]) h1 h2


/-- Every finite nonempty set of indices contains an element dominated by no
other element of the set: dominance is an irreflexive transitive relation. -/
lemma exists_nondominated {A : Type} [LinearOrderedRing A] {objs : List (List A)} {m : Nat}
    (hlen : ∀ l ∈ objs, l.length = m) :
    ∀ (n : Nat) (s : List Nat), s.length ≤ n → s ≠ [] →
      ∃ p ∈ s, ∀ q ∈ s, ¬ DomIdx objs q p := by
  intro n
  induction n with
  | zero =>
    intro s hs hne
    cases s with
    | nil => exact absurd rfl hne
    | cons a t => simp at hs
  | succ k ih =>
    intro s hs hne
    cases s with
    | nil => exact absurd rfl hne
    | cons a t =>
      by_cases hdomin : ∃ q ∈ a :: t, DomIdx objs q a
      · have hs2eq : (a :: t).filter (fun q => dominatesL (objs.getD q []) (objs.getD a []))
            = t.filter (fun q => dominatesL (objs.getD q []) (objs.getD a [])) := by
          rw [List.filter_cons]
          rw [dominatesL_irrefl]
          simp
        have hs2ne : (a :: t).filter
            (fun q => dominatesL (objs.getD q []) (objs.getD a [])) ≠ [] := by
          rcases hdomin with ⟨q, hq, hqdom⟩
          intro hemp
          have hmem : q ∈ (a :: t).filter
              (fun q => dominatesL (objs.getD q []) (objs.getD a [])) :=
            List.mem_filter.mpr ⟨hq, hqdom⟩
          rw [hemp] at hmem
          simp at hmem
        have hs2len : ((a :: t).filter
            (fun q => dominatesL (objs.getD q []) (objs.getD a []))).length ≤ k := by
          rw [hs2eq]
          have hle := List.length_filter_le
            (fun q => dominatesL (objs.getD q []) (objs.getD a [])) t
          simp only [List.length_cons] at hs
          omega
        rcases ih _ hs2len hs2ne with ⟨p, hp, hpmin⟩
        have hpS : p ∈ a :: t := (List.mem_filter.mp hp).1
        have hpa : DomIdx objs p a := (List.mem_filter.mp hp).2
        refine ⟨p, hpS, ?_⟩
        intro q hq hqp
        have hqa : DomIdx objs q a := DomIdx_trans hlen hqp hpa
        exact hpmin q (List.mem_filter.mpr ⟨hq, hqa⟩) hqp
      · push_neg at hdomin
        exact ⟨a, by simp, fun q hq hqa => hdomin q hq hqa⟩

/-! List utility lemmas for the algorithm state. -/

lemma getD_set_self {A : Type} (l : List A) (i : Nat) (v d : A) (h : i < l.length) :
    (l.set i v).getD i d = v := by
  rw [List.getD_eq_getElem?_getD, List.getElem?_set]
  simp [h]

lemma getD_set_ne {A : Type} (l : List A) (i j : Nat) (v d : A) (h : i ≠ j) :
    (l.set i v).getD j d = l.getD j d := by
  rw [List.getD_eq_getElem?_getD, List.getElem?_set]
  simp [h, List.getD_eq_getElem?_getD]

lemma assignFit_length (F : List Nat) (fit : List (Option Nat)) (v : Nat) :
    (assignFit fit F v).length = fit.length := by
  induction F generalizing fit with
  | nil => rfl
  | cons p t ih =>
    unfold assignFit at ih ⊢
    rw [List.foldl_cons, ih, List.length_set]

lemma assignFit_getD (F : List Nat) (fit : List (Option Nat)) (v : Nat) (q : Nat) :
    (assignFit fit F v).getD q none =
      if q ∈ F ∧ q < fit.length then some v else fit.getD q none := by
  induction F generalizing fit with
  | nil => simp [assignFit]
  | cons p t ih =>
    unfold assignFit at ih ⊢
    rw [List.foldl_cons, ih]
    by_cases hq : q ∈ t ∧ q < (fit.set p (some v)).length
    · rw [if_pos hq]
      rw [List.length_set] at hq
      rw [if_pos (by exact ⟨List.mem_cons_of_mem _ hq.1, hq.2⟩)]
    · rw [if_neg hq]
      rw [List.length_set] at hq
      by_cases hqp : q = p
      · subst hqp
        by_cases hlt : q < fit.length
        · rw [getD_set_self _ _ _ _ hlt, if_pos ⟨List.mem_cons_self _ _, hlt⟩]
        · rw [if_neg (by intro hc; exact hlt hc.2)]
          rw [List.getD_eq_getElem?_getD, List.getElem?_set]
          simp only [if_pos rfl, if_neg hlt]
          rw [List.getD_eq_getElem?_getD, List.getElem?_eq_none (by omega)]
          simp
      · rw [getD_set_ne _ _ _ _ _ (fun hc => hqp hc.symm)]
        rw [if_neg (by
          intro hc
          rcases List.mem_cons.mp hc.1 with h1 | h1
          · exact hqp h1
          · exact hq ⟨h1, hc.2⟩)]

lemma dominatesL_nil_right {A : Type} [LinearOrderedRing A] (p : List A) :
    dominatesL p [] = false := by
  unfold dominatesL
  cases p <;> simp

lemma count_filter_range (N : Nat) (c : Nat → Bool) (q : Nat) :
    List.count q ((List.range N).filter c) = if q < N ∧ c q = true then 1 else 0 := by
  by_cases h : q < N ∧ c q = true
  · rw [if_pos h]
    exact List.count_eq_one_of_mem ((List.nodup_range N).filter c)
      (List.mem_filter.mpr ⟨List.mem_range.mpr h.1, h.2⟩)
  · rw [if_neg h]
    rw [List.count_eq_zero]
    intro hmem
    rcases List.mem_filter.mp hmem with ⟨h1, h2⟩
    exact h ⟨List.mem_range.mp h1, h2⟩

lemma count_domList {A : Type} [LinearOrderedRing A] (objs : List (List A)) (p q : Nat) :
    List.count q (domList objs p) =
      if q < objs.length ∧ dominatesL (objs.getD p []) (objs.getD q []) = true
      then 1 else 0 := by
  unfold domList
  exact count_filter_range _ _ _

lemma count_flatMap_domList {A : Type} [LinearOrderedRing A] (objs : List (List A))
    (F : List Nat) (q : Nat) (hq : q < objs.length) :
    List.count q (F.flatMap (domList objs)) =
      (F.filter (fun p => dominatesL (objs.getD p []) (objs.getD q []))).length := by
  induction F with
  | nil => rfl
  | cons p t ih =>
    rw [List.flatMap_cons, List.count_append, ih, List.filter_cons, count_domList]
    by_cases hdom : dominatesL (objs.getD p []) (objs.getD q []) = true
    · rw [if_pos ⟨hq, hdom⟩, if_pos hdom]
      simp [Nat.add_comm]
    · rw [if_neg (fun hc => hdom hc.2), if_neg hdom]
      simp

lemma length_filter_split {B : Type} (l : List B) (c d : B → Bool) :
    (l.filter (fun a => c a && d a)).length + (l.filter (fun a => c a && !d a)).length
      = (l.filter c).length := by
  induction l with
  | nil => rfl
  | cons a t ih =>
    simp only [List.filter_cons]
    cases hc : c a <;> cases hd : d a <;> simp [hc, hd] <;> omega

lemma filter_and_eq_of_imp {B : Type} (l : List B) (c d : B → Bool)
    (h : ∀ a ∈ l, c a = true → d a = true) :
    l.filter (fun a => c a && d a) = l.filter c := by
  apply List.filter_congr
  intro a ha
  cases hc : c a
  · simp
  · simp [h a ha hc]

lemma exists_true_false_of_filter_lt {B : Type} (l : List B) (c d : B → Bool)
    (h : (l.filter (fun a => c a && d a)).length ≠ (l.filter c).length) :
    ∃ a ∈ l, c a = true ∧ d a = false := by
  by_contra hc
  push_neg at hc
  apply h
  rw [filter_and_eq_of_imp]
  intro a ha hca
  cases hd : d a
  · exact absurd hd (by
      intro hfalse
      exact absurd hfalse (by
        have := hc a ha hca
        intro h2
        exact this h2))
  · rfl

lemma length_filter_range_mem (N : Nat) (F : List Nat) (hnd : F.Nodup)
    (hsub : ∀ p ∈ F, p < N) (c : Nat → Bool) :
    ((List.range N).filter (fun r => c r && decide (r ∈ F))).length
      = (F.filter c).length := by
  have h1 : ((List.range N).filter (fun r => c r && decide (r ∈ F))).Nodup :=
    (List.nodup_range N).filter _
  have h2 : (F.filter c).Nodup := hnd.filter c
  have hmem : ∀ r, r ∈ (List.range N).filter (fun r => c r && decide (r ∈ F))
      ↔ r ∈ F.filter c := by
    intro r
    rw [List.mem_filter, List.mem_filter, List.mem_range, Bool.and_eq_true,
      decide_eq_true_eq]
    constructor
    · rintro ⟨-, hc, hF⟩
      exact ⟨hF, hc⟩
    · rintro ⟨hF, hc⟩
      exact ⟨hsub r hF, hc, hF⟩
  exact List.Perm.length_eq
    (List.Subperm.antisymm
      (h1.subperm (fun r hr => (hmem r).mp hr))
      (h2.subperm (fun r hr => (hmem r).mpr hr)))

lemma length_filter_or_split {B : Type} (l : List B) (c d e : B → Bool)
    (hdisj : ∀ a ∈ l, ¬(d a = true ∧ e a = true)) :
    (l.filter (fun a => c a && (d a || e a))).length
      = (l.filter (fun a => c a && d a)).length
        + (l.filter (fun a => c a && e a)).length := by
  induction l with
  | nil => rfl
  | cons a t ih =>
    have ihr := ih (fun b hb => hdisj b (List.mem_cons_of_mem a hb))
    have hda := hdisj a (List.mem_cons_self a t)
    simp only [List.filter_cons]
    cases hc : c a <;> cases hd : d a <;> cases he : e a <;>
      simp [hc, hd, he, ihr] <;> first
        | omega
        | exact absurd ⟨hd, he⟩ hda

lemma decCollect_eq (cs : List Int) (acc : List Nat) (q : Nat) :
    decCollect (cs, acc) q =
      ((cs.set q (cs.getD q 0 - 1)),
        if (cs.set q (cs.getD q 0 - 1)).getD q 0 = 0 then acc ++ [q] else acc) := by
  show (if (cs.set q (cs.getD q 0 - 1)).getD q 0 = 0 then
          (cs.set q (cs.getD q 0 - 1), acc ++ [q])
        else (cs.set q (cs.getD q 0 - 1), acc)) = _
  split <;> rfl

lemma count_cons_self (q : Nat) (E : List Nat) :
    List.count q (q :: E) = List.count q E + 1 := by
  simp [List.count_cons]

lemma count_cons_ne (q e : Nat) (E : List Nat) (h : q ≠ e) :
    List.count q (e :: E) = List.count q E := by
  simp [List.count_cons, h]

/-- Behaviour of the inner decrement-and-collect loop over a list E of
decrement targets: every counter drops by its multiplicity in E, and the
indices collected into the next front are exactly those whose counter was
positive and is driven down to (or past) zero. -/
lemma decCollect_foldl_spec :
    ∀ (E : List Nat) (cs : List Int) (acc : List Nat),
      (∀ q ∈ E, q < cs.length) →
      (∀ q ∈ acc, cs.getD q 0 ≤ 0) →
      (E.foldl decCollect (cs, acc)).1.length = cs.length ∧
      (∀ q, (E.foldl decCollect (cs, acc)).1.getD q 0
          = cs.getD q 0 - List.count q E) ∧
      (∀ q, q ∈ (E.foldl decCollect (cs, acc)).2 ↔
        q ∈ acc ∨ (1 ≤ cs.getD q 0 ∧ cs.getD q 0 ≤ (List.count q E : Int))) ∧
      (∀ q ∈ (E.foldl decCollect (cs, acc)).2,
        (E.foldl decCollect (cs, acc)).1.getD q 0 ≤ 0) ∧
      (acc.Nodup → (E.foldl decCollect (cs, acc)).2.Nodup) := by
  intro E
  induction E with
  | nil =>
    intro cs acc hE hacc
    refine ⟨rfl, by simp, ?_, hacc, fun h => h⟩
    intro q
    simp only [List.foldl_nil, List.count_nil, Nat.cast_zero]
    constructor
    · intro h
      exact Or.inl h
    · rintro (h | ⟨h1, h2⟩)
      · exact h
      · omega
  | cons e E' ih =>
    intro cs acc hE hacc
    have he : e < cs.length := hE e (List.mem_cons_self e E')
    rw [List.foldl_cons, decCollect_eq]
    have hcs1e : (cs.set e (cs.getD e 0 - 1)).getD e 0 = cs.getD e 0 - 1 :=
      getD_set_self _ _ _ _ he
    have hcs1ne : ∀ q, q ≠ e → (cs.set e (cs.getD e 0 - 1)).getD q 0 = cs.getD q 0 :=
      fun q hq => getD_set_ne _ _ _ _ _ (fun hc => hq hc.symm)
    set cs1 := cs.set e (cs.getD e 0 - 1) with hcs1def
    set acc1 := if cs1.getD e 0 = 0 then acc ++ [e] else acc with hacc1def
    have hE1 : ∀ q ∈ E', q < cs1.length := by
      intro q hq
      rw [hcs1def, List.length_set]
      exact hE q (List.mem_cons_of_mem e hq)
    have hacc1 : ∀ q ∈ acc1, cs1.getD q 0 ≤ 0 := by
      intro q hq
      rw [hacc1def] at hq
      by_cases hcond : cs1.getD e 0 = 0
      · rw [if_pos hcond] at hq
        rcases List.mem_append.mp hq with h1 | h1
        · by_cases hqe : q = e
          · subst hqe; omega
          · rw [hcs1ne q hqe]; exact hacc q h1
        · have hqe : q = e := by simpa using h1
          subst hqe; omega
      · rw [if_neg hcond] at hq
        by_cases hqe : q = e
        · subst hqe
          have h0 := hacc q hq
          rw [hcs1e]
          omega
        · rw [hcs1ne q hqe]; exact hacc q hq
    obtain ⟨ih1, ih2, ih3, ih4, ih5⟩ := ih cs1 acc1 hE1 hacc1
    have hlen1 : cs1.length = cs.length := by rw [hcs1def, List.length_set]
    refine ⟨by rw [ih1, hlen1], ?_, ?_, ih4, ?_⟩
    · intro q
      rw [ih2 q]
      by_cases hqe : q = e
      · subst hqe
        rw [count_cons_self, hcs1e]
        push_cast
        omega
      · rw [count_cons_ne q e E' hqe, hcs1ne q hqe]
    · intro q
      rw [ih3 q]
      by_cases hqe : q = e
      · subst hqe
        rw [count_cons_self, hacc1def, hcs1e]
        by_cases hcond : cs.getD q 0 - 1 = 0
        · rw [if_pos hcond]
          have hmem : q ∈ acc ++ [q] := List.mem_append.mpr (Or.inr (by simp))
          constructor
          · intro h
            right
            push_cast
            omega
          · intro h
            left
            exact hmem
        · rw [if_neg hcond]
          push_cast
          constructor
          · rintro (h | ⟨h1, h2⟩)
            · exact Or.inl h
            · right; omega
          · rintro (h | ⟨h1, h2⟩)
            · exact Or.inl h
            · right; omega
      · rw [count_cons_ne q e E' hqe, hcs1ne q hqe]
        have haccmem : q ∈ acc1 ↔ q ∈ acc := by
          rw [hacc1def]
          by_cases hcond : cs1.getD e 0 = 0
          · rw [if_pos hcond, List.mem_append]
            constructor
            · rintro (h | h)
              · exact h
              · exact absurd (by simpa using h) hqe
            · exact fun h => Or.inl h
          · rw [if_neg hcond]
        rw [haccmem]
    · intro hnd
      apply ih5
      rw [hacc1def]
      by_cases hcond : cs1.getD e 0 = 0
      · rw [if_pos hcond]
        have hene : e ∉ acc := by
          intro hmem
          have h0 := hacc e hmem
          rw [hcs1e] at hcond
          omega
        simpa [List.nodup_append] using ⟨hnd, hene⟩
      · rw [if_neg hcond]
        exact hnd

/-- Boolean test: has index p already been assigned a fitness value
strictly below i. -/
def fitLtB (fit : List (Option Nat)) (i : Nat) (p : Nat) : Bool :=
  match fit.getD p none with
  | some k => decide (k < i)
  | none => false

/-- Number of indices below N still lacking a fitness value. -/
def unassignedCount (N : Nat) (fit : List (Option Nat)) : Nat :=
  ((List.range N).filter (fun q => (fit.getD q none).isNone)).length

/-- Loop invariant of the front-peeling phase of assign_fitness_by_dominance:
F is exactly the current front i, fitness values are assigned exactly to
fronts 0..i, each counter n[q] equals the number of dominators of q not yet
peeled before front i, every unassigned index still has a positive counter,
dominators of assigned individuals sit in strictly earlier fronts (p1), and
every front beyond 0 is witnessed by a dominator in the previous front (p2). -/
structure PeelInv {A : Type} [LinearOrderedRing A] (objs : List (List A))
    (cs : List Int) (F : List Nat) (fit : List (Option Nat)) (i : Nat) : Prop where
  csLen : cs.length = objs.length
  fitLen : fit.length = objs.length
  fNodup : F.Nodup
  fMem : ∀ p ∈ F, p < objs.length
  fIff : ∀ p, p ∈ F ↔ fit.getD p none = some i
  fitLe : ∀ q k, fit.getD q none = some k → k ≤ i
  counter : ∀ q, q < objs.length →
    cs.getD q 0 = domCount objs q -
      (((List.range objs.length).filter
        (fun p => dominatesL (objs.getD p []) (objs.getD q []) && fitLtB fit i p)).length : Int)
  unassigned : ∀ q, q < objs.length → fit.getD q none = none → 1 ≤ cs.getD q 0
  p1 : ∀ p q k, DomIdx objs q p → fit.getD p none = some k →
    ∃ k2, fit.getD q none = some k2 ∧ k2 < k
  p2 : ∀ q k, fit.getD q none = some (k + 1) →
    ∃ p, DomIdx objs p q ∧ fit.getD p none = some k

lemma assigned_counter_zero {A : Type} [LinearOrderedRing A] {objs : List (List A)}
    {cs : List Int} {F : List Nat} {fit : List (Option Nat)} {i : Nat}
    (inv : PeelInv objs cs F fit i) {q k : Nat} (hq : q < objs.length)
    (hfit : fit.getD q none = some k) : cs.getD q 0 = 0 := by
  rw [inv.counter q hq]
  have heq : (List.range objs.length).filter
      (fun p => dominatesL (objs.getD p []) (objs.getD q []) && fitLtB fit i p)
      = (List.range objs.length).filter
        (fun p => dominatesL (objs.getD p []) (objs.getD q [])) := by
    apply filter_and_eq_of_imp
    intro p hp hdom
    rcases inv.p1 q p k hdom hfit with ⟨k2, hk2, hk2lt⟩
    unfold fitLtB
    rw [hk2]
    have hk := inv.fitLe p k2 hk2
    have hkk := inv.fitLe q k hfit
    simp
    omega
  rw [heq]
  unfold domCount
  omega

lemma unassigned_has_unassigned_dominator {A : Type} [LinearOrderedRing A]
    {objs : List (List A)} {cs : List Int} {fit : List (Option Nat)} {i : Nat}
    (inv : PeelInv objs cs [] fit i) {q : Nat} (hq : q < objs.length)
    (hfit : fit.getD q none = none) :
    ∃ p, DomIdx objs p q ∧ fit.getD p none = none := by
  have hpos := inv.unassigned q hq hfit
  rw [inv.counter q hq] at hpos
  have hne : (((List.range objs.length).filter
      (fun p => dominatesL (objs.getD p []) (objs.getD q []) && fitLtB fit i p)).length)
      ≠ (((List.range objs.length).filter
        (fun p => dominatesL (objs.getD p []) (objs.getD q []))).length) := by
    unfold domCount at hpos
    omega
  rcases exists_true_false_of_filter_lt _ _ _ hne with ⟨p, hp, hdom, hflt⟩
  refine ⟨p, hdom, ?_⟩
  unfold fitLtB at hflt
  cases hcase : fit.getD p none with
  | none => rfl
  | some k =>
    rw [hcase] at hflt
    simp only [decide_eq_false_iff_not, not_lt] at hflt
    have hle := inv.fitLe p k hcase
    have hki : k = i := le_antisymm hle hflt
    have : p ∈ ([] : List Nat) := (inv.fIff p).mpr (by rw [hcase, hki])
    simp at this

lemma all_assigned_of_empty_front {A : Type} [LinearOrderedRing A]
    {objs : List (List A)} {m : Nat} (hlen : ∀ l ∈ objs, l.length = m)
    {cs : List Int} {fit : List (Option Nat)} {i : Nat}
    (inv : PeelInv objs cs [] fit i) :
    ∀ q, q < objs.length → (fit.getD q none).isSome := by
  by_contra hc
  push_neg at hc
  rcases hc with ⟨q0, hq0, hq0none⟩
  have hq0n : fit.getD q0 none = none := by
    cases hcase : fit.getD q0 none with
    | none => rfl
    | some k => rw [hcase] at hq0none; simp at hq0none
  have hU : q0 ∈ (List.range objs.length).filter
      (fun q => (fit.getD q none).isNone) := by
    rw [List.mem_filter, List.mem_range]
    exact ⟨hq0, by rw [hq0n]; rfl⟩
  have hUne : (List.range objs.length).filter
      (fun q => (fit.getD q none).isNone) ≠ [] := by
    intro hemp
    rw [hemp] at hU
    simp at hU
  rcases exists_nondominated hlen _ _ (le_refl _) hUne with ⟨p, hp, hpmin⟩
  rcases List.mem_filter.mp hp with ⟨hpr, hpnoneb⟩
  have hpnone : fit.getD p none = none := by
    cases hcase : fit.getD p none with
    | none => rfl
    | some k => rw [hcase] at hpnoneb; simp at hpnoneb
  rcases unassigned_has_unassigned_dominator inv (List.mem_range.mp hpr) hpnone with
    ⟨r, hrdom, hrnone⟩
  have hrU : r ∈ (List.range objs.length).filter
      (fun q => (fit.getD q none).isNone) := by
    rw [List.mem_filter, List.mem_range]
    exact ⟨(DomIdx_lt hrdom).1, by rw [hrnone]; rfl⟩
  exact hpmin r hrU hrdom

/-- One round of the peeling loop preserves the invariant, collects only
previously unassigned indices, and assigns fitness to exactly the indices
of the new front. -/
lemma peel_round {A : Type} [LinearOrderedRing A] {objs : List (List A)}
    {cs : List Int} {F : List Nat} {fit : List (Option Nat)} {i : Nat}
    (inv : PeelInv objs cs F fit i) :
    PeelInv objs (processFront objs cs F).1 (processFront objs cs F).2
      (assignFit fit (processFront objs cs F).2 (i + 1)) (i + 1) ∧
    (∀ q ∈ (processFront objs cs F).2, fit.getD q none = none) ∧
    unassignedCount objs.length (assignFit fit (processFront objs cs F).2 (i + 1))
      + (processFront objs cs F).2.length = unassignedCount objs.length fit := by
  unfold processFront
  have hEsub : ∀ q ∈ F.flatMap (domList objs), q < cs.length := by
    intro q hq
    rcases List.mem_flatMap.mp hq with ⟨p, -, hqd⟩
    unfold domList at hqd
    rcases List.mem_filter.mp hqd with ⟨hqr, -⟩
    rw [inv.csLen]
    exact List.mem_range.mp hqr
  obtain ⟨d1, d2, d3, d4, d5⟩ :=
    decCollect_foldl_spec (F.flatMap (domList objs)) cs [] hEsub (by simp)
  have d3s : ∀ q, q ∈ ((F.flatMap (domList objs)).foldl decCollect (cs, [])).2 ↔
      (1 ≤ cs.getD q 0 ∧
        cs.getD q 0 ≤ (List.count q (F.flatMap (domList objs)) : Int)) := by
    intro q
    rw [d3 q]
    simp
  have countE : ∀ q, q < objs.length → List.count q (F.flatMap (domList objs))
      = (F.filter (fun p => dominatesL (objs.getD p []) (objs.getD q []))).length :=
    fun q hq => count_flatMap_domList objs F q hq
  have hbridge : ∀ q,
      (F.filter (fun p => dominatesL (objs.getD p []) (objs.getD q []))).length
      = ((List.range objs.length).filter
          (fun r => dominatesL (objs.getD r []) (objs.getD q []) && decide (r ∈ F))).length :=
    fun q => (length_filter_range_mem objs.length F inv.fNodup inv.fMem _).symm
  have newF_lt : ∀ q ∈ ((F.flatMap (domList objs)).foldl decCollect (cs, [])).2,
      q < objs.length := by
    intro q hq
    rcases (d3s q).mp hq with ⟨h1, h2⟩
    have hcount : List.count q (F.flatMap (domList objs)) ≠ 0 := by
      intro h0
      rw [h0] at h2
      push_cast at h2
      omega
    have hmem : q ∈ F.flatMap (domList objs) := by
      by_contra hc
      exact hcount (List.count_eq_zero.mpr hc)
    rw [← inv.csLen]
    exact hEsub q hmem
  have newF_un : ∀ q ∈ ((F.flatMap (domList objs)).foldl decCollect (cs, [])).2,
      fit.getD q none = none := by
    intro q hq
    cases hcase : fit.getD q none with
    | none => rfl
    | some k =>
      have h0 := assigned_counter_zero inv (newF_lt q hq) hcase
      rcases (d3s q).mp hq with ⟨h1, -⟩
      omega
  have hfit2 : ∀ q, (assignFit fit ((F.flatMap (domList objs)).foldl decCollect (cs, [])).2
      (i + 1)).getD q none =
      if q ∈ ((F.flatMap (domList objs)).foldl decCollect (cs, [])).2 ∧ q < fit.length
      then some (i + 1) else fit.getD q none :=
    fun q => assignFit_getD _ fit (i + 1) q
  have hfit2mem : ∀ q ∈ ((F.flatMap (domList objs)).foldl decCollect (cs, [])).2,
      (assignFit fit ((F.flatMap (domList objs)).foldl decCollect (cs, [])).2
        (i + 1)).getD q none = some (i + 1) := by
    intro q hq
    rw [hfit2 q, if_pos ⟨hq, by rw [inv.fitLen]; exact newF_lt q hq⟩]
  have hfit2no : ∀ q, q ∉ ((F.flatMap (domList objs)).foldl decCollect (cs, [])).2 →
      (assignFit fit ((F.flatMap (domList objs)).foldl decCollect (cs, [])).2
        (i + 1)).getD q none = fit.getD q none := by
    intro q hq
    rw [hfit2 q, if_neg (fun hc => hq hc.1)]
  have FL : ∀ r, fitLtB (assignFit fit
        ((F.flatMap (domList objs)).foldl decCollect (cs, [])).2 (i + 1)) (i + 1) r
      = (fitLtB fit i r || decide (r ∈ F)) := by
    intro r
    by_cases hr : r ∈ ((F.flatMap (domList objs)).foldl decCollect (cs, [])).2
    · unfold fitLtB
      rw [hfit2mem r hr, newF_un r hr]
      have hrF : r ∉ F := by
        intro hc
        have := (inv.fIff r).mp hc
        rw [newF_un r hr] at this
        exact Option.noConfusion this
      simp [hrF]
    · unfold fitLtB
      rw [hfit2no r hr]
      cases hcase : fit.getD r none with
      | none =>
        have hrF : r ∉ F := by
          intro hc
          have := (inv.fIff r).mp hc
          rw [hcase] at this
          exact Option.noConfusion this
        simp [hrF]
      | some k =>
        have hk := inv.fitLe r k hcase
        have hlt : k < i + 1 := by omega
        by_cases hki : k < i
        · simp [hlt, hki]
        · have hkeq : k = i := by omega
          have hrF : r ∈ F := (inv.fIff r).mpr (by rw [hcase, hkeq])
          simp [hlt, hrF]
  have counterNew : ∀ q, q < objs.length →
      ((F.flatMap (domList objs)).foldl decCollect (cs, [])).1.getD q 0
        = domCount objs q -
          (((List.range objs.length).filter
            (fun p => dominatesL (objs.getD p []) (objs.getD q []) &&
              fitLtB (assignFit fit
                ((F.flatMap (domList objs)).foldl decCollect (cs, [])).2 (i + 1))
                (i + 1) p)).length : Int) := by
    intro q hq
    rw [d2 q, inv.counter q hq, countE q hq, hbridge q]
    have hsplit : ((List.range objs.length).filter
        (fun p => dominatesL (objs.getD p []) (objs.getD q []) &&
          fitLtB (assignFit fit
            ((F.flatMap (domList objs)).foldl decCollect (cs, [])).2 (i + 1))
            (i + 1) p)).length
        = ((List.range objs.length).filter
            (fun p => dominatesL (objs.getD p []) (objs.getD q []) && fitLtB fit i p)).length
          + ((List.range objs.length).filter
            (fun p => dominatesL (objs.getD p []) (objs.getD q []) &&
              decide (p ∈ F))).length := by
      rw [List.filter_congr (fun p _ => by rw [FL p])]
      apply length_filter_or_split
      intro p hp hcontra
      rcases hcontra with ⟨hd, he⟩
      unfold fitLtB at hd
      cases hcase : fit.getD p none with
      | none => rw [hcase] at hd; exact Bool.noConfusion hd
      | some k =>
        rw [hcase] at hd
        have hki : k < i := by simpa using hd
        have := (inv.fIff p).mp (by simpa using he)
        rw [hcase] at this
        have : k = i := by

          exact Option.some.inj this
        omega
    rw [hsplit]
    push_cast
    ring
  have KD : ∀ q ∈ ((F.flatMap (domList objs)).foldl decCollect (cs, [])).2,
      ∀ p, DomIdx objs p q →
        fitLtB (assignFit fit
          ((F.flatMap (domList objs)).foldl decCollect (cs, [])).2 (i + 1))
          (i + 1) p = true := by
    intro q hq p hdom
    have hqN := newF_lt q hq
    have hle0 := d4 q hq
    have hsub := length_filter_split (List.range objs.length)
      (fun p => dominatesL (objs.getD p []) (objs.getD q []))
      (fun p => fitLtB (assignFit fit
        ((F.flatMap (domList objs)).foldl decCollect (cs, [])).2 (i + 1)) (i + 1) p)
    have hzero : ((F.flatMap (domList objs)).foldl decCollect (cs, [])).1.getD q 0 = 0 := by
      have hge0 : (0 : Int) ≤
          ((F.flatMap (domList objs)).foldl decCollect (cs, [])).1.getD q 0 := by
        rw [counterNew q hqN]
        unfold domCount
        omega
      omega
    by_contra hcon
    have hconf : fitLtB (assignFit fit
        ((F.flatMap (domList objs)).foldl decCollect (cs, [])).2 (i + 1))
        (i + 1) p = false := by
      cases hcase : fitLtB (assignFit fit
          ((F.flatMap (domList objs)).foldl decCollect (cs, [])).2 (i + 1)) (i + 1) p
      · rfl
      · exact absurd hcase hcon
    have hpN := (DomIdx_lt hdom).1
    have hmem : p ∈ (List.range objs.length).filter
        (fun r => dominatesL (objs.getD r []) (objs.getD q []) &&
          ! fitLtB (assignFit fit
            ((F.flatMap (domList objs)).foldl decCollect (cs, [])).2 (i + 1))
            (i + 1) r) := by
      rw [List.mem_filter, List.mem_range]
      refine ⟨hpN, ?_⟩
      rw [hconf]
      unfold DomIdx at hdom
      rw [hdom]
      rfl
    have hpos := List.length_pos_of_mem hmem
    rw [counterNew q hqN] at hzero
    unfold domCount at hzero
    omega
  refine ⟨⟨by rw [d1, inv.csLen], by rw [assignFit_length, inv.fitLen],
    d5 (by simp), newF_lt, ?_, ?_, counterNew, ?_, ?_, ?_⟩, newF_un, ?_⟩
  · -- fIff
    intro p
    constructor
    · exact fun h => hfit2mem p h
    · intro h
      by_contra hn
      rw [hfit2no p hn] at h
      have := inv.fitLe p (i + 1) h
      omega
  · -- fitLe
    intro q k h
    by_cases hq : q ∈ ((F.flatMap (domList objs)).foldl decCollect (cs, [])).2
    · rw [hfit2mem q hq] at h
      have : k = i + 1 := Option.some.inj h.symm
      omega
    · rw [hfit2no q hq] at h
      have := inv.fitLe q k h
      omega
  · -- unassigned
    intro q hq hnone
    have hqn : q ∉ ((F.flatMap (domList objs)).foldl decCollect (cs, [])).2 := by
      intro hc
      rw [hfit2mem q hc] at hnone
      exact Option.noConfusion hnone
    rw [hfit2no q hqn] at hnone
    have h1 := inv.unassigned q hq hnone
    have h2 : ¬(1 ≤ cs.getD q 0 ∧
        cs.getD q 0 ≤ (List.count q (F.flatMap (domList objs)) : Int)) :=
      fun hrhs => hqn ((d3s q).mpr hrhs)
    rw [d2 q]
    omega
  · -- p1
    intro p q k hdom hfitp
    by_cases hp : p ∈ ((F.flatMap (domList objs)).foldl decCollect (cs, [])).2
    · have hk : k = i + 1 := (Option.some.inj ((hfit2mem p hp).symm.trans hfitp)).symm
      have hflt := KD p hp q hdom
      unfold fitLtB at hflt
      cases hcase : (assignFit fit
          ((F.flatMap (domList objs)).foldl decCollect (cs, [])).2 (i + 1)).getD q none with
      | none => rw [hcase] at hflt; exact Bool.noConfusion hflt
      | some k2 =>
        rw [hcase] at hflt
        refine ⟨k2, rfl, ?_⟩
        rw [hk]
        simpa using hflt
    · rw [hfit2no p hp] at hfitp
      rcases inv.p1 p q k hdom hfitp with ⟨k2, hk2, hlt⟩
      have hqn : q ∉ ((F.flatMap (domList objs)).foldl decCollect (cs, [])).2 := by
        intro hc
        rw [newF_un q hc] at hk2
        exact Option.noConfusion hk2
      exact ⟨k2, by rw [hfit2no q hqn]; exact hk2, hlt⟩
  · -- p2
    intro q k hfitq
    by_cases hq : q ∈ ((F.flatMap (domList objs)).foldl decCollect (cs, [])).2
    · have hk : k = i := by
        have := Option.some.inj ((hfit2mem q hq).symm.trans hfitq)
        omega
      have hqN := newF_lt q hq
      rcases (d3s q).mp hq with ⟨h1, -⟩
      rw [inv.counter q hqN] at h1
      have hne : (((List.range objs.length).filter
          (fun p => dominatesL (objs.getD p []) (objs.getD q []) && fitLtB fit i p)).length)
          ≠ (((List.range objs.length).filter
            (fun p => dominatesL (objs.getD p []) (objs.getD q []))).length) := by
        unfold domCount at h1
        omega
      rcases exists_true_false_of_filter_lt _ _ _ hne with ⟨p, hpr, hdom, hflt⟩
      have hdomI : DomIdx objs p q := hdom
      unfold fitLtB at hflt
      cases hcase : fit.getD p none with
      | none =>
        exfalso
        have hkd := KD q hq p hdomI
        unfold fitLtB at hkd
        by_cases hpn : p ∈ ((F.flatMap (domList objs)).foldl decCollect (cs, [])).2
        · rw [hfit2mem p hpn] at hkd
          simp at hkd
        · rw [hfit2no p hpn, hcase] at hkd
          exact Bool.noConfusion hkd
      | some k2 =>
        rw [hcase] at hflt
        have hk2le := inv.fitLe p k2 hcase
        have hk2i : k2 = i := by
          simp only [decide_eq_false_iff_not, not_lt] at hflt
          omega
        have hpn : p ∉ ((F.flatMap (domList objs)).foldl decCollect (cs, [])).2 := by
          intro hc
          rw [newF_un p hc] at hcase
          exact Option.noConfusion hcase
        refine ⟨p, hdomI, ?_⟩
        rw [hfit2no p hpn, hcase, hk2i, hk]
    · rw [hfit2no q hq] at hfitq
      rcases inv.p2 q k hfitq with ⟨p, hdom, hfitp⟩
      have hpn : p ∉ ((F.flatMap (domList objs)).foldl decCollect (cs, [])).2 := by
        intro hc
        rw [newF_un p hc] at hfitp
        exact Option.noConfusion hfitp
      exact ⟨p, hdom, by rw [hfit2no p hpn]; exact hfitp⟩
  · -- unassigned count equation
    unfold unassignedCount
    have hcong : (List.range objs.length).filter
        (fun q => ((assignFit fit
          ((F.flatMap (domList objs)).foldl decCollect (cs, [])).2 (i + 1)).getD q none).isNone)
        = (List.range objs.length).filter
          (fun q => (fit.getD q none).isNone &&
            ! decide (q ∈ ((F.flatMap (domList objs)).foldl decCollect (cs, [])).2)) := by
      apply List.filter_congr
      intro q hq
      by_cases hmem : q ∈ ((F.flatMap (domList objs)).foldl decCollect (cs, [])).2
      · rw [hfit2mem q hmem, newF_un q hmem]
        simp [hmem]
      · rw [hfit2no q hmem]
        simp [hmem]
    rw [hcong]
    have hsplit := length_filter_split (List.range objs.length)
      (fun q => (fit.getD q none).isNone)
      (fun q => decide (q ∈ ((F.flatMap (domList objs)).foldl decCollect (cs, [])).2))
    have hmemlen : ((List.range objs.length).filter
        (fun q => (fit.getD q none).isNone &&
          decide (q ∈ ((F.flatMap (domList objs)).foldl decCollect (cs, [])).2))).length
        = ((F.flatMap (domList objs)).foldl decCollect (cs, [])).2.length := by
      rw [length_filter_range_mem objs.length _ (d5 (by simp)) newF_lt]
      rw [List.filter_eq_self.mpr]
      intro q hq
      rw [newF_un q hq]
      rfl
    omega

lemma getD_map_range (N q : Nat) (f : Nat → Int) (h : q < N) :
    ((List.range N).map f).getD q 0 = f q := by
  rw [List.getD_eq_getElem _ _ (by simpa using h)]
  simp

lemma getD_replicate_none (N q : Nat) :
    ((List.replicate N (none : Option Nat)).getD q none) = none := by
  rw [List.getD_eq_getElem?_getD]
  rcases Nat.lt_or_ge q N with h | h
  · rw [List.getElem?_replicate, if_pos h]
    rfl
  · rw [List.getElem?_eq_none (by simpa using h)]
    rfl

/-- The state entering the peeling loop satisfies the invariant at front 0. -/
lemma peel_init {A : Type} [LinearOrderedRing A] (objs : List (List A)) :
    PeelInv objs ((List.range objs.length).map (domCount objs))
      ((List.range objs.length).filter (fun p => decide (domCount objs p = 0)))
      (assignFit (List.replicate objs.length none)
        ((List.range objs.length).filter (fun p => decide (domCount objs p = 0))) 0) 0 := by
  have hchar : ∀ q, (assignFit (List.replicate objs.length none)
      ((List.range objs.length).filter (fun p => decide (domCount objs p = 0))) 0).getD q none
      = if q ∈ (List.range objs.length).filter (fun p => decide (domCount objs p = 0))
        then some 0 else none := by
    intro q
    rw [assignFit_getD]
    by_cases hmem : q ∈ (List.range objs.length).filter (fun p => decide (domCount objs p = 0))
    · have hq : q < objs.length := List.mem_range.mp (List.mem_filter.mp hmem).1
      rw [if_pos ⟨hmem, by simpa using hq⟩, if_pos hmem]
    · rw [if_neg (fun hc => hmem hc.1), if_neg hmem]
      exact getD_replicate_none _ _
  refine ⟨by simp, by rw [assignFit_length]; simp, (List.nodup_range _).filter _,
    fun p hp => List.mem_range.mp (List.mem_filter.mp hp).1, ?_, ?_, ?_, ?_, ?_, ?_⟩
  · intro p
    rw [hchar p]
    by_cases hmem : p ∈ (List.range objs.length).filter (fun p => decide (domCount objs p = 0))
    · simp [hmem]
    · simp [hmem]
  · intro q k h
    rw [hchar q] at h
    by_cases hmem : q ∈ (List.range objs.length).filter (fun p => decide (domCount objs p = 0))
    · rw [if_pos hmem] at h
      have hk := Option.some.inj h
      omega
    · rw [if_neg hmem] at h
      exact Option.noConfusion h
  · intro q hq
    rw [getD_map_range _ _ _ hq]
    have hfl : ∀ p, (fitLtB (assignFit (List.replicate objs.length none)
        ((List.range objs.length).filter (fun p => decide (domCount objs p = 0))) 0) 0 p)
        = false := by
      intro p
      unfold fitLtB
      rw [hchar p]
      by_cases hmem : p ∈ (List.range objs.length).filter (fun p => decide (domCount objs p = 0))
      · rw [if_pos hmem]
        simp
      · rw [if_neg hmem]
    have : (List.range objs.length).filter
        (fun p => dominatesL (objs.getD p []) (objs.getD q []) &&
          fitLtB (assignFit (List.replicate objs.length none)
            ((List.range objs.length).filter (fun p => decide (domCount objs p = 0))) 0) 0 p)
        = [] := by
      rw [List.filter_eq_nil_iff]
      intro p hp
      rw [hfl p]
      simp
    rw [this]
    simp
  · intro q hq hnone
    rw [hchar q] at hnone
    by_cases hmem : q ∈ (List.range objs.length).filter (fun p => decide (domCount objs p = 0))
    · rw [if_pos hmem] at hnone
      exact Option.noConfusion hnone
    · rw [getD_map_range _ _ _ hq]
      have hne : ¬ (domCount objs q = 0) := by
        intro h0
        exact hmem (List.mem_filter.mpr ⟨List.mem_range.mpr hq, by simpa using h0⟩)
      unfold domCount at hne ⊢
      omega
  · intro p q k hdom hfitp
    exfalso
    rw [hchar p] at hfitp
    by_cases hmem : p ∈ (List.range objs.length).filter (fun p => decide (domCount objs p = 0))
    · have hd0 : domCount objs p = 0 := by
        simpa using (List.mem_filter.mp hmem).2
      have hqN := (DomIdx_lt hdom).1
      have hqmem : q ∈ (List.range objs.length).filter
          (fun r => dominatesL (objs.getD r []) (objs.getD p [])) := by
        rw [List.mem_filter, List.mem_range]
        exact ⟨hqN, hdom⟩
      have := List.length_pos_of_mem hqmem
      unfold domCount at hd0
      omega
    · rw [if_neg hmem] at hfitp
      exact Option.noConfusion hfitp
  · intro q k hfitq
    exfalso
    rw [hchar q] at hfitq
    by_cases hmem : q ∈ (List.range objs.length).filter (fun p => decide (domCount objs p = 0))
    · rw [if_pos hmem] at hfitq
      exact Nat.noConfusion (Option.some.inj hfitq)
    · rw [if_neg hmem] at hfitq
      exact Option.noConfusion hfitq

/-- Full postcondition of the peeling loop: with enough fuel, every index
receives a fitness value; dominators always have strictly smaller fitness;
and every positive fitness value is witnessed by a dominator in the
immediately preceding front. -/
lemma peelLoop_props {A : Type} [LinearOrderedRing A] {objs : List (List A)} {m : Nat}
    (hlen : ∀ l ∈ objs, l.length = m) :
    ∀ (fuel : Nat) (cs : List Int) (F : List Nat) (fit : List (Option Nat)) (i : Nat),
      PeelInv objs cs F fit i →
      unassignedCount objs.length fit ≤ fuel →
      (peelLoop objs fuel cs F fit i).length = objs.length ∧
      (∀ q, q < objs.length → ∃ k, (peelLoop objs fuel cs F fit i).getD q none = some k) ∧
      (∀ p q k, DomIdx objs q p → (peelLoop objs fuel cs F fit i).getD p none = some k →
        ∃ k2, (peelLoop objs fuel cs F fit i).getD q none = some k2 ∧ k2 < k) ∧
      (∀ q k, (peelLoop objs fuel cs F fit i).getD q none = some (k + 1) →
        ∃ p, DomIdx objs p q ∧ (peelLoop objs fuel cs F fit i).getD p none = some k) := by
  intro fuel
  induction fuel with
  | zero =>
    intro cs F fit i inv hfuel
    have hall : ∀ q, q < objs.length → ∃ k, fit.getD q none = some k := by
      intro q hq
      cases hcase : fit.getD q none with
      | some k => exact ⟨k, rfl⟩
      | none =>
        exfalso
        have hmem : q ∈ (List.range objs.length).filter
            (fun r => (fit.getD r none).isNone) := by
          rw [List.mem_filter, List.mem_range]
          exact ⟨hq, by rw [hcase]; rfl⟩
        have hpos := List.length_pos_of_mem hmem
        unfold unassignedCount at hfuel
        omega
    exact ⟨inv.fitLen, hall, inv.p1, inv.p2⟩
  | succ fuel ih =>
    intro cs F fit i inv hfuel
    have hstep : peelLoop objs (fuel + 1) cs F fit i =
        if F.isEmpty then fit
        else peelLoop objs fuel (processFront objs cs F).1 (processFront objs cs F).2
          (assignFit fit (processFront objs cs F).2 (i + 1)) (i + 1) := rfl
    by_cases hF : F.isEmpty
    · rw [hstep, if_pos hF]
      have hFnil : F = [] := List.isEmpty_iff.mp hF
      subst hFnil
      have hall := all_assigned_of_empty_front hlen inv
      refine ⟨inv.fitLen, ?_, inv.p1, inv.p2⟩
      intro q hq
      cases hcase : fit.getD q none with
      | some k => exact ⟨k, rfl⟩
      | none =>
        exfalso
        have := hall q hq
        rw [hcase] at this
        exact Bool.noConfusion this
    · rw [hstep, if_neg hF]
      obtain ⟨inv2, hun, hcount⟩ := peel_round inv
      have hfuel2 : unassignedCount objs.length
          (assignFit fit (processFront objs cs F).2 (i + 1)) ≤ fuel := by
        by_cases hnewF : (processFront objs cs F).2 = []
        · have inv3 := hnewF ▸ inv2
          have hall := all_assigned_of_empty_front hlen inv3
          have hzero : unassignedCount objs.length
              (assignFit fit (processFront objs cs F).2 (i + 1)) = 0 := by
            rw [hnewF]
            unfold unassignedCount
            rw [List.length_eq_zero, List.filter_eq_nil_iff]
            intro q hq
            have h2 := hall q (List.mem_range.mp hq)
            intro hcontra
            rw [Option.isNone_iff_eq_none] at hcontra
            rw [hcontra] at h2
            exact Bool.noConfusion h2
          omega
        · have hpos : 1 ≤ (processFront objs cs F).2.length := by
            cases hcase : (processFront objs cs F).2 with
            | nil => exact absurd hcase hnewF
            | cons a t => simp [hcase]
          omega
      exact ih _ _ _ _ inv2 hfuel2

lemma all_of_length_filter_eq {B : Type} :
    ∀ (l : List B) (p : B → Bool), (l.filter p).length = l.length → ∀ a ∈ l, p a := by
  intro l
  induction l with
  | nil => intro p h a ha; simp at ha
  | cons x t ih =>
    intro p h a ha
    rw [List.filter_cons] at h
    have hle := List.length_filter_le p t
    by_cases hx : p x
    · rw [if_pos hx] at h
      simp only [List.length_cons] at h
      rcases List.mem_cons.mp ha with rfl | hat
      · exact hx
      · exact ih p (by omega) a hat
    · rw [if_neg hx] at h
      simp only [List.length_cons] at h
      omega

lemma peelLoop_length {A : Type} [LinearOrderedRing A] (objs : List (List A)) :
    ∀ (fuel : Nat) (cs : List Int) (F : List Nat) (fit : List (Option Nat)) (i : Nat),
      (peelLoop objs fuel cs F fit i).length = fit.length := by
  intro fuel
  induction fuel with
  | zero => intro cs F fit i; rfl
  | succ fuel ih =>
    intro cs F fit i
    have hstep : peelLoop objs (fuel + 1) cs F fit i =
        if F.isEmpty then fit
        else peelLoop objs fuel (processFront objs cs F).1 (processFront objs cs F).2
          (assignFit fit (processFront objs cs F).2 (i + 1)) (i + 1) := rfl
    rw [hstep]
    by_cases hF : F.isEmpty
    · rw [if_pos hF]
    · rw [if_neg hF, ih, assignFit_length]

lemma foldl_max_const (m : Nat) :
    ∀ (l : List Nat), (∀ x ∈ l, x = m) → ∀ a, l.foldl max a = if l.isEmpty then a else max a m := by
  intro l
  induction l with
  | nil => intro h a; rfl
  | cons x t ih =>
    intro h a
    have hx : x = m := h x (List.mem_cons_self x t)
    rw [List.foldl_cons, hx]
    rw [ih (fun y hy => h y (List.mem_cons_of_mem x hy)) (max a m)]
    by_cases ht : t.isEmpty
    · rw [if_pos ht]
      simp
    · rw [if_neg ht]
      simp [max_assoc]

lemma fitnessByDominance_length {A : Type} [LinearOrderedRing A] (objs : List (List A)) :
    (fitnessByDominance objs).length = objs.length := by
  unfold fitnessByDominance
  by_cases h : 1 < (objs.map List.length).foldl max 0
  · rw [if_pos h, peelLoop_length, assignFit_length, List.length_replicate]
  · rw [if_neg h, List.length_replicate]

lemma fitnessByDominance_eq_peel {A : Type} [LinearOrderedRing A] (objs : List (List A))
    (m : Nat) (hm : 2 ≤ m) (hlen : ∀ l ∈ objs, l.length = m) (hne : ¬ objs.isEmpty) :
    fitnessByDominance objs = peelLoop objs (objs.length + 1)
      ((List.range objs.length).map (domCount objs))
      ((List.range objs.length).filter (fun p => decide (domCount objs p = 0)))
      (assignFit (List.replicate objs.length none)
        ((List.range objs.length).filter (fun p => decide (domCount objs p = 0))) 0) 0 := by
  unfold fitnessByDominance
  have hmax : (objs.map List.length).foldl max 0 = m := by
    rw [foldl_max_const m (objs.map List.length)
      (fun x hx => by
        rcases List.mem_map.mp hx with ⟨l, hl, rfl⟩
        exact hlen l hl) 0]
    rw [if_neg (by simpa using hne)]
    omega
  rw [hmax, if_pos (by omega)]

/-- Full correctness of the fitness assignment over objective vectors with
at least two objectives: total, dominators in strictly earlier fronts, and
positive fronts witnessed from the previous front. -/
lemma fitnessByDominance_props {A : Type} [LinearOrderedRing A] (objs : List (List A))
    (m : Nat) (hm : 2 ≤ m) (hlen : ∀ l ∈ objs, l.length = m) (hne : ¬ objs.isEmpty) :
    (∀ q, q < objs.length → ∃ k, (fitnessByDominance objs).getD q none = some k) ∧
    (∀ p q k, DomIdx objs q p → (fitnessByDominance objs).getD p none = some k →
      ∃ k2, (fitnessByDominance objs).getD q none = some k2 ∧ k2 < k) ∧
    (∀ q k, (fitnessByDominance objs).getD q none = some (k + 1) →
      ∃ p, DomIdx objs p q ∧ (fitnessByDominance objs).getD p none = some k) := by
  rw [fitnessByDominance_eq_peel objs m hm hlen hne]
  have hfuel : unassignedCount objs.length
      (assignFit (List.replicate objs.length none)
        ((List.range objs.length).filter (fun p => decide (domCount objs p = 0))) 0)
      ≤ objs.length + 1 := by
    unfold unassignedCount
    have := List.length_filter_le
      (fun q => ((assignFit (List.replicate objs.length none)
        ((List.range objs.length).filter (fun p => decide (domCount objs p = 0))) 0).getD
          q none).isNone)
      (List.range objs.length)
    simp only [List.length_range] at this
    omega
  obtain ⟨-, h2, h3, h4⟩ :=
    peelLoop_props hlen (objs.length + 1) _ _ _ _ (peel_init objs) hfuel
  exact ⟨h2, h3, h4⟩

lemma assignFitness_ok_char {A : Type} [LinearOrderedRing A] {pop pop2 : List (Ind A)}
    (hok : assignFitnessByDominance pop = Except.ok pop2) :
    (∀ ind ∈ pop, ind.objectives.isSome) ∧ ¬ pop.isEmpty ∧
    pop2.length = pop.length ∧
    (∀ j, j < pop.length → (pop2.getD j (mkInd [] none)).fitness =
      match (fitnessByDominance (pop.map (fun ind => ind.objectives.getD []))).getD j none with
      | some v => some v
      | none => (pop.getD j (mkInd [] none)).fitness) := by
  unfold assignFitnessByDominance at hok
  by_cases h1 : (pop.filter (fun ind => ind.objectives.isSome)).length < pop.length
  · rw [if_pos h1] at hok
    exact Except.noConfusion hok
  · rw [if_neg h1] at hok
    by_cases h2 : pop.isEmpty
    · rw [if_pos h2] at hok
      exact Except.noConfusion hok
    · rw [if_neg h2] at hok
      have hall : ∀ ind ∈ pop, ind.objectives.isSome := by
        apply all_of_length_filter_eq
        have := List.length_filter_le (fun ind => ind.objectives.isSome) pop
        omega
      have hpop2 : pop2 = (pop.zip
          (fitnessByDominance (pop.map (fun ind => ind.objectives.getD [])))).map
          (fun pr => { pr.1 with fitness := match pr.2 with
                                            | some v => some v
                                            | none => pr.1.fitness }) :=
        (Except.ok.inj hok).symm
      have hfitlen : (fitnessByDominance
          (pop.map (fun ind => ind.objectives.getD []))).length = pop.length := by
        rw [fitnessByDominance_length, List.length_map]
      have hziplen : (pop.zip (fitnessByDominance
          (pop.map (fun ind => ind.objectives.getD [])))).length = pop.length := by
        rw [List.length_zip, hfitlen, min_self]
      refine ⟨hall, h2, by rw [hpop2, List.length_map, hziplen], ?_⟩
      intro j hj
      rw [hpop2]
      rw [List.getD_eq_getElem _ _ (by rw [List.length_map, hziplen]; exact hj)]
      rw [List.getElem_map, List.getElem_zip]
      rw [List.getD_eq_getElem _ _ hj]
      rw [List.getD_eq_getElem _ _ (by rw [hfitlen]; exact hj)]

/-- C1 (amended): for every population of Individuals whose objectives are
all populated with a common number m >= 2 of objectives,
assign_fitness_by_dominance assigns fitness values that form contiguous
integers starting from 0; individuals with fitness 0 are exactly those
dominated by no other individual in the population; and each front k
consists exactly of the individuals that are non-dominated once fronts
0..k-1 are removed. (The original claim, without the restriction m >= 2,
fails: with a single objective the source assigns fitness 0 to everyone.) -/
theorem c1_fitness_fronts {A : Type} [LinearOrderedRing A]
    (pop pop2 : List (Ind A)) (m : Nat) (hm : 2 ≤ m)
    (hobj : ∀ ind ∈ pop, ∃ l, ind.objectives = some l ∧ l.length = m)
    (hok : assignFitnessByDominance pop = Except.ok pop2) :
    pop2.length = pop.length ∧
    (∀ p, p < pop.length → ∃ k, (pop2.getD p (mkInd [] none)).fitness = some k) ∧
    (∀ k j, j ≤ k →
      (∃ p, p < pop.length ∧ (pop2.getD p (mkInd [] none)).fitness = some k) →
      ∃ p, p < pop.length ∧ (pop2.getD p (mkInd [] none)).fitness = some j) ∧
    (∀ p, p < pop.length →
      ((pop2.getD p (mkInd [] none)).fitness = some 0 ↔
        ∀ q, q < pop.length →
          ¬ DomIdx (pop.map (fun ind => ind.objectives.getD [])) q p)) ∧
    (∀ p k, p < pop.length →
      ((pop2.getD p (mkInd [] none)).fitness = some k ↔
        (∃ kp, (pop2.getD p (mkInd [] none)).fitness = some kp ∧ k ≤ kp) ∧
        (∀ q, q < pop.length →
          (∃ kq, (pop2.getD q (mkInd [] none)).fitness = some kq ∧ k ≤ kq) →
          ¬ DomIdx (pop.map (fun ind => ind.objectives.getD [])) q p))) := by
  obtain ⟨hall, hne, hlen2, hbr⟩ := assignFitness_ok_char hok
  have hlenobjs : ∀ l ∈ pop.map (fun ind => ind.objectives.getD []), l.length = m := by
    intro l hl
    rcases List.mem_map.mp hl with ⟨ind, hind, rfl⟩
    rcases hobj ind hind with ⟨l2, hl2, hl2len⟩
    rw [hl2]
    exact hl2len
  have hneobjs : ¬ (pop.map (fun ind => ind.objectives.getD [])).isEmpty := by
    cases pop with
    | nil => exact absurd rfl hne
    | cons a t => simp
  have hNeq : (pop.map (fun ind => ind.objectives.getD [])).length = pop.length :=
    List.length_map _ _
  obtain ⟨htot, hp1, hp2⟩ :=
    fitnessByDominance_props (pop.map (fun ind => ind.objectives.getD [])) m hm hlenobjs hneobjs
  have hfit : ∀ j, j < pop.length → (pop2.getD j (mkInd [] none)).fitness =
      (fitnessByDominance (pop.map (fun ind => ind.objectives.getD []))).getD j none := by
    intro j hj
    rw [hbr j hj]
    rcases htot j (by omega) with ⟨k, hk⟩
    rw [hk]
  have htot2 : ∀ p, p < pop.length →
      ∃ k, (pop2.getD p (mkInd [] none)).fitness = some k := by
    intro p hp
    rw [hfit p hp]
    exact htot p (by omega)
  have hdomlt : ∀ q p, DomIdx (pop.map (fun ind => ind.objectives.getD [])) q p →
      q < pop.length ∧ p < pop.length := by
    intro q p hd
    have := DomIdx_lt hd
    omega
  refine ⟨hlen2, htot2, ?_, ?_, ?_⟩
  · -- contiguity
    have hstep : ∀ k, (∃ p, p < pop.length ∧
        (pop2.getD p (mkInd [] none)).fitness = some (k + 1)) →
        ∃ p, p < pop.length ∧ (pop2.getD p (mkInd [] none)).fitness = some k := by
      rintro k ⟨p, hp, hpfit⟩
      rw [hfit p hp] at hpfit
      rcases hp2 p k hpfit with ⟨r, hrdom, hrfit⟩
      have hr := (hdomlt r p hrdom).1
      exact ⟨r, hr, by rw [hfit r hr]; exact hrfit⟩
    intro k
    induction k with
    | zero =>
      intro j hj h
      have : j = 0 := by omega
      subst this
      exact h
    | succ k ihk =>
      intro j hj h
      rcases Nat.lt_or_ge j (k + 1) with hjk | hjk
      · exact ihk j (by omega) (hstep k h)
      · have : j = k + 1 := by omega
        subst this
        exact h
  · -- front 0 characterization
    intro p hp
    rw [hfit p hp]
    constructor
    · intro h0 q hq hdom
      rcases hp1 p q 0 hdom h0 with ⟨k2, -, hk2⟩
      omega
    · intro hnodom
      rcases htot p (by omega) with ⟨kp, hkp⟩
      cases kp with
      | zero => exact hkp
      | succ k =>
        exfalso
        rcases hp2 p k hkp with ⟨r, hrdom, -⟩
        exact hnodom r (hdomlt r p hrdom).1 hrdom
  · -- front k characterization
    intro p k hp
    constructor
    · intro hpk
      refine ⟨⟨k, hpk, le_refl k⟩, ?_⟩
      rintro q hq ⟨kq, hkq, hkqge⟩ hdom
      rw [hfit p hp] at hpk
      rw [hfit q hq] at hkq
      rcases hp1 p q k hdom hpk with ⟨k2, hk2, hk2lt⟩
      rw [hk2] at hkq
      have : kq = k2 := (Option.some.inj hkq).symm
      omega
    · rintro ⟨⟨kp, hkp, hkple⟩, hnodom⟩
      by_cases heq : kp = k
      · rw [← heq]
        exact hkp
      · exfalso
        have hkgt : k < kp := by omega
        rcases Nat.exists_eq_add_of_lt hkgt with ⟨d, hd⟩
        rw [hfit p hp] at hkp
        have hkp1 : (fitnessByDominance
            (pop.map (fun ind => ind.objectives.getD []))).getD p none
            = some ((k + d) + 1) := by
          rw [hkp, hd]
        rcases hp2 p (k + d) hkp1 with ⟨r, hrdom, hrfit⟩
        have hr := (hdomlt r p hrdom).1
        exact hnodom r hr ⟨k + d, by rw [hfit r hr]; exact hrfit, by omega⟩ hrdom

/-- A two-Individual population with a single objective: individual 0
strictly dominates individual 1. -/
def popC1 : List (Ind Int) :=
  [⟨[], none, some [0], none, none, none, none, none, false, none⟩,
   ⟨[], none, some [1], none, none, none, none, none, false, none⟩]

/-- C1 counterexample: with a single objective the source skips the
dominance sort entirely and assigns fitness 0 to every individual, so an
individual strictly dominated by another still receives fitness 0,
refuting the original claim that the fitness-0 front contains exactly the
non-dominated individuals. -/
theorem c1_counterexample :
    assignFitnessByDominance popC1 =
      Except.ok [⟨[], none, some [0], none, none, none, none, some 0, false, none⟩,
                 ⟨[], none, some [1], none, none, none, none, some 0, false, none⟩] ∧
    DomIdx (popC1.map (fun ind => ind.objectives.getD [])) 0 1 := by
  constructor
  · rfl
  · unfold DomIdx
    rfl

/-- A three-Individual population with two objectives and fitness fronts
0, 1, 2. -/
def popW : List (Ind Int) :=
  [⟨[], none, some [0, 0], none, none, none, none, none, false, none⟩,
   ⟨[], none, some [0, 1], none, none, none, none, none, false, none⟩,
   ⟨[], none, some [1, 1], none, none, none, none, none, false, none⟩]

/-- Expected result of assign_fitness_by_dominance on popW. -/
def popW2 : List (Ind Int) :=
  [⟨[], none, some [0, 0], none, none, none, none, some 0, false, none⟩,
   ⟨[], none, some [0, 1], none, none, none, none, some 1, false, none⟩,
   ⟨[], none, some [1, 1], none, none, none, none, some 2, false, none⟩]

/-- Witness for c1_fitness_fronts at a concrete three-element population. -/
theorem c1_fitness_fronts_witness :
    ∃ k, (popW2.getD 0 (mkInd [] none)).fitness = some k :=
  (c1_fitness_fronts popW popW2 2 (by omega)
    (by
      intro ind hind
      simp only [popW, List.mem_cons, List.not_mem_nil, or_false] at hind
      rcases hind with rfl | rfl | rfl
      · exact ⟨[0, 0], rfl, rfl⟩
      · exact ⟨[0, 1], rfl, rfl⟩
      · exact ⟨[1, 1], rfl, rfl⟩)
    (by rfl)).2.1 0 (by decide)

/-! Sorting by energy and rank assignment (sort_by_energy,
assign_rank_by_fitness_and_energy). Python list.sort is a stable ascending
sort; it is modelled by stable insertion sort. -/

/-- Stable insertion of an Individual into an energy-ascending list: the new
element is placed before the first element with strictly larger energy, so
ties keep their original relative order. -/
def insertByEnergy {A : Type} [LinearOrderedRing A] (a : Ind A) :
    List (Ind A) → List (Ind A)
  | [] => [a]
  | b :: t => if b.energy.getD 0 < a.energy.getD 0 then b :: insertByEnergy a t
              else a :: b :: t

/-- Stable ascending sort of a population by the energy attribute. -/
def insertionSortByEnergy {A : Type} [LinearOrderedRing A] (l : List (Ind A)) :
    List (Ind A) :=
  l.foldr insertByEnergy []

/-- sort_by_energy: raises when any Individual lacks energy, otherwise
returns the population sorted by ascending energy. -/
def sortByEnergy {A : Type} [LinearOrderedRing A] (population : List (Ind A)) :
    Except String (List (Ind A)) :=
  if (population.filter (fun ind => ind.energy.isSome)).length < population.length then
    Except.error "sort_by_energy: energy has not been stored for all Individuals in population"
  else
    Except.ok (insertionSortByEnergy population)

/-- The maximal fitness value of the population (Python max over the stored
fitness values). -/
def maxFitness {A : Type} [LinearOrderedRing A] (population : List (Ind A)) : Nat :=
  (population.filterMap (fun ind => ind.fitness)).foldl max 0

/-- assign_rank_by_fitness_and_energy: for each fitness value 0..max_fitness
gather the front with that fitness, sort it by energy, concatenate the
sorted fronts, and assign rank = position in the concatenated list. Raises
when any Individual lacks fitness; on an empty population Python max([])
raises. -/
def assignRankByFitnessAndEnergy {A : Type} [LinearOrderedRing A]
    (population : List (Ind A)) : Except String (List (Ind A)) :=
  if (population.filter (fun ind => ind.fitness.isSome)).length < population.length then
    Except.error "assign_rank_by_fitness_and_energy: fitness has not been stored for all Individuals in population"
  else if population.isEmpty then
    Except.error "max() arg is an empty sequence"
  else
    match (List.range (maxFitness population + 1)).foldlM
      (fun accu f =>
        match sortByEnergy (population.filter (fun ind => ind.fitness = some f)) with
        | Except.ok front => Except.ok (accu ++ front)
        | Except.error e => Except.error e) ([] : List (Ind A)) with
    | Except.ok newPop =>
      Except.ok (newPop.mapIdx (fun r ind => { ind with rank := some r }))
    | Except.error e => Except.error e

lemma insertByEnergy_perm {A : Type} [LinearOrderedRing A] (a : Ind A) :
    ∀ (l : List (Ind A)), (insertByEnergy a l).Perm (a :: l) := by
  intro l
  induction l with
  | nil => exact List.Perm.refl _
  | cons b t ih =>
    unfold insertByEnergy
    by_cases h : b.energy.getD 0 < a.energy.getD 0
    · rw [if_pos h]
      exact ((ih.cons b).trans (List.Perm.swap a b t))
    · rw [if_neg h]

lemma insertionSortByEnergy_perm {A : Type} [LinearOrderedRing A] (l : List (Ind A)) :
    (insertionSortByEnergy l).Perm l := by
  induction l with
  | nil => exact List.Perm.refl _
  | cons a t ih =>
    unfold insertionSortByEnergy at ih ⊢
    rw [List.foldr_cons]
    exact (insertByEnergy_perm a _).trans (ih.cons a)

lemma insertByEnergy_sorted {A : Type} [LinearOrderedRing A] (a : Ind A) :
    ∀ (l : List (Ind A)),
      l.Pairwise (fun x y => x.energy.getD 0 ≤ y.energy.getD 0) →
      (insertByEnergy a l).Pairwise (fun x y => x.energy.getD 0 ≤ y.energy.getD 0) := by
  intro l
  induction l with
  | nil => intro h; simp [insertByEnergy]
  | cons b t ih =>
    intro h
    rcases List.pairwise_cons.mp h with ⟨hb, ht⟩
    unfold insertByEnergy
    by_cases hba : b.energy.getD 0 < a.energy.getD 0
    · rw [if_pos hba]
      rw [List.pairwise_cons]
      refine ⟨?_, ih ht⟩
      intro y hy
      have hmem := (insertByEnergy_perm a t).mem_iff.mp hy
      rcases List.mem_cons.mp hmem with rfl | hyt
      · exact le_of_lt hba
      · exact hb y hyt
    · rw [if_neg hba]
      rw [List.pairwise_cons]
      push_neg at hba
      refine ⟨?_, h⟩
      intro y hy
      rcases List.mem_cons.mp hy with rfl | hyt
      · exact hba
      · exact le_trans hba (hb y hyt)

lemma insertionSortByEnergy_sorted {A : Type} [LinearOrderedRing A] (l : List (Ind A)) :
    (insertionSortByEnergy l).Pairwise (fun x y => x.energy.getD 0 ≤ y.energy.getD 0) := by
  induction l with
  | nil => simp [insertionSortByEnergy]
  | cons a t ih =>
    unfold insertionSortByEnergy at ih ⊢
    rw [List.foldr_cons]
    exact insertByEnergy_sorted a _ ih

lemma sortByEnergy_ok {A : Type} [LinearOrderedRing A] (population : List (Ind A))
    (hE : ∀ ind ∈ population, ind.energy.isSome) :
    sortByEnergy population = Except.ok (insertionSortByEnergy population) := by
  unfold sortByEnergy
  rw [if_neg]
  push_neg
  have := List.length_filter_le (fun ind => ind.energy.isSome) population
  have heq : population.filter (fun ind => ind.energy.isSome) = population :=
    List.filter_eq_self.mpr hE
  rw [heq]

/-- The concatenation of the energy-sorted fitness fronts, in increasing
fitness order. -/
def rankedBase {A : Type} [LinearOrderedRing A] (population : List (Ind A)) :
    List (Ind A) :=
  (List.range (maxFitness population + 1)).flatMap
    (fun f => insertionSortByEnergy (population.filter (fun ind => ind.fitness = some f)))

lemma foldlM_fronts {A : Type} [LinearOrderedRing A] (population : List (Ind A))
    (hE : ∀ ind ∈ population, ind.energy.isSome) :
    ∀ (fs : List Nat) (accu : List (Ind A)),
      (fs.foldlM (fun accu f =>
        match sortByEnergy (population.filter (fun ind => ind.fitness = some f)) with
        | Except.ok front => Except.ok (accu ++ front)
        | Except.error e => Except.error e) accu : Except String (List (Ind A)))
      = Except.ok (accu ++ fs.flatMap
          (fun f => insertionSortByEnergy
            (population.filter (fun ind => ind.fitness = some f)))) := by
  intro fs
  induction fs with
  | nil =>
    intro accu
    rw [List.flatMap_nil, List.append_nil]
    rfl
  | cons f fs ih =>
    intro accu
    have hok : sortByEnergy (population.filter (fun ind => ind.fitness = some f))
        = Except.ok (insertionSortByEnergy
            (population.filter (fun ind => ind.fitness = some f))) := by
      apply sortByEnergy_ok
      intro ind hind
      exact hE ind (List.mem_of_mem_filter hind)
    rw [List.foldlM_cons, hok]
    show (fs.foldlM _ (accu ++ insertionSortByEnergy
      (population.filter (fun ind => ind.fitness = some f)))
        : Except String (List (Ind A))) = _
    rw [ih]
    rw [List.flatMap_cons, List.append_assoc]

lemma foldl_max_ge_init : ∀ (l : List Nat) (a : Nat), a ≤ l.foldl max a := by
  intro l
  induction l with
  | nil => intro a; exact le_refl a
  | cons z t ih =>
    intro a
    rw [List.foldl_cons]
    exact le_trans (le_max_left a z) (ih (max a z))

lemma foldl_max_ge_of_mem : ∀ (l : List Nat) (a x : Nat), x ∈ l → x ≤ l.foldl max a := by
  intro l
  induction l with
  | nil => intro a x hx; simp at hx
  | cons y t ih =>
    intro a x hx
    rw [List.foldl_cons]
    rcases List.mem_cons.mp hx with rfl | hxt
    · exact le_trans (le_max_right a x) (foldl_max_ge_init t (max a x))
    · exact ih (max a y) x hxt

lemma maxFitness_ge {A : Type} [LinearOrderedRing A] (population : List (Ind A))
    (ind : Ind A) (hind : ind ∈ population) (k : Nat) (hk : ind.fitness = some k) :
    k ≤ maxFitness population := by
  unfold maxFitness
  apply foldl_max_ge_of_mem
  rw [List.mem_filterMap]
  exact ⟨ind, hind, hk⟩

lemma perm_filter_disjoint {B : Type} (c d : B → Bool)
    (hdisj : ∀ a, ¬(c a = true ∧ d a = true)) :
    ∀ (l : List B), (l.filter c ++ l.filter d).Perm (l.filter (fun a => c a || d a)) := by
  intro l
  induction l with
  | nil => exact List.Perm.refl _
  | cons a t ih =>
    simp only [List.filter_cons]
    by_cases hc : c a
    · rw [if_pos hc, if_neg (fun hd => hdisj a ⟨hc, hd⟩), if_pos (by rw [hc]; rfl)]
      exact (ih.cons a)
    · rw [if_neg hc]
      by_cases hd : d a
      · rw [if_pos hd, if_pos (by rw [hd]; simp)]
        exact List.perm_middle.trans (ih.cons a)
      · have hor : ¬ ((c a || d a) = true) := by
          simp [Bool.or_eq_true]
          constructor
          · exact Bool.eq_false_iff.mpr hc
          · exact Bool.eq_false_iff.mpr hd
        rw [if_neg hd, if_neg hor]
        exact ih

lemma perm_flatMap_filter_range {B : Type} (key : B → Nat) :
    ∀ (k : Nat) (l : List B),
      ((List.range k).flatMap (fun f => l.filter (fun a => decide (key a = f)))).Perm
        (l.filter (fun a => decide (key a < k))) := by
  intro k
  induction k with
  | zero =>
    intro l
    simp
  | succ k ih =>
    intro l
    rw [List.range_succ, List.flatMap_append]
    have h1 := ih l
    have h2 : ((List.range k).flatMap (fun f => l.filter (fun a => decide (key a = f)))
        ++ [k].flatMap (fun f => l.filter (fun a => decide (key a = f)))).Perm
        (l.filter (fun a => decide (key a < k)) ++ l.filter (fun a => decide (key a = k))) := by
      apply List.Perm.append h1
      simp
    refine h2.trans ?_
    have h3 := perm_filter_disjoint (fun a => decide (key a < k)) (fun a => decide (key a = k))
      (by intro a ⟨hlt, heq⟩
          simp only [decide_eq_true_eq] at hlt heq
          omega) l
    refine h3.trans ?_
    apply List.Perm.of_eq
    apply List.filter_congr
    intro a ha
    rcases Nat.lt_trichotomy (key a) k with h | h | h
    · rw [decide_eq_true h, decide_eq_true (show key a < k + 1 by omega)]
      simp
    · rw [decide_eq_false (show ¬ key a < k by omega),
        decide_eq_true (show key a = k from h),
        decide_eq_true (show key a < k + 1 by omega)]
      simp
    · rw [decide_eq_false (show ¬ key a < k by omega),
        decide_eq_false (show ¬ key a = k by omega),
        decide_eq_false (show ¬ key a < k + 1 by omega)]
      simp

lemma assignRank_eq {A : Type} [LinearOrderedRing A] (pop : List (Ind A))
    (hfit : ∀ ind ∈ pop, ind.fitness.isSome)
    (hE : ∀ ind ∈ pop, ind.energy.isSome)
    (hne : ¬ pop.isEmpty) :
    assignRankByFitnessAndEnergy pop =
      Except.ok ((rankedBase pop).mapIdx (fun r ind => { ind with rank := some r })) := by
  unfold assignRankByFitnessAndEnergy
  rw [if_neg (by
    push_neg
    have heq : pop.filter (fun ind => ind.fitness.isSome) = pop :=
      List.filter_eq_self.mpr hfit
    rw [heq])]
  rw [if_neg hne]
  rw [foldlM_fronts pop hE]
  rw [List.nil_append]
  rfl

lemma blocks_perm {A : Type} [LinearOrderedRing A] (pop : List (Ind A)) :
    ∀ (fs : List Nat),
      (fs.flatMap (fun f => insertionSortByEnergy
        (pop.filter (fun ind => ind.fitness = some f)))).Perm
      (fs.flatMap (fun f => pop.filter (fun ind => ind.fitness = some f))) := by
  intro fs
  induction fs with
  | nil => exact List.Perm.refl _
  | cons f fs ih =>
    rw [List.flatMap_cons, List.flatMap_cons]
    exact List.Perm.append (insertionSortByEnergy_perm _) ih

lemma rankedBase_perm {A : Type} [LinearOrderedRing A] (pop : List (Ind A))
    (hfit : ∀ ind ∈ pop, ind.fitness.isSome) :
    (rankedBase pop).Perm pop := by
  unfold rankedBase
  refine (blocks_perm pop _).trans ?_
  have hfilter : ∀ f : Nat, pop.filter (fun ind => ind.fitness = some f)
      = pop.filter (fun ind => decide (ind.fitness.getD 0 = f)) := by
    intro f
    apply List.filter_congr
    intro ind hind
    have := hfit ind hind
    cases hcase : ind.fitness with
    | none => rw [hcase] at this; exact Bool.noConfusion this
    | some k =>
      by_cases hk : k = f
      · rw [decide_eq_true (show some k = some f by rw [hk]),
          decide_eq_true (show (some k).getD 0 = f from hk)]
      · rw [decide_eq_false (show ¬ some k = some f by
            intro hc; exact hk (Option.some.inj hc)),
          decide_eq_false (show ¬ (some k).getD 0 = f from hk)]
  have hcong : (List.range (maxFitness pop + 1)).flatMap
      (fun f => pop.filter (fun ind => ind.fitness = some f))
      = (List.range (maxFitness pop + 1)).flatMap
        (fun f => pop.filter (fun ind => decide (ind.fitness.getD 0 = f))) := by
    apply List.flatMap_congr
    intro f hf
    exact hfilter f
  rw [hcong]
  refine (perm_flatMap_filter_range (fun ind => ind.fitness.getD 0)
    (maxFitness pop + 1) pop).trans ?_
  apply List.Perm.of_eq
  apply List.filter_eq_self.mpr
  intro ind hind
  have hsome := hfit ind hind
  cases hcase : ind.fitness with
  | none => rw [hcase] at hsome; exact Bool.noConfusion hsome
  | some k =>
    have hle := maxFitness_ge pop ind hind k hcase
    exact decide_eq_true (by show k < maxFitness pop + 1; omega)

lemma rankedBase_pairwise {A : Type} [LinearOrderedRing A] (pop : List (Ind A)) :
    (rankedBase pop).Pairwise (fun x y =>
      x.fitness.getD 0 < y.fitness.getD 0 ∨
        (x.fitness.getD 0 = y.fitness.getD 0 ∧ x.energy.getD 0 ≤ y.energy.getD 0)) := by
  unfold rankedBase
  rw [List.flatMap_def]
  rw [List.pairwise_flatten]
  constructor
  · intro block hblock
    rcases List.mem_map.mp hblock with ⟨f, -, rfl⟩
    have hmemfit : ∀ x ∈ insertionSortByEnergy
        (pop.filter (fun ind => ind.fitness = some f)), x.fitness.getD 0 = f := by
      intro x hx
      have hx2 := (insertionSortByEnergy_perm _).mem_iff.mp hx
      have := (List.mem_filter.mp hx2).2
      have hfs : x.fitness = some f := by simpa using this
      rw [hfs]
      rfl
    apply List.Pairwise.imp_of_mem ?_ (insertionSortByEnergy_sorted _)
    intro x y hx hy hle
    exact Or.inr ⟨by rw [hmemfit x hx, hmemfit y hy], hle⟩
  · apply List.Pairwise.map
    intro f1 f2 hlt x hx y hy
    have hx2 := (insertionSortByEnergy_perm _).mem_iff.mp hx
    have hy2 := (insertionSortByEnergy_perm _).mem_iff.mp hy
    have hxf : x.fitness = some f1 := by simpa using (List.mem_filter.mp hx2).2
    have hyf : y.fitness = some f2 := by simpa using (List.mem_filter.mp hy2).2
    left
    rw [hxf, hyf]
    exact hlt
    exact List.pairwise_lt_range _

lemma rank_update_fitness {A : Type} (ind : Ind A) (r : Option Nat) :
    ({ ind with rank := r } : Ind A).fitness = ind.fitness := rfl

lemma rank_update_energy {A : Type} (ind : Ind A) (r : Option Nat) :
    ({ ind with rank := r } : Ind A).energy = ind.energy := rfl

/-- C3: after assign_rank_by_fitness_and_energy on a population with fitness
and energy populated, rank equals position in the returned ordering, the
ordering is consistent with (fitness ascending, energy ascending within
equal fitness), and the returned list is (up to the rank attribute) a
permutation of the population. -/
theorem c3_rank_total_order {A : Type} [LinearOrderedRing A]
    (pop L : List (Ind A))
    (hfit : ∀ ind ∈ pop, ind.fitness.isSome)
    (hE : ∀ ind ∈ pop, ind.energy.isSome)
    (hok : assignRankByFitnessAndEnergy pop = Except.ok L) :
    L.length = pop.length ∧
    (∀ i (hi : i < L.length), (L[i]).rank = some i) ∧
    (∀ i j (hi : i < L.length) (hj : j < L.length),
      (L[i]).fitness.getD 0 < (L[j]).fitness.getD 0 → i < j) ∧
    (∀ i j (hi : i < L.length) (hj : j < L.length),
      (L[i]).fitness.getD 0 = (L[j]).fitness.getD 0 →
      (L[i]).energy.getD 0 < (L[j]).energy.getD 0 → i < j) ∧
    (L.map (fun ind => { ind with rank := none })).Perm
      (pop.map (fun ind => { ind with rank := none })) := by
  have hne : ¬ pop.isEmpty := by
    intro hemp
    rw [List.isEmpty_iff] at hemp
    subst hemp
    exact Except.noConfusion hok
  rw [assignRank_eq pop hfit hE hne] at hok
  have hL : L = (rankedBase pop).mapIdx (fun r ind => { ind with rank := some r }) :=
    (Except.ok.inj hok).symm
  subst hL
  have hbaselen : (rankedBase pop).length = pop.length :=
    (rankedBase_perm pop hfit).length_eq
  have hP := rankedBase_pairwise pop
  rw [List.pairwise_iff_getElem] at hP
  refine ⟨by rw [List.length_mapIdx, hbaselen], ?_, ?_, ?_, ?_⟩
  · intro i hi
    rw [List.getElem_mapIdx]
  · intro i j hi hj hlt
    have hib : i < (rankedBase pop).length := by rw [List.length_mapIdx] at hi; exact hi
    have hjb : j < (rankedBase pop).length := by rw [List.length_mapIdx] at hj; exact hj
    rw [List.getElem_mapIdx, List.getElem_mapIdx] at hlt
    have hlt2 : ((rankedBase pop)[i]).fitness.getD 0
        < ((rankedBase pop)[j]).fitness.getD 0 := hlt
    rcases Nat.lt_trichotomy i j with h | h | h
    · exact h
    · exfalso
      subst h
      exact lt_irrefl _ hlt2
    · exfalso
      have hRF := hP j i hjb hib h
      rcases hRF with hcase | ⟨heq, -⟩
      · omega
      · omega
  · intro i j hi hj heqf hlt
    have hib : i < (rankedBase pop).length := by rw [List.length_mapIdx] at hi; exact hi
    have hjb : j < (rankedBase pop).length := by rw [List.length_mapIdx] at hj; exact hj
    rw [List.getElem_mapIdx, List.getElem_mapIdx] at heqf hlt
    have heqf2 : ((rankedBase pop)[i]).fitness.getD 0
        = ((rankedBase pop)[j]).fitness.getD 0 := heqf
    have hlt2 : ((rankedBase pop)[i]).energy.getD 0
        < ((rankedBase pop)[j]).energy.getD 0 := hlt
    rcases Nat.lt_trichotomy i j with h | h | h
    · exact h
    · exfalso
      subst h
      exact lt_irrefl _ hlt2
    · exfalso
      have hRF := hP j i hjb hib h
      rcases hRF with hcase | ⟨-, hle⟩
      · omega
      · exact absurd hlt2 (not_lt.mpr hle)
  · have hmapeq : ((rankedBase pop).mapIdx
        (fun r ind => { ind with rank := some r })).map (fun ind => { ind with rank := none })
        = (rankedBase pop).map (fun ind => { ind with rank := none }) := by
      apply List.ext_getElem
      · rw [List.length_map, List.length_mapIdx, List.length_map]
      · intro i h1 h2
        rw [List.getElem_map, List.getElem_map, List.getElem_mapIdx]
    rw [hmapeq]
    exact (rankedBase_perm pop hfit).map _

/-- A three-Individual population with two fitness fronts and distinct
energies, for exercising assign_rank_by_fitness_and_energy. -/
def popC3 : List (Ind Int) :=
  [⟨[0], none, none, none, some 5, none, none, some 0, false, none⟩,
   ⟨[1], none, none, none, some 3, none, none, some 0, false, none⟩,
   ⟨[2], none, none, none, some 1, none, none, some 1, false, none⟩]

/-- The expected ranked ordering of popC3: front 0 sorted by energy, then
front 1, with rank = position. -/
def popC3L : List (Ind Int) :=
  [⟨[1], none, none, none, some 3, some 0, none, some 0, false, none⟩,
   ⟨[0], none, none, none, some 5, some 1, none, some 0, false, none⟩,
   ⟨[2], none, none, none, some 1, some 2, none, some 1, false, none⟩]

/-- Witness for c3_rank_total_order at a concrete population. -/
theorem c3_rank_total_order_witness :
    (popC3L.getD 0 (mkInd [] none)).rank = some 0 := by
  have h := (c3_rank_total_order popC3 popC3L
    (by
      intro ind hind
      simp only [popC3, List.mem_cons, List.not_mem_nil, or_false] at hind
      rcases hind with rfl | rfl | rfl <;> rfl)
    (by
      intro ind hind
      simp only [popC3, List.mem_cons, List.not_mem_nil, or_false] at hind
      rcases hind with rfl | rfl | rfl <;> rfl)
    (by rfl)).2.1 0 (by decide)
  rw [List.getD_eq_getElem _ _ (by decide)]
  exact h

/-! Objective extrema tracking (get_objectives_edges). np.minimum and
np.maximum over equal-length vectors are modelled by componentwise
zipWith. -/

/-- get_objectives_edges: an empty population returns the passed bounds
unchanged before any validation; otherwise raises when objectives are
missing or the normalize mode is invalid, then folds componentwise min and
max over the population starting from the prior bounds (global mode with
nonempty priors) or from the first Individual's objectives. -/
def getObjectivesEdges {A : Type} [LinearOrderedRing A] (population : List (Ind A))
    (minObjectives maxObjectives : Option (List A)) (normalize : String) :
    Except String (Option (List A) × Option (List A)) :=
  if population.isEmpty then
    Except.ok (minObjectives, maxObjectives)
  else if (population.filter (fun ind => ind.objectives.isSome)).length
      < population.length then
    Except.error "get_objectives_edges: objectives have not been stored for all Individuals in population"
  else if ¬ (normalize = "local" ∨ normalize = "global") then
    Except.error "get_objectives_edges: normalize argument must be either global or local"
  else
    let firstObjs := (population.headD (mkInd [] none)).objectives.getD []
    let thisMin := if normalize = "local" ∨ minObjectives.isNone ∨
        (minObjectives.getD []).isEmpty then firstObjs else minObjectives.getD []
    let thisMax := if normalize = "local" ∨ maxObjectives.isNone ∨
        (maxObjectives.getD []).isEmpty then firstObjs else maxObjectives.getD []
    Except.ok
      (some (population.foldl
        (fun acc ind => List.zipWith min acc (ind.objectives.getD [])) thisMin),
       some (population.foldl
        (fun acc ind => List.zipWith max acc (ind.objectives.getD [])) thisMax))

lemma foldl_zipWith_min_le {A : Type} [LinearOrderedRing A] :
    ∀ (pop : List (Ind A)) (acc : List A),
      (∀ ind ∈ pop, (ind.objectives.getD []).length = acc.length) →
      (pop.foldl (fun acc ind => List.zipWith min acc (ind.objectives.getD [])) acc).length
        = acc.length ∧
      (∀ i, i < acc.length →
        (pop.foldl (fun acc ind => List.zipWith min acc (ind.objectives.getD [])) acc).getD i 0
          ≤ acc.getD i 0) := by
  intro pop
  induction pop with
  | nil => intro acc h; exact ⟨rfl, fun i hi => le_refl _⟩
  | cons ind t ih =>
    intro acc h
    rw [List.foldl_cons]
    have hlen : (List.zipWith min acc (ind.objectives.getD [])).length = acc.length := by
      rw [List.length_zipWith, h ind (List.mem_cons_self ind t), min_self]
    have hrec := ih (List.zipWith min acc (ind.objectives.getD []))
      (by intro j hj; rw [hlen]; exact h j (List.mem_cons_of_mem ind hj))
    refine ⟨by rw [hrec.1, hlen], ?_⟩
    intro i hi
    refine le_trans (hrec.2 i (by rw [hlen]; exact hi)) ?_
    have hio : i < (ind.objectives.getD []).length := by
      rw [h ind (List.mem_cons_self ind t)]; exact hi
    have hiz : i < (List.zipWith min acc (ind.objectives.getD [])).length := by
      rw [hlen]; exact hi
    rw [List.getD_eq_getElem _ _ hiz, List.getElem_zipWith, List.getD_eq_getElem _ _ hi]
    exact min_le_left _ _

lemma foldl_zipWith_max_ge {A : Type} [LinearOrderedRing A] :
    ∀ (pop : List (Ind A)) (acc : List A),
      (∀ ind ∈ pop, (ind.objectives.getD []).length = acc.length) →
      (pop.foldl (fun acc ind => List.zipWith max acc (ind.objectives.getD [])) acc).length
        = acc.length ∧
      (∀ i, i < acc.length →
        acc.getD i 0 ≤
          (pop.foldl (fun acc ind => List.zipWith max acc (ind.objectives.getD [])) acc).getD i 0) := by
  intro pop
  induction pop with
  | nil => intro acc h; exact ⟨rfl, fun i hi => le_refl _⟩
  | cons ind t ih =>
    intro acc h
    rw [List.foldl_cons]
    have hlen : (List.zipWith max acc (ind.objectives.getD [])).length = acc.length := by
      rw [List.length_zipWith, h ind (List.mem_cons_self ind t), min_self]
    have hrec := ih (List.zipWith max acc (ind.objectives.getD []))
      (by intro j hj; rw [hlen]; exact h j (List.mem_cons_of_mem ind hj))
    refine ⟨by rw [hrec.1, hlen], ?_⟩
    intro i hi
    refine le_trans ?_ (hrec.2 i (by rw [hlen]; exact hi))
    have hio : i < (ind.objectives.getD []).length := by
      rw [h ind (List.mem_cons_self ind t)]; exact hi
    have hiz : i < (List.zipWith max acc (ind.objectives.getD [])).length := by
      rw [hlen]; exact hi
    rw [List.getD_eq_getElem _ _ hiz, List.getElem_zipWith, List.getD_eq_getElem _ _ hi]
    exact le_max_left _ _

/-- C10: get_objectives_edges on an empty population returns the passed
bounds unchanged without raising; on a nonempty population in global mode
with nonempty prior bounds, the returned minima are componentwise at most
the passed minima and the returned maxima at least the passed maxima. -/
theorem c10_objectives_edges {A : Type} [LinearOrderedRing A]
    (pop : List (Ind A)) (mins maxs : List A)
    (hne : pop ≠ [])
    (hobj : ∀ ind ∈ pop, ∃ l, ind.objectives = some l ∧ l.length = mins.length)
    (hmins : mins ≠ []) (hmaxlen : maxs.length = mins.length) :
    (∀ (mo Mo : Option (List A)) (n : String),
      getObjectivesEdges ([] : List (Ind A)) mo Mo n = Except.ok (mo, Mo)) ∧
    (∃ mins2 maxs2,
      getObjectivesEdges pop (some mins) (some maxs) "global"
        = Except.ok (some mins2, some maxs2) ∧
      mins2.length = mins.length ∧ maxs2.length = mins.length ∧
      (∀ i, i < mins.length → mins2.getD i 0 ≤ mins.getD i 0) ∧
      (∀ i, i < mins.length → maxs.getD i 0 ≤ maxs2.getD i 0)) := by
  constructor
  · intro mo Mo n
    rfl
  · have hisSome : ∀ ind ∈ pop, ind.objectives.isSome := by
      intro ind hind
      rcases hobj ind hind with ⟨l, hl, -⟩
      rw [hl]
      rfl
    have hmaxs : maxs ≠ [] := by
      intro hc
      subst hc
      simp only [List.length_nil] at hmaxlen
      exact hmins (List.length_eq_zero.mp hmaxlen.symm)
    have hlen : ∀ ind ∈ pop, (ind.objectives.getD []).length = mins.length := by
      intro ind hind
      rcases hobj ind hind with ⟨l, hl, hllen⟩
      rw [hl]
      exact hllen
    have hlenmax : ∀ ind ∈ pop, (ind.objectives.getD []).length = maxs.length := by
      intro ind hind
      rw [hmaxlen]
      exact hlen ind hind
    unfold getObjectivesEdges
    rw [if_neg (by
      intro hc
      rw [List.isEmpty_iff] at hc
      exact hne hc)]
    rw [if_neg (by
      push_neg
      rw [List.filter_eq_self.mpr hisSome])]
    rw [if_neg (not_not.mpr (Or.inr rfl))]
    have hminsEmpty : mins.isEmpty = false := by
      cases mins with
      | nil => exact absurd rfl hmins
      | cons a t => rfl
    have hmaxsEmpty : maxs.isEmpty = false := by
      cases maxs with
      | nil => exact absurd rfl hmaxs
      | cons a t => rfl
    obtain ⟨hminlen2, hminle⟩ := foldl_zipWith_min_le pop mins hlen
    obtain ⟨hmaxlen2, hmaxge⟩ := foldl_zipWith_max_ge pop maxs hlenmax
    refine ⟨pop.foldl (fun acc ind => List.zipWith min acc (ind.objectives.getD [])) mins,
            pop.foldl (fun acc ind => List.zipWith max acc (ind.objectives.getD [])) maxs,
            ?_, hminlen2, by rw [hmaxlen2, hmaxlen], hminle,
            fun i hi => hmaxge i (by rw [hmaxlen]; exact hi)⟩
    simp [hminsEmpty, hmaxsEmpty]

/-- A one-Individual population with two objectives for exercising
get_objectives_edges. -/
def popC10 : List (Ind Int) :=
  [⟨[], none, some [1, 7], none, none, none, none, none, false, none⟩]

/-- Witness for c10_objectives_edges at a concrete population. -/
theorem c10_objectives_edges_witness :
    getObjectivesEdges ([] : List (Ind Int)) none none "global"
      = Except.ok (none, none) :=
  (c10_objectives_edges popC10 [2, 5] [3, 6] (by decide)
    (by
      intro ind hind
      simp only [popC10, List.mem_cons, List.not_mem_nil, or_false] at hind
      rcases hind with rfl
      exact ⟨[1, 7], rfl, rfl⟩)
    (by decide) (by decide)).1 none none "global"

/-! Objective normalization (normalize_dynamic), over the reals since the
source works in log10 space. -/

/-- normalize_dynamic: when max_val is 0 the values are returned unchanged;
otherwise values are translated and scaled linearly when the log10 span of
(min_val, max_val) is below the threshold (default 2 orders of magnitude),
else logarithmically with a positive offset guarding log(0). -/
noncomputable def normalizeDynamic (vals : List Real) (minVal maxVal : Real)
    (threshold : Real) : List Real :=
  if maxVal = 0 then vals
  else
    let pr : Real × Real × Real :=
      if minVal = 0 then
        let thisOrderMagReal := Real.logb 10 maxVal
        let thisOrderMag : Int :=
          if 0 < thisOrderMagReal then ⌈thisOrderMagReal⌉ else ⌊thisOrderMagReal⌋
        let offset : Real := (10 : Real) ^ (min 0 (thisOrderMag - 2))
        (offset, Real.logb 10 (minVal + offset), Real.logb 10 (maxVal + offset))
      else
        (0, Real.logb 10 (minVal + 0), Real.logb 10 (maxVal + 0))
    let logmodRange := pr.2.2 - pr.2.1
    if logmodRange < threshold then
      vals.map (fun v => (v - minVal) / (maxVal - minVal))
    else
      vals.map (fun v => (Real.logb 10 (v + pr.1) - pr.2.1) / logmodRange)

/-- C9: normalize_dynamic with max_val = 0 returns the input values
unchanged, regardless of min_val, threshold and the values themselves. -/
theorem c9_normalize_dynamic_zero_max (vals : List Real) (minVal threshold : Real) :
    normalizeDynamic vals minVal 0 threshold = vals := by
  unfold normalizeDynamic
  rw [if_pos rfl]

/-! PopulationStorage: the ordered, append-only record of generations, with
incremental save to and full load from a checkpoint file. Deep copies are
identities in this pure model. HDF5 group names str(gen_index) are
modelled by their integer value (str is injective on the naturals). -/

/-- In-memory PopulationStorage state. -/
structure PopStorage (A : Type) where
  paramNames : List String
  featureNames : List String
  objectiveNames : List String
  pathLength : Nat
  normalize : String
  history : List (List (Ind A))
  survivors : List (List (Ind A))
  specialists : List (List (Ind A))
  prevSurvivors : List (List (Ind A))
  prevSpecialists : List (List (Ind A))
  failed : List (List (Ind A))
  minObjectives : List (List A)
  maxObjectives : List (List A)
  attributes : List (String × List (Option A))
  count : Nat
deriving Repr, DecidableEq

/-- PopulationStorage.__init__ without a file path: empty history. -/
def emptyStorage {A : Type} (paramNames featureNames objectiveNames : List String)
    (pathLength : Nat) (normalize : String) : PopStorage A :=
  ⟨paramNames, featureNames, objectiveNames, pathLength, normalize,
    [], [], [], [], [], [], [], [], [], 0⟩

/-- PopulationStorage.append: records one generation (deep copies are
identities here), increments count by the evaluated plus failed
individuals, registers any new user attribute keys with an empty list, and
appends each supplied attribute value (or None when a known key was not
supplied this call). Keys first seen now start from an empty list: earlier
generations are not back-filled. -/
def storageAppend {A : Type} (s : PopStorage A) (population : List (Ind A))
    (survivors specialists prevSurvivors prevSpecialists failed : List (Ind A))
    (minObjectives maxObjectives : List A)
    (kwargs : List (String × A)) : PopStorage A :=
  let attrs1 := kwargs.foldl (fun attrs kv =>
    if attrs.any (fun pr => pr.1 = kv.1) then attrs else attrs ++ [(kv.1, [])])
    s.attributes
  let attrs2 := attrs1.map (fun pr =>
    match kwargs.find? (fun kv => kv.1 = pr.1) with
    | some kv => (pr.1, pr.2 ++ [some kv.2])
    | none => (pr.1, pr.2 ++ [none]))
  { s with
    survivors := s.survivors ++ [survivors],
    specialists := s.specialists ++ [specialists],
    prevSurvivors := s.prevSurvivors ++ [prevSurvivors],
    prevSpecialists := s.prevSpecialists ++ [prevSpecialists],
    history := s.history ++ [population],
    failed := s.failed ++ [failed],
    count := s.count + population.length + failed.length,
    minObjectives := s.minObjectives ++ [minObjectives],
    maxObjectives := s.maxObjectives ++ [maxObjectives],
    attributes := attrs2 }

/-- One member record of a generation group in the checkpoint file. A
failed-group member stores only its id and x vector. -/
structure IndRecord (A : Type) where
  recId : Option Nat
  x : List A
  energy : Option A
  rank : Option Nat
  distance : Option A
  fitness : Option Nat
  survivor : Option Bool
  features : Option (List A)
  objectives : Option (List A)
  normalizedObjectives : Option (List A)
deriving Repr, DecidableEq

/-- One numbered generation group of the checkpoint file. -/
structure GenGroup (A : Type) where
  attrs : List (String × Option A)
  count : Nat
  minObjectives : Option (List A)
  maxObjectives : Option (List A)
  population : List (IndRecord A)
  survivors : List (IndRecord A)
  specialists : List (IndRecord A)
  prevSurvivors : List (IndRecord A)
  prevSpecialists : List (IndRecord A)
  failed : List (IndRecord A)
deriving Repr, DecidableEq

/-- The checkpoint file: top-level attributes plus numbered generation
groups (keyed by generation index). -/
structure H5File (A : Type) where
  paramNames : Option (List String)
  featureNames : Option (List String)
  objectiveNames : Option (List String)
  pathLength : Option Nat
  normalize : Option String
  userAttributeNames : Option (List String)
  gens : List (Nat × GenGroup A)
deriving Repr, DecidableEq

/-- A file with no content (h5py mode w truncates to this). -/
def emptyH5File {A : Type} : H5File A :=
  ⟨none, none, none, none, none, none, []⟩

/-- Python list indexing: raises IndexError beyond the end. -/
def listAt {B : Type} (l : List B) (i : Nat) : Except String B :=
  if h : i < l.length then Except.ok (l.get ⟨i, h⟩)
  else Except.error "IndexError: list index out of range"

/-- Member record written by save for one Individual (failed-group members
lose everything but id and x). -/
def writeIndRecord {A : Type} (failedGroup : Bool) (ind : Ind A) : IndRecord A :=
  if failedGroup then ⟨ind.modelId, ind.x, none, none, none, none, none, none, none, none⟩
  else ⟨ind.modelId, ind.x, ind.energy, ind.rank, ind.distance, ind.fitness,
    some ind.survivor, ind.features, ind.objectives, ind.normalizedObjectives⟩

/-- Per-generation user attribute values written by save: indexing
attributes[key][gen_index] raises IndexError when the list is shorter. -/
def writeAttrs {A : Type} : List (String × List (Option A)) → Nat →
    Except String (List (String × Option A))
  | [], _ => Except.ok []
  | pr :: rest, genIndex =>
    match listAt pr.2 genIndex with
    | Except.ok v =>
      match writeAttrs rest genIndex with
      | Except.ok tl => Except.ok ((pr.1, v) :: tl)
      | Except.error e => Except.error e
    | Except.error e => Except.error e

/-- The generation group written by save for one generation index. -/
def writeGen {A : Type} (s : PopStorage A) (genIndex : Nat) :
    Except String (GenGroup A) := do
  let attrs ← writeAttrs s.attributes genIndex
  let minv ← listAt s.minObjectives genIndex
  let maxv ← listAt s.maxObjectives genIndex
  let hist ← listAt s.history genIndex
  let surv ← listAt s.survivors genIndex
  let spec ← listAt s.specialists genIndex
  let psurv ← listAt s.prevSurvivors genIndex
  let pspec ← listAt s.prevSpecialists genIndex
  let fail ← listAt s.failed genIndex
  pure ({ attrs := attrs,
          count := s.count,
          minObjectives := if 0 < minv.length ∧ 0 < maxv.length then some minv else none,
          maxObjectives := if 0 < minv.length ∧ 0 < maxv.length then some maxv else none,
          population := hist.map (writeIndRecord false),
          survivors := surv.map (writeIndRecord false),
          specialists := spec.map (writeIndRecord false),
          prevSurvivors := psurv.map (writeIndRecord false),
          prevSpecialists := pspec.map (writeIndRecord false),
          failed := fail.map (writeIndRecord true) } : GenGroup A)

/-- The n argument of PopulationStorage.save. -/
inductive SaveN where
  | all : SaveN
  | num : Nat → SaveN
  | noneArg : SaveN
  | other : SaveN
deriving Repr, DecidableEq

/-- The group-writing while loop of save: a generation index already
present in the file is skipped with a warning print; otherwise its group is
created and appended. -/
def saveLoop {A : Type} (s : PopStorage A) : H5File A → List String → Nat → Nat →
    Except String (H5File A × List String)
  | f, log, 0, _ => Except.ok (f, log)
  | f, log, n + 1, genIndex =>
    if f.gens.any (fun pr => pr.1 = genIndex) then
      saveLoop s f
        (log ++ ["PopulationStorage: generation %s already exported to file."]) n (genIndex + 1)
    else
      match writeGen s genIndex with
      | Except.ok g => saveLoop s { f with gens := f.gens ++ [(genIndex, g)] } log n (genIndex + 1)
      | Except.error e => Except.error e

/-- PopulationStorage.save: opens the file in truncating mode w when
n = all (destroying existing content), else in append mode a; fills in
missing top-level attributes; resolves n (None means 1, a non-int means 1
with a message, n larger than the history exports everything); then runs
the group-writing loop. Returns the resulting file plus printed messages. -/
def storageSave {A : Type} (s : PopStorage A) (file : Option (H5File A)) (narg : SaveN) :
    Except String (H5File A × List String) :=
  let f0 : H5File A := match narg with
    | SaveN.all => emptyH5File
    | _ => file.getD emptyH5File
  let f1 : H5File A := { f0 with
    paramNames := some (f0.paramNames.getD s.paramNames),
    featureNames := some (f0.featureNames.getD s.featureNames),
    objectiveNames := some (f0.objectiveNames.getD s.objectiveNames),
    pathLength := some (f0.pathLength.getD s.pathLength),
    normalize := some (f0.normalize.getD s.normalize),
    userAttributeNames :=
      if f0.userAttributeNames.isNone ∧ 0 < s.attributes.length then
        some (s.attributes.map (fun pr => pr.1))
      else f0.userAttributeNames }
  let nres : Nat × List String := match narg with
    | SaveN.noneArg => (1, [])
    | SaveN.all => (s.history.length, [])
    | SaveN.num k => (k, [])
    | SaveN.other => (1, ["PopulationStorage: defaulting to exporting last generation to file."])
  let n := nres.1
  let log0 := nres.2
  if s.history.length < n then
    saveLoop s f1
      (log0 ++ if s.history.length ≠ 0 then
        ["PopulationStorage: defaulting to exporting all generations to file."] else [])
      s.history.length 0
  else
    saveLoop s f1 log0 n (s.history.length - n)

/-- Individual reconstructed by load from a member record. Failed-group
members keep only x and id. The survivor attribute of a non-failed member
defaults to False when absent (the source would store Python None, which
the Bool field of the model cannot hold; save always writes it). -/
def readIndividual {A : Type} (failedGroup : Bool) (r : IndRecord A) : Ind A :=
  if failedGroup then mkInd r.x r.recId
  else
    { x := r.x,
      features := r.features,
      objectives := r.objectives,
      normalizedObjectives := r.normalizedObjectives,
      energy := r.energy,
      rank := r.rank,
      distance := r.distance,
      fitness := r.fitness,
      survivor := r.survivor.getD false,
      modelId := r.recId }

/-- Load of one generation group: appends the six member lists, the
per-generation bounds (or empty), the per-generation attribute values for
known keys, and overwrites count with the group's count attribute. -/
def loadGen {A : Type} (st : PopStorage A) (g : GenGroup A) : PopStorage A :=
  { st with
    attributes := st.attributes.map (fun pr =>
      match g.attrs.find? (fun kv => kv.1 = pr.1) with
      | some kv => (pr.1, pr.2 ++ [kv.2])
      | none => pr),
    count := g.count,
    minObjectives := st.minObjectives ++ [g.minObjectives.getD []],
    maxObjectives := st.maxObjectives ++ [g.maxObjectives.getD []],
    history := st.history ++ [g.population.map (readIndividual false)],
    survivors := st.survivors ++ [g.survivors.map (readIndividual false)],
    specialists := st.specialists ++ [g.specialists.map (readIndividual false)],
    prevSurvivors := st.prevSurvivors ++ [g.prevSurvivors.map (readIndividual false)],
    prevSpecialists := st.prevSpecialists ++ [g.prevSpecialists.map (readIndividual false)],
    failed := st.failed ++ [g.failed.map (readIndividual true)] }

/-- Reading a required file attribute; missing means a KeyError. -/
def reqAttr {B : Type} (o : Option B) (msg : String) : Except String B :=
  match o with
  | some b => Except.ok b
  | none => Except.error msg

/-- One iteration of the load loop: the group named by the generation
index must exist in the file. -/
def loadStep {A : Type} (f : H5File A) (st : PopStorage A) (gi : Nat) :
    Except String (PopStorage A) :=
  match f.gens.find? (fun pr => pr.1 = gi) with
  | some pr => Except.ok (loadGen st pr.2)
  | none => Except.error "KeyError: generation group"

/-- PopulationStorage.load: reads the top-level attributes, initialises the
user attribute lists from user_attribute_names, then loads generation
groups 0..len(f)-1 in order. -/
def storageLoad {A : Type} (f : H5File A) : Except String (PopStorage A) := do
  let pn ← reqAttr f.paramNames "KeyError: param_names"
  let fn ← reqAttr f.featureNames "KeyError: feature_names"
  let on2 ← reqAttr f.objectiveNames "KeyError: objective_names"
  let pl ← reqAttr f.pathLength "KeyError: path_length"
  let nm ← reqAttr f.normalize "KeyError: normalize"
  let attrs0 : List (String × List (Option A)) :=
    match f.userAttributeNames with
    | some names => if 0 < names.length then names.map (fun k => (k, [])) else []
    | none => []
  let st0 : PopStorage A :=
    ⟨pn, fn, on2, pl, nm, [], [], [], [], [], [], [], [], attrs0, 0⟩
  (List.range f.gens.length).foldlM (loadStep f) st0

/-- The generation group save writes for index genIndex of a storage whose
per-generation lists are long enough (expressed with defaults). -/
def writtenGen {A : Type} (s : PopStorage A) (genIndex : Nat) : GenGroup A :=
  { attrs := s.attributes.map (fun pr => (pr.1, pr.2.getD genIndex none)),
    count := s.count,
    minObjectives :=
      if 0 < (s.minObjectives.getD genIndex []).length ∧
          0 < (s.maxObjectives.getD genIndex []).length
      then some (s.minObjectives.getD genIndex []) else none,
    maxObjectives :=
      if 0 < (s.minObjectives.getD genIndex []).length ∧
          0 < (s.maxObjectives.getD genIndex []).length
      then some (s.maxObjectives.getD genIndex []) else none,
    population := (s.history.getD genIndex []).map (writeIndRecord false),
    survivors := (s.survivors.getD genIndex []).map (writeIndRecord false),
    specialists := (s.specialists.getD genIndex []).map (writeIndRecord false),
    prevSurvivors := (s.prevSurvivors.getD genIndex []).map (writeIndRecord false),
    prevSpecialists := (s.prevSpecialists.getD genIndex []).map (writeIndRecord false),
    failed := (s.failed.getD genIndex []).map (writeIndRecord true) }

lemma listAt_ok {B : Type} (l : List B) (i : Nat) (d : B) (h : i < l.length) :
    listAt l i = Except.ok (l.getD i d) := by
  unfold listAt
  rw [dif_pos h]
  rw [List.getD_eq_getElem _ _ h]
  rfl

lemma writeAttrs_ok {A : Type} :
    ∀ (attrs : List (String × List (Option A))) (genIndex : Nat),
      (∀ pr ∈ attrs, genIndex < pr.2.length) →
      writeAttrs attrs genIndex
        = Except.ok (attrs.map (fun pr => (pr.1, pr.2.getD genIndex none))) := by
  intro attrs
  induction attrs with
  | nil => intro genIndex h; rfl
  | cons pr rest ih =>
    intro genIndex h
    unfold writeAttrs
    rw [listAt_ok pr.2 genIndex none (h pr (List.mem_cons_self pr rest))]
    rw [ih genIndex (fun q hq => h q (List.mem_cons_of_mem pr hq))]
    rfl

/-- Alignment of a storage: all per-generation lists have the same length
as history (maintained by append for the six lists and the bounds, and by
uniformly supplied attribute keys). -/
def StorageAligned {A : Type} (s : PopStorage A) : Prop :=
  s.survivors.length = s.history.length ∧
  s.specialists.length = s.history.length ∧
  s.prevSurvivors.length = s.history.length ∧
  s.prevSpecialists.length = s.history.length ∧
  s.failed.length = s.history.length ∧
  s.minObjectives.length = s.history.length ∧
  s.maxObjectives.length = s.history.length ∧
  (∀ pr ∈ s.attributes, pr.2.length = s.history.length)

lemma writeGen_ok {A : Type} (s : PopStorage A) (genIndex : Nat)
    (hal : StorageAligned s) (hlt : genIndex < s.history.length) :
    writeGen s genIndex = Except.ok (writtenGen s genIndex) := by
  obtain ⟨h1, h2, h3, h4, h5, h6, h7, h8⟩ := hal
  unfold writeGen
  rw [writeAttrs_ok s.attributes genIndex (fun pr hpr => by rw [h8 pr hpr]; exact hlt)]
  rw [listAt_ok s.minObjectives genIndex [] (by omega)]
  rw [listAt_ok s.maxObjectives genIndex [] (by omega)]
  rw [listAt_ok s.history genIndex [] hlt]
  rw [listAt_ok s.survivors genIndex [] (by omega)]
  rw [listAt_ok s.specialists genIndex [] (by omega)]
  rw [listAt_ok s.prevSurvivors genIndex [] (by omega)]
  rw [listAt_ok s.prevSpecialists genIndex [] (by omega)]
  rw [listAt_ok s.failed genIndex [] (by omega)]
  rfl

lemma range_map_shift_pairs {A : Type} (s : PopStorage A) (n start : Nat) :
    (List.range (n + 1)).map (fun j => (start + j, writtenGen s (start + j)))
      = (start, writtenGen s start) ::
        (List.range n).map (fun j => (start + 1 + j, writtenGen s (start + 1 + j))) := by
  rw [List.range_succ_eq_map, List.map_cons, List.map_map]
  congr 1
  apply List.map_congr_left
  intro a ha
  simp only [Function.comp_apply, Nat.succ_eq_add_one]
  have h1 : start + (a + 1) = start + 1 + a := by omega
  rw [h1]

/-- The save loop on a file whose existing groups all have indices below
the window appends exactly one fresh group per index. -/
lemma saveLoop_fresh {A : Type} (s : PopStorage A) (hal : StorageAligned s) :
    ∀ (n : Nat) (genIndex : Nat) (f : H5File A) (log : List String),
      (∀ pr ∈ f.gens, pr.1 < genIndex) →
      (∀ j, j < n → genIndex + j < s.history.length) →
      saveLoop s f log n genIndex
        = Except.ok ({ f with gens := f.gens ++
            (List.range n).map (fun j => (genIndex + j, writtenGen s (genIndex + j))) },
          log) := by
  intro n
  induction n with
  | zero =>
    intro genIndex f log hbelow hin
    unfold saveLoop
    simp
  | succ n ih =>
    intro genIndex f log hbelow hin
    unfold saveLoop
    rw [if_neg (by
      intro hc
      rw [List.any_eq_true] at hc
      rcases hc with ⟨pr, hpr, hpr2⟩
      have := hbelow pr hpr
      have heq : pr.1 = genIndex := by simpa using hpr2
      omega)]
    rw [writeGen_ok s genIndex hal (by have := hin 0 (by omega); omega)]
    show saveLoop s _ log n (genIndex + 1) = _
    rw [ih (genIndex + 1) _ log
      (by
        intro pr hpr
        rcases List.mem_append.mp hpr with h | h
        · have := hbelow pr h
          omega
        · have hpr3 : pr = (genIndex, writtenGen s genIndex) := by simpa using h
          rw [hpr3]
          omega)
      (by intro j hj; have := hin (j + 1) (by omega); omega)]
    congr 1
    rw [range_map_shift_pairs s n genIndex]
    simp

/-- The file produced by save(path, n=all) on an aligned storage: mode w
truncates, so the result carries exactly the storage's top attributes and
one numbered group per generation. -/
def fileAll {A : Type} (s : PopStorage A) : H5File A :=
  { paramNames := some s.paramNames,
    featureNames := some s.featureNames,
    objectiveNames := some s.objectiveNames,
    pathLength := some s.pathLength,
    normalize := some s.normalize,
    userAttributeNames :=
      if 0 < s.attributes.length then some (s.attributes.map (fun pr => pr.1)) else none,
    gens := (List.range s.history.length).map (fun j => (j, writtenGen s j)) }

lemma storageSave_all {A : Type} (s : PopStorage A) (hal : StorageAligned s) :
    storageSave s none SaveN.all = Except.ok (fileAll s, []) := by
  show (if s.history.length < s.history.length then _ else _) = _
  rw [if_neg (lt_irrefl s.history.length)]
  rw [Nat.sub_self]
  rw [saveLoop_fresh s hal s.history.length 0 _ []
    (by intro pr hpr; exact absurd hpr (List.not_mem_nil pr))
    (by intro j hj; omega)]
  show Except.ok (_, _) = _
  congr 2
  · show H5File.mk _ _ _ _ _ _ _ = fileAll s
    unfold fileAll
    congr 1
    · show (if (Option.isNone (none : Option (List String)) = true)
          ∧ 0 < s.attributes.length then _ else _) = _
      simp [emptyH5File]
    · simp [emptyH5File]

lemma find_range_pairs {A : Type} (g : Nat → GenGroup A) :
    ∀ (n gi : Nat), gi < n →
      ((List.range n).map (fun j => (j, g j))).find? (fun pr => pr.1 = gi)
        = some (gi, g gi) := by
  intro n
  induction n with
  | zero => intro gi h; omega
  | succ n ih =>
    intro gi h
    rw [List.range_succ, List.map_append, List.find?_append]
    by_cases hgi : gi < n
    · rw [ih gi hgi]
      rfl
    · have hge : gi = n := by omega
      subst hge
      have h1 : ((List.range gi).map (fun j => (j, g j))).find? (fun pr => pr.1 = gi)
          = none := by
        rw [List.find?_eq_none]
        intro pr hpr
        rcases List.mem_map.mp hpr with ⟨j, hj, hje⟩
        rw [List.mem_range] at hj
        rw [← hje]
        simp only [decide_eq_true_eq]
        omega
      rw [h1]
      simp [List.find?]

lemma foldlM_loadGen {A : Type} (f : H5File A) (g : Nat → GenGroup A) :
    ∀ (n : Nat) (st0 : PopStorage A),
      (∀ gi, gi < n → f.gens.find? (fun pr => pr.1 = gi) = some (gi, g gi)) →
      (List.range n).foldlM (loadStep f) st0
        = Except.ok ((List.range n).foldl (fun st gi => loadGen st (g gi)) st0) := by
  intro n
  induction n with
  | zero => intro st0 hfind; rfl
  | succ n ih =>
    intro st0 hfind
    rw [List.range_succ, List.foldlM_append, List.foldl_append]
    rw [ih st0 (fun gi hgi => hfind gi (by omega))]
    show loadStep f _ n >>= _ = _
    unfold loadStep
    rw [hfind n (by omega)]
    rfl

lemma loadGen_foldl_names {A : Type} (g : Nat → GenGroup A) :
    ∀ (l : List Nat) (st0 : PopStorage A),
      (l.foldl (fun st gi => loadGen st (g gi)) st0).paramNames = st0.paramNames ∧
      (l.foldl (fun st gi => loadGen st (g gi)) st0).featureNames = st0.featureNames ∧
      (l.foldl (fun st gi => loadGen st (g gi)) st0).objectiveNames = st0.objectiveNames := by
  intro l
  induction l with
  | nil => intro st0; exact ⟨rfl, rfl, rfl⟩
  | cons gi t ih =>
    intro st0
    rw [List.foldl_cons]
    exact ih (loadGen st0 (g gi))

lemma loadGen_foldl_history {A : Type} (g : Nat → GenGroup A) :
    ∀ (l : List Nat) (st0 : PopStorage A),
      (l.foldl (fun st gi => loadGen st (g gi)) st0).history
        = st0.history ++ l.map (fun gi => (g gi).population.map (readIndividual false)) := by
  intro l
  induction l with
  | nil => intro st0; simp
  | cons gi t ih =>
    intro st0
    rw [List.foldl_cons, List.map_cons, ih (loadGen st0 (g gi))]
    show (st0.history ++ [(g gi).population.map (readIndividual false)]) ++ _ = _
    rw [List.append_assoc]
    rfl

lemma read_write_ind {A : Type} (ind : Ind A) :
    readIndividual false (writeIndRecord false ind) = ind := rfl

lemma map_read_write {A : Type} (l : List (Ind A)) :
    (l.map (writeIndRecord false)).map (readIndividual false) = l := by
  induction l with
  | nil => rfl
  | cons a t ih =>
    simp only [List.map_cons]
    rw [read_write_ind, ih]

lemma map_range_getD {B : Type} (l : List B) (d : B) :
    (List.range l.length).map (fun i => l.getD i d) = l := by
  apply List.ext_getElem
  · simp
  · intro i h1 h2
    simp only [List.getElem_map, List.getElem_range]
    rw [List.getD_eq_getElem l d h2]

/-- load applied to the file that save(n=all) wrote: the top attributes and
the entire history come back exactly. -/
lemma storageLoad_fileAll {A : Type} (s : PopStorage A) :
    ∃ st2, storageLoad (fileAll s) = Except.ok st2 ∧
      st2.paramNames = s.paramNames ∧
      st2.featureNames = s.featureNames ∧
      st2.objectiveNames = s.objectiveNames ∧
      st2.history = s.history := by
  have hlen : (fileAll s).gens.length = s.history.length := by
    show ((List.range s.history.length).map _).length = _
    simp
  refine ⟨(List.range s.history.length).foldl
      (fun st gi => loadGen st (writtenGen s gi))
      ⟨s.paramNames, s.featureNames, s.objectiveNames, s.pathLength, s.normalize,
        [], [], [], [], [], [], [], [],
        (match (fileAll s).userAttributeNames with
          | some names =>
            if 0 < names.length then names.map (fun k => (k, ([] : List (Option A)))) else []
          | none => []), 0⟩, ?_, ?_, ?_, ?_, ?_⟩
  · show (List.range (fileAll s).gens.length).foldlM (loadStep (fileAll s)) _ = _
    rw [hlen]
    rw [foldlM_loadGen (fileAll s) (writtenGen s) s.history.length _
      (fun gi hgi => find_range_pairs (writtenGen s) s.history.length gi hgi)]
  · exact (loadGen_foldl_names (writtenGen s) (List.range s.history.length) _).1
  · exact (loadGen_foldl_names (writtenGen s) (List.range s.history.length) _).2.1
  · exact (loadGen_foldl_names (writtenGen s) (List.range s.history.length) _).2.2
  · rw [loadGen_foldl_history]
    show [] ++ _ = _
    rw [List.nil_append]
    have h1 : ∀ gi ∈ List.range s.history.length,
        (writtenGen s gi).population.map (readIndividual false)
          = s.history.getD gi [] := by
      intro gi _
      exact map_read_write (s.history.getD gi [])
    rw [List.map_congr_left h1]
    exact map_range_getD s.history []

/-- C6: save(path, n=all) followed by load reproduces param_names,
feature_names and objective_names, the number of generations, every
per-generation population size, and every x vector of the in-memory
original — provided the storage's per-generation lists are aligned with
history (always true of the six member lists and the bounds, but true of
the user attribute lists only when every attribute key was supplied from
the first append on). -/
theorem c6_save_load_roundtrip {A : Type} (s : PopStorage A) (hal : StorageAligned s) :
    ∃ st2,
      storageSave s none SaveN.all = Except.ok (fileAll s, []) ∧
      storageLoad (fileAll s) = Except.ok st2 ∧
      st2.paramNames = s.paramNames ∧
      st2.featureNames = s.featureNames ∧
      st2.objectiveNames = s.objectiveNames ∧
      st2.history.length = s.history.length ∧
      (∀ i d, (st2.history.getD i d).length = (s.history.getD i d).length) ∧
      (∀ i j d e, ((st2.history.getD i d).getD j e).x
        = ((s.history.getD i d).getD j e).x) := by
  obtain ⟨st2, hload, hpn, hfn, hon, hh⟩ := storageLoad_fileAll s
  exact ⟨st2, storageSave_all s hal, hload, hpn, hfn, hon,
    by rw [hh], by intro i d; rw [hh], by intro i j d e; rw [hh]⟩

/-- Concrete aligned storage for evaluating the round trip: one generation,
one individual, one user attribute supplied at the only append. -/
def sC6 : PopStorage Int :=
  storageAppend (emptyStorage ["p0"] ["f0"] ["o0"] 1 "global")
    [mkInd [3] (some 0)] [] [] [] [] [] [0] [1] [("alpha", 2)]

theorem c6_save_load_roundtrip_witness :
    ∃ st2,
      storageSave sC6 none SaveN.all = Except.ok (fileAll sC6, []) ∧
      storageLoad (fileAll sC6) = Except.ok st2 ∧
      st2.paramNames = sC6.paramNames ∧
      st2.featureNames = sC6.featureNames ∧
      st2.objectiveNames = sC6.objectiveNames ∧
      st2.history.length = sC6.history.length ∧
      (∀ i d, (st2.history.getD i d).length = (sC6.history.getD i d).length) ∧
      (∀ i j d e, ((st2.history.getD i d).getD j e).x
        = ((sC6.history.getD i d).getD j e).x) :=
  c6_save_load_roundtrip sC6 (by constructor <;> decide)

/-- A storage built by two appends where the user attribute alpha is first
supplied at the second append: its attribute list has one entry against two
generations, and save(n=all) raises IndexError while writing the group of
the second generation. -/
def sRagged : PopStorage Int :=
  storageAppend
    (storageAppend (emptyStorage ["p0"] ["f0"] ["o0"] 1 "global")
      [mkInd [0] (some 0)] [] [] [] [] [] [] [] [])
    [mkInd [1] (some 1)] [] [] [] [] [] [] [] [("alpha", 1)]

theorem c6_counterexample :
    storageSave sRagged none SaveN.all
      = (Except.error "IndexError: list index out of range"
          : Except String (H5File Int × List String)) := by rfl

/-- A storage whose attribute alpha first appears at the second append:
append registers the key with an empty list and appends one value, leaving
a one-entry attribute list against two generations with no back-filled
null marker for the first generation. -/
def sC7 : PopStorage Int :=
  storageAppend
    (storageAppend (emptyStorage ["p0"] ["f0"] ["o0"] 1 "global")
      [mkInd [0] (some 0)] [] [] [] [] [] [] [] [])
    [mkInd [1] (some 1)] [] [] [] [] [] [] [] [("alpha", 1)]

/-- C7: append does not back-fill user attribute lists. After two appends
where alpha is first supplied at the second, history has two entries but
the alpha list holds a single value and no null marker, so the attribute
lists are shorter than history. -/
theorem c7_append_no_backfill :
    sC7.history.length = 2 ∧
    sC7.attributes = [("alpha", [some 1])] ∧
    ∀ pr ∈ sC7.attributes, pr.2.length ≠ sC7.history.length := by decide

/-- A successful run of the save loop only ever appends generation groups:
every group of the incoming file survives, in order, as a prefix. -/
lemma saveLoop_frame {A : Type} (s : PopStorage A) :
    ∀ (n genIndex : Nat) (f : H5File A) (log : List String)
      (f2 : H5File A) (log2 : List String),
      saveLoop s f log n genIndex = Except.ok (f2, log2) →
      ∃ tail, f2.gens = f.gens ++ tail := by
  intro n
  induction n with
  | zero =>
    intro genIndex f log f2 log2 h
    unfold saveLoop at h
    exact ⟨[], by simp [← (Prod.mk.injEq .. ▸ Except.ok.inj h).1]⟩
  | succ n ih =>
    intro genIndex f log f2 log2 h
    unfold saveLoop at h
    by_cases hc : f.gens.any (fun pr => pr.1 = genIndex)
    · rw [if_pos hc] at h
      exact ih (genIndex + 1) f _ f2 log2 h
    · rw [if_neg hc] at h
      cases hw : writeGen s genIndex with
      | ok g =>
        rw [hw] at h
        obtain ⟨tail, htail⟩ := ih (genIndex + 1) _ log f2 log2 h
        exact ⟨(genIndex, g) :: tail, by rw [htail, List.append_assoc]; rfl⟩
      | error e => rw [hw] at h; exact absurd h (by simp)

/-- The save loop over a window whose every generation index is already
present in the file changes nothing and logs one warning per index. -/
lemma saveLoop_present {A : Type} (s : PopStorage A) :
    ∀ (n genIndex : Nat) (f : H5File A) (log : List String),
      (∀ j, j < n → f.gens.any (fun pr => pr.1 = genIndex + j) = true) →
      saveLoop s f log n genIndex
        = Except.ok (f, log ++ List.replicate n
            "PopulationStorage: generation %s already exported to file.") := by
  intro n
  induction n with
  | zero => intro genIndex f log h; unfold saveLoop; simp
  | succ n ih =>
    intro genIndex f log h
    unfold saveLoop
    rw [if_pos (by have := h 0 (by omega); simpa using this)]
    rw [ih (genIndex + 1) f _ (by
      intro j hj
      have h2 := h (j + 1) (by omega)
      have he : genIndex + (j + 1) = genIndex + 1 + j := by omega
      rw [he] at h2
      exact h2)]
    rw [List.replicate_succ]
    simp

/-- save with an integer n resolves to the append-mode loop over the last
n generations after filling missing top attributes. -/
def fillTop {A : Type} (s : PopStorage A) (f : H5File A) : H5File A :=
  { f with
    paramNames := some (f.paramNames.getD s.paramNames),
    featureNames := some (f.featureNames.getD s.featureNames),
    objectiveNames := some (f.objectiveNames.getD s.objectiveNames),
    pathLength := some (f.pathLength.getD s.pathLength),
    normalize := some (f.normalize.getD s.normalize),
    userAttributeNames :=
      if f.userAttributeNames.isNone ∧ 0 < s.attributes.length then
        some (s.attributes.map (fun pr => pr.1))
      else f.userAttributeNames }

lemma storageSave_num {A : Type} (s : PopStorage A) (f : H5File A) (k : Nat)
    (hk : ¬ s.history.length < k) :
    storageSave s (some f) (SaveN.num k)
      = saveLoop s (fillTop s f) [] k (s.history.length - k) := by
  show (if s.history.length < k then _ else _) = _
  exact if_neg hk

/-- The file produced by an integer-n save whose window is entirely fresh:
the existing groups followed by one newly written group per generation of
the window. -/
def appendedFile {A : Type} (s : PopStorage A) (f : H5File A) (k : Nat) : H5File A :=
  { fillTop s f with
    gens := f.gens ++ (List.range k).map (fun j =>
      (s.history.length - k + j, writtenGen s (s.history.length - k + j))) }

/-- C8: with an integer n, save is additive. Any successful save only
appends groups, keeping every existing group of the file in place; when
the file's groups all predate the save window, the save actually writes:
it succeeds and appends exactly one freshly written group per generation
of the window after the existing groups, which survive untouched; and a
window of generations that are all already present is a detected no-op
that logs one already-exported warning per generation. With n = all,
however, the file is opened in truncating mode w, so the result never
depends on (and destroys) the existing file content. -/
theorem c8_save_modes {A : Type} (s : PopStorage A) (f : H5File A) (k : Nat)
    (hal : StorageAligned s)
    (hk : k ≤ s.history.length) :
    (∀ f2 log2, storageSave s (some f) (SaveN.num k) = Except.ok (f2, log2) →
      ∃ tail, f2.gens = f.gens ++ tail) ∧
    ((∀ pr ∈ f.gens, pr.1 < s.history.length - k) →
      storageSave s (some f) (SaveN.num k)
        = Except.ok (appendedFile s f k, [])) ∧
    ((∀ j, j < k →
        f.gens.any (fun pr => pr.1 = (s.history.length - k) + j) = true) →
      ∃ f2, storageSave s (some f) (SaveN.num k) = Except.ok (f2,
          List.replicate k
            "PopulationStorage: generation %s already exported to file.") ∧
        f2.gens = f.gens) ∧
    storageSave s (some f) SaveN.all = storageSave s none SaveN.all := by
  have hnot : ¬ s.history.length < k := by omega
  refine ⟨?_, ?_, ?_, rfl⟩
  · intro f2 log2 h
    rw [storageSave_num s f k hnot] at h
    obtain ⟨tail, htail⟩ :=
      saveLoop_frame s k (s.history.length - k) (fillTop s f) [] f2 log2 h
    exact ⟨tail, htail⟩
  · intro hbelow
    rw [storageSave_num s f k hnot]
    exact saveLoop_fresh s hal k (s.history.length - k) (fillTop s f) []
      hbelow (by intro j hj; omega)
  · intro hpres
    refine ⟨fillTop s f, ?_, rfl⟩
    rw [storageSave_num s f k hnot]
    rw [saveLoop_present s k (s.history.length - k) (fillTop s f) [] hpres]
    simp

/-- A distinctive generation group, used as pre-existing file content. -/
def gC8 : GenGroup Int :=
  ⟨[], 42, none, none, [], [], [], [], [], []⟩

/-- A file already holding a group for generation 0. -/
def fC8 : H5File Int :=
  { paramNames := some ["q0"],
    featureNames := some ["f0"],
    objectiveNames := some ["o0"],
    pathLength := some 9,
    normalize := some "min_max",
    userAttributeNames := none,
    gens := [(0, gC8)] }

/-- A one-generation storage whose count differs from the group already in
the file, so the freshly written group is distinguishable. -/
def sC8 : PopStorage Int :=
  storageAppend (emptyStorage ["p0"] ["f0"] ["o0"] 1 "global")
    [mkInd [5] (some 0)] [] [] [] [] [] [] [] []

/-- A two-generation aligned storage: saving its last generation into fC8
(which already holds a group for generation 0) is a save that actually
writes a fresh group while the existing one survives. -/
def sC8b : PopStorage Int :=
  storageAppend
    (storageAppend (emptyStorage ["p0"] ["f0"] ["o0"] 1 "global")
      [mkInd [5] (some 0)] [] [] [] [] [] [] [] [])
    [mkInd [6] (some 1)] [] [] [] [] [] [] [] []

theorem c8_save_modes_witness :
    (∀ f2 log2, storageSave sC8b (some fC8) (SaveN.num 1) = Except.ok (f2, log2) →
      ∃ tail, f2.gens = fC8.gens ++ tail) ∧
    storageSave sC8b (some fC8) (SaveN.num 1)
      = Except.ok (appendedFile sC8b fC8 1, []) ∧
    ((∀ j, j < 1 →
        fC8.gens.any (fun pr => pr.1 = (sC8b.history.length - 1) + j) = true) →
      ∃ f2, storageSave sC8b (some fC8) (SaveN.num 1) = Except.ok (f2,
          List.replicate 1
            "PopulationStorage: generation %s already exported to file.") ∧
        f2.gens = fC8.gens) ∧
    storageSave sC8b (some fC8) SaveN.all = storageSave sC8b none SaveN.all := by
  have h := c8_save_modes sC8b fC8 1 (by constructor <;> decide) (by decide)
  exact ⟨h.1, h.2.1 (by decide), h.2.2.1, h.2.2.2⟩

/-- Counterexample to non-destructiveness at n = all: saving over a file
that already holds a group for generation 0 succeeds but replaces that
group (mode w truncation), instead of leaving it unchanged. -/
theorem c8_counterexample :
    ∃ f2 log2, storageSave sC8 (some fC8) SaveN.all = Except.ok (f2, log2) ∧
      f2.gens.find? (fun pr => pr.1 = 0) ≠ fC8.gens.find? (fun pr => pr.1 = 0) := by
  refine ⟨fileAll sC8, [], by rfl, by decide⟩

/-- key in dict: Python membership test on a dict modelled as an
association list. -/
def dictHasAll {A : Type} (d : List (String × A)) (keys : List String) : Bool :=
  keys.all (fun k => d.any (fun kv => kv.1 = k))

/-- The values of the named keys in order, as collected by the list
comprehensions of update_population (the preceding containment check
guarantees every lookup succeeds, so the comprehension never raises). -/
def dictLookupAll {A : Type} (d : List (String × A)) (names : List String) : List A :=
  names.filterMap (fun k => (d.find? (fun kv => kv.1 = k)).map (fun kv => kv.2))

/-- A successfully evaluated individual: objectives and features set from
its returned dicts, ordered by the configured names. -/
def setEval {A : Type} (featureNames objectiveNames : List String) (ind : Ind A)
    (fd od : List (String × A)) : Ind A :=
  { ind with
    objectives := some (dictLookupAll od objectiveNames),
    features := some (dictLookupAll fd featureNames) }

/-- The partition loop of update_population: enumerates the objective
dicts, indexes features and population by position (IndexError beyond the
end), and routes each individual to filtered or failed. -/
def updateLoop {A : Type} (featureNames objectiveNames : List String)
    (population : List (Ind A)) (features : List (List (String × A))) :
    List (List (String × A)) → Nat → List (Ind A) → List (Ind A) →
    Except String (List (Ind A) × List (Ind A))
  | [], _, filtered, failed => Except.ok (filtered, failed)
  | od :: rest, i, filtered, failed => do
    let fd ← listAt features i
    let ind ← listAt population i
    if dictHasAll od objectiveNames && dictHasAll fd featureNames then
      updateLoop featureNames objectiveNames population features rest (i + 1)
        (filtered ++ [setEval featureNames objectiveNames ind fd od]) failed
    else
      updateLoop featureNames objectiveNames population features rest (i + 1)
        filtered (failed ++ [ind])

/-- PopulationAnnealing.update_population up to the storage append: the
batch is partitioned into filtered and failed, population becomes
filtered, and the generation is appended to storage with the previous
survivors and specialists, the failed list, and the step size attribute. -/
def updatePopulation {A : Type} (featureNames objectiveNames : List String)
    (population prevSurvivors prevSpecialists : List (Ind A))
    (storage : PopStorage A) (stepsize : A)
    (features objectives : List (List (String × A))) :
    Except String (List (Ind A) × List (Ind A) × PopStorage A) :=
  match updateLoop featureNames objectiveNames population features objectives 0 [] [] with
  | Except.error e => Except.error e
  | Except.ok (filtered, failed) =>
    Except.ok (filtered, failed,
      storageAppend storage filtered [] [] prevSurvivors prevSpecialists failed [] []
        [("step_size", stepsize)])

lemma filterMap_range_succ_shift {C : Type} (g : Nat → Option C) (m : Nat) :
    (List.range (m + 1)).filterMap g
      = (match g 0 with | some c => [c] | none => [])
        ++ (List.range m).filterMap (fun j => g (j + 1)) := by
  rw [List.range_succ_eq_map, List.filterMap_cons, List.filterMap_map]
  cases g 0 with
  | none => rfl
  | some c => rfl

lemma filterMap_ite_lengths {B C D : Type} (p : B → Bool) (f : B → C) (g : B → D)
    (l : List B) :
    (l.filterMap (fun b => if p b then some (f b) else none)).length
      + (l.filterMap (fun b => if p b then none else some (g b))).length
      = l.length := by
  induction l with
  | nil => rfl
  | cons a t ih =>
    by_cases h : p a = true
    · simp only [List.filterMap_cons, h, if_pos]
      simp only [List.length_cons]
      omega
    · simp only [List.filterMap_cons, if_neg h]
      simp only [List.length_cons]
      omega

lemma updateLoop_spec {A : Type} (featureNames objectiveNames : List String)
    (population : List (Ind A)) (features : List (List (String × A)))
    (d : Ind A) (e : List (String × A))
    (hlf : features.length = population.length) :
    ∀ (obs : List (List (String × A))) (i : Nat) (filtered failed : List (Ind A)),
      i + obs.length ≤ population.length →
      updateLoop featureNames objectiveNames population features obs i filtered failed
        = Except.ok
          (filtered ++ (List.range obs.length).filterMap (fun j =>
              if dictHasAll (obs.getD j e) objectiveNames
                  && dictHasAll (features.getD (i + j) e) featureNames
              then some (setEval featureNames objectiveNames (population.getD (i + j) d)
                  (features.getD (i + j) e) (obs.getD j e))
              else none),
           failed ++ (List.range obs.length).filterMap (fun j =>
              if dictHasAll (obs.getD j e) objectiveNames
                  && dictHasAll (features.getD (i + j) e) featureNames
              then none else some (population.getD (i + j) d))) := by
  intro obs
  induction obs with
  | nil =>
    intro i filtered failed h
    show Except.ok (filtered, failed) = _
    simp
  | cons od rest ih =>
    intro i filtered failed h
    rw [List.length_cons] at h
    have hb1 : i < features.length := by omega
    have hb2 : i < population.length := by omega
    have hFall : (List.range (od :: rest).length).filterMap (fun j =>
        if dictHasAll ((od :: rest).getD j e) objectiveNames
            && dictHasAll (features.getD (i + j) e) featureNames
        then some (setEval featureNames objectiveNames (population.getD (i + j) d)
            (features.getD (i + j) e) ((od :: rest).getD j e))
        else none)
      = (if dictHasAll od objectiveNames && dictHasAll (features.getD i e) featureNames
         then [setEval featureNames objectiveNames (population.getD i d)
            (features.getD i e) od]
         else [])
        ++ (List.range rest.length).filterMap (fun j =>
            if dictHasAll (rest.getD j e) objectiveNames
                && dictHasAll (features.getD (i + 1 + j) e) featureNames
            then some (setEval featureNames objectiveNames (population.getD (i + 1 + j) d)
                (features.getD (i + 1 + j) e) (rest.getD j e))
            else none) := by
      rw [List.length_cons, filterMap_range_succ_shift]
      congr 1
      · simp only [List.getD_cons_zero, Nat.add_zero]
        by_cases hc : (dictHasAll od objectiveNames
            && dictHasAll (features.getD i e) featureNames) = true
        · rw [if_pos hc, if_pos hc]
        · rw [if_neg hc, if_neg hc]
      · apply List.filterMap_congr
        intro j hj
        simp only [List.getD_cons_succ]
        have he : i + (j + 1) = i + 1 + j := by omega
        rw [he]
    have hGall : (List.range (od :: rest).length).filterMap (fun j =>
        if dictHasAll ((od :: rest).getD j e) objectiveNames
            && dictHasAll (features.getD (i + j) e) featureNames
        then none else some (population.getD (i + j) d))
      = (if dictHasAll od objectiveNames && dictHasAll (features.getD i e) featureNames
         then [] else [population.getD i d])
        ++ (List.range rest.length).filterMap (fun j =>
            if dictHasAll (rest.getD j e) objectiveNames
                && dictHasAll (features.getD (i + 1 + j) e) featureNames
            then none else some (population.getD (i + 1 + j) d)) := by
      rw [List.length_cons, filterMap_range_succ_shift]
      congr 1
      · simp only [List.getD_cons_zero, Nat.add_zero]
        by_cases hc : (dictHasAll od objectiveNames
            && dictHasAll (features.getD i e) featureNames) = true
        · rw [if_pos hc, if_pos hc]
        · rw [if_neg hc, if_neg hc]
      · apply List.filterMap_congr
        intro j hj
        simp only [List.getD_cons_succ]
        have he : i + (j + 1) = i + 1 + j := by omega
        rw [he]
    rw [hFall, hGall]
    show (listAt features i >>= fun fd =>
        listAt population i >>= fun ind =>
        if dictHasAll od objectiveNames && dictHasAll fd featureNames then
          updateLoop featureNames objectiveNames population features rest (i + 1)
            (filtered ++ [setEval featureNames objectiveNames ind fd od]) failed
        else
          updateLoop featureNames objectiveNames population features rest (i + 1)
            filtered (failed ++ [ind])) = _
    rw [listAt_ok features i e hb1, listAt_ok population i d hb2]
    show (if dictHasAll od objectiveNames && dictHasAll (features.getD i e) featureNames then
        updateLoop featureNames objectiveNames population features rest (i + 1)
          (filtered ++ [setEval featureNames objectiveNames (population.getD i d)
            (features.getD i e) od]) failed
      else
        updateLoop featureNames objectiveNames population features rest (i + 1)
          filtered (failed ++ [population.getD i d])) = _
    by_cases hc : (dictHasAll od objectiveNames
        && dictHasAll (features.getD i e) featureNames) = true
    · rw [if_pos hc, if_pos hc, if_pos hc]
      rw [ih (i + 1) _ failed (by omega)]
      simp [List.append_assoc]
    · rw [if_neg hc, if_neg hc, if_neg hc]
      rw [ih (i + 1) filtered _ (by omega)]
      simp [List.append_assoc]

/-- C4: update_population partitions the batch positionally — an individual
whose objective dict holds every objective name and whose feature dict
holds every feature name stays, with objectives and features set; any
other individual goes to failed unchanged; the lengths of the two parts
add up to the batch, and the storage append raises count by the full batch
size. -/
theorem c4_update_partition {A : Type} (featureNames objectiveNames : List String)
    (population prevSurvivors prevSpecialists : List (Ind A))
    (storage : PopStorage A) (stepsize : A)
    (features objectives : List (List (String × A)))
    (d : Ind A) (e : List (String × A))
    (hlf : features.length = population.length)
    (hlo : objectives.length = population.length) :
    ∃ filtered failed,
      filtered = (List.range population.length).filterMap (fun i =>
        if dictHasAll (objectives.getD i e) objectiveNames
            && dictHasAll (features.getD i e) featureNames
        then some (setEval featureNames objectiveNames (population.getD i d)
            (features.getD i e) (objectives.getD i e))
        else none) ∧
      failed = (List.range population.length).filterMap (fun i =>
        if dictHasAll (objectives.getD i e) objectiveNames
            && dictHasAll (features.getD i e) featureNames
        then none else some (population.getD i d)) ∧
      updatePopulation featureNames objectiveNames population prevSurvivors prevSpecialists
          storage stepsize features objectives
        = Except.ok (filtered, failed,
            storageAppend storage filtered [] [] prevSurvivors prevSpecialists failed [] []
              [("step_size", stepsize)]) ∧
      filtered.length + failed.length = population.length ∧
      (storageAppend storage filtered [] [] prevSurvivors prevSpecialists failed [] []
          [("step_size", stepsize)]).count = storage.count + population.length := by
  have hrun := updateLoop_spec featureNames objectiveNames population features d e hlf
    objectives 0 [] [] (by omega)
  simp only [Nat.zero_add, List.nil_append, hlo] at hrun
  have hsum : ((List.range population.length).filterMap (fun i =>
        if dictHasAll (objectives.getD i e) objectiveNames
            && dictHasAll (features.getD i e) featureNames
        then some (setEval featureNames objectiveNames (population.getD i d)
            (features.getD i e) (objectives.getD i e))
        else none)).length
      + ((List.range population.length).filterMap (fun i =>
        if dictHasAll (objectives.getD i e) objectiveNames
            && dictHasAll (features.getD i e) featureNames
        then none else some (population.getD i d))).length
      = population.length := by
    have h := filterMap_ite_lengths
      (fun i => dictHasAll (objectives.getD i e) objectiveNames
          && dictHasAll (features.getD i e) featureNames)
      (fun i => setEval featureNames objectiveNames (population.getD i d)
          (features.getD i e) (objectives.getD i e))
      (fun i => population.getD i d)
      (List.range population.length)
    rw [List.length_range] at h
    exact h
  refine ⟨_, _, rfl, rfl, ?_, hsum, ?_⟩
  · show (match updateLoop featureNames objectiveNames population features objectives 0 [] []
      with
      | Except.error e2 => Except.error e2
      | Except.ok (filtered, failed) =>
        Except.ok (filtered, failed,
          storageAppend storage filtered [] [] prevSurvivors prevSpecialists failed [] []
            [("step_size", stepsize)])) = _
    rw [hrun]
  · show storage.count + _ + _ = _
    omega

/-- Concrete batch for the update_population partition: three individuals,
the second returning an objective dict missing the required key o. -/
def popC4 : List (Ind Int) := [mkInd [10] (some 0), mkInd [11] (some 1), mkInd [12] (some 2)]

def featsC4 : List (List (String × Int)) := [[("f", 1)], [("f", 2)], [("f", 3)]]

def objsC4 : List (List (String × Int)) := [[("o", 5)], [], [("o", 7)]]

def stC4 : PopStorage Int := emptyStorage ["p"] ["f"] ["o"] 1 "global"

theorem c4_update_partition_witness :
    ∃ filtered failed,
      filtered = (List.range popC4.length).filterMap (fun i =>
        if dictHasAll (objsC4.getD i []) ["o"]
            && dictHasAll (featsC4.getD i []) ["f"]
        then some (setEval ["f"] ["o"] (popC4.getD i (mkInd [] none))
            (featsC4.getD i []) (objsC4.getD i []))
        else none) ∧
      failed = (List.range popC4.length).filterMap (fun i =>
        if dictHasAll (objsC4.getD i []) ["o"]
            && dictHasAll (featsC4.getD i []) ["f"]
        then none else some (popC4.getD i (mkInd [] none))) ∧
      updatePopulation ["f"] ["o"] popC4 [] [] stC4 3 featsC4 objsC4
        = Except.ok (filtered, failed,
            storageAppend stC4 filtered [] [] [] [] failed [] []
              [("step_size", 3)]) ∧
      filtered.length + failed.length = popC4.length ∧
      (storageAppend stC4 filtered [] [] [] [] failed [] []
          [("step_size", 3)]).count = stC4.count + popC4.length :=
  c4_update_partition ["f"] ["o"] popC4 [] [] stC4 3 featsC4 objsC4
    (mkInd [] none) [] (by decide) (by decide)

/-- The PopulationAnnealing driver state at a suspension point of its
generator. take_step is the user-supplied callable (arguments: the start
vector or None, an override stepsize or None, an override wrap or None);
stepsize mirrors take_step.stepsize, which step_survivors anneals. started
records whether the generator has yielded before (resuming increments
num_gen). -/
structure PAState (A : Type) where
  numGen : Nat
  maxGens : Nat
  pathLength : Nat
  popSize : Nat
  x0 : Option (List A)
  stepsize : A
  adaptiveStepFactor : A
  specialistsSurvive : Bool
  objectivesStored : Bool
  started : Bool
  count : Nat
  population : List (Ind A)
  survivors : List (Ind A)
  specialists : List (Ind A)
  prevSurvivors : List (Ind A)
  prevSpecialists : List (Ind A)
  takeStep : Option (List A) → Option A → Option Bool → List A

/-- PopulationAnnealing.init_population: when x0 is set and this is
generation 0, the first member is x0 itself; the rest are steps from x0
taken with stepsize 1 and wrap True; model ids continue from count. -/
def initPopulation {A : Type} [LinearOrderedRing A] (st : PAState A) : PAState A :=
  if st.x0.isSome = true ∧ st.numGen = 0 then
    { st with
      population := mkInd (st.x0.getD []) (some st.count) ::
        (List.range (st.popSize - 1)).map (fun i =>
          mkInd (st.takeStep st.x0 (some 1) (some true)) (some (st.count + 1 + i))),
      count := st.count + 1 + (st.popSize - 1) }
  else
    { st with
      population := (List.range st.popSize).map (fun i =>
        mkInd (st.takeStep st.x0 (some 1) (some true)) (some (st.count + i))),
      count := st.count + st.popSize }

/-- PopulationAnnealing.step_survivors: anneal the step size; with no
survivors fall back to init_population; otherwise the survivors (and, if
specialists survive, the specialists) become the previous generation's
seeds with their survivor flags cleared, and the next population steps
cyclically from the group. -/
def stepSurvivors {A : Type} [LinearOrderedRing A] (st : PAState A) : PAState A :=
  let st1 := { st with stepsize := st.stepsize * st.adaptiveStepFactor }
  if st1.survivors.isEmpty = true then
    let st2 := initPopulation st1
    { st2 with survivors := [], specialists := [] }
  else
    let prevS := st1.survivors.map (fun ind => { ind with survivor := false })
    let prevSp :=
      if st1.specialistsSurvive then
        st1.specialists.map (fun ind => { ind with survivor := false })
      else st1.specialists
    let group := prevS ++ (if st1.specialistsSurvive then prevSp else [])
    { st1 with
      prevSurvivors := prevS,
      prevSpecialists := prevSp,
      population := (List.range st1.popSize).map (fun i =>
        mkInd (st1.takeStep (some ((group.getD (i % group.length) (mkInd [] none)).x))
            none none)
          (some (st1.count + i))),
      count := st1.count + st1.popSize,
      survivors := [],
      specialists := [] }

/-- PopulationAnnealing.step_population: with an empty population fall
back to init_population; otherwise step cyclically from the current
population. -/
def stepPopulation {A : Type} [LinearOrderedRing A] (st : PAState A) : PAState A :=
  if st.population.length = 0 then initPopulation st
  else
    { st with
      population := (List.range st.popSize).map (fun i =>
        mkInd (st.takeStep
            (some ((st.population.getD (i % st.population.length) (mkInd [] none)).x))
            none none)
          (some (st.count + i))),
      count := st.count + st.popSize }

/-- One resumption of the PopulationAnnealing.__call__ generator: a resume
after a yield first increments num_gen; inside the loop, generation 0
initialises, an un-stored previous generation is a fatal error, and
otherwise the generation steps (from survivors at path boundaries); each
yield clears objectives_stored and hands out the population's x vectors
and model ids. Past max_gens the generator checks the final generation was
stored and stops. -/
def advance {A : Type} [LinearOrderedRing A] (st0 : PAState A) :
    Except String (Option ((List (List A) × List (Option Nat)) × PAState A)) :=
  let st := if st0.started then { st0 with numGen := st0.numGen + 1 }
    else { st0 with started := true }
  if st.numGen < st.maxGens then
    match (if st.numGen = 0 then Except.ok (initPopulation st)
      else if st.objectivesStored = false then
        Except.error
          "PopulationAnnealing: objectives from previous Gen %i were not stored or evaluated"
      else if st.numGen % st.pathLength = 0 then Except.ok (stepSurvivors st)
      else Except.ok (stepPopulation st)) with
    | Except.error e => Except.error e
    | Except.ok st2 =>
      let st3 := { st2 with objectivesStored := false }
      Except.ok (some ((st3.population.map (fun ind => ind.x),
        st3.population.map (fun ind => ind.modelId)), st3))
  else
    if st.objectivesStored = false then
      Except.error
        "PopulationAnnealing: objectives from final Gen %i were not stored or evaluated"
    else Except.ok none

lemma initPopulation_started {A : Type} [LinearOrderedRing A] (st : PAState A) :
    (initPopulation st).started = st.started := by
  unfold initPopulation
  split <;> rfl

lemma stepSurvivors_started {A : Type} [LinearOrderedRing A] (st : PAState A) :
    (stepSurvivors st).started = st.started := by
  unfold stepSurvivors
  dsimp only
  split
  · rw [initPopulation_started]
  · rfl

lemma stepPopulation_started {A : Type} [LinearOrderedRing A] (st : PAState A) :
    (stepPopulation st).started = st.started := by
  unfold stepPopulation
  split
  · rw [initPopulation_started]
  · rfl

/-- C5: resuming the generator when the previously yielded generation's
objectives were not stored is a fatal error (the objectives-not-stored
exception, in its previous-Gen or final-Gen form), and every successful
yield hands back a state with objectives_stored cleared and started set —
so no two generations are ever yielded without results being stored in
between. -/
theorem c5_objectives_stored_gate {A : Type} [LinearOrderedRing A]
    (u s t : PAState A) (b : List (List A) × List (Option Nat))
    (hstart : u.started = true)
    (hstored : u.objectivesStored = false)
    (hyield : advance s = Except.ok (some (b, t))) :
    advance u = Except.error (if u.numGen + 1 < u.maxGens
      then "PopulationAnnealing: objectives from previous Gen %i were not stored or evaluated"
      else "PopulationAnnealing: objectives from final Gen %i were not stored or evaluated") ∧
    t.objectivesStored = false ∧ t.started = true := by
  refine ⟨?_, ?_⟩
  · by_cases hm : u.numGen + 1 < u.maxGens
    · rw [if_pos hm]
      simp [advance, hstart, hstored, hm]
    · rw [if_neg hm]
      simp [advance, hstart, hstored, hm]
  · unfold advance at hyield
    split at hyield
    all_goals
      dsimp only at hyield
      split at hyield
      case isTrue =>
        split at hyield
        case h_1 => exact absurd hyield (by simp)
        case h_2 st2 heq =>
          have h4 := Option.some.inj (Except.ok.inj hyield)
          rw [Prod.mk.injEq] at h4
          rw [← h4.2]
          refine ⟨rfl, ?_⟩
          show st2.started = true
          split at heq
          · rw [← Except.ok.inj heq, initPopulation_started]
            all_goals assumption
          · split at heq
            · simp at heq
            · split at heq
              · rw [← Except.ok.inj heq, stepSurvivors_started]
                all_goals assumption
              · rw [← Except.ok.inj heq, stepPopulation_started]
                all_goals assumption
      case isFalse =>
        split at hyield <;> simp_all

/-- A cold-start driver: pop_size 1 with x0 set, so the first advance
yields x0 itself without consulting take_step. -/
def sC5 : PAState Int :=
  { numGen := 0, maxGens := 3, pathLength := 3, popSize := 1,
    x0 := some [7], stepsize := 1, adaptiveStepFactor := 1,
    specialistsSurvive := true, objectivesStored := false, started := false,
    count := 0, population := [], survivors := [], specialists := [],
    prevSurvivors := [], prevSpecialists := [],
    takeStep := fun _ _ _ => [9] }

/-- The state handed back by the first yield of sC5. -/
def tC5 : PAState Int :=
  { sC5 with
    started := true,
    population := [mkInd [7] (some 0)],
    count := 1 }

theorem c5_objectives_stored_gate_witness :
    advance tC5 = Except.error (if tC5.numGen + 1 < tC5.maxGens
      then "PopulationAnnealing: objectives from previous Gen %i were not stored or evaluated"
      else "PopulationAnnealing: objectives from final Gen %i were not stored or evaluated") ∧
    tC5.objectivesStored = false ∧ tC5.started = true :=
  c5_objectives_stored_gate tC5 sC5 tC5 ([[7]], [some 0]) rfl rfl rfl

/-- RelativeBoundedStep state: the fields __init__ stores. x_range is
xmax - xmin componentwise and abs_order_mag holds xi_logmax - xi_logmin
per parameter. A relative-bound rule is (dependent name, operator string,
factor, independent name). Uniform draws are supplied as a stream of unit
draws us with a running index; uniform a b u is a + (b - a) * u. List
indexing inside the step methods uses getD; the theorems' length
hypotheses keep every such access in range, matching the source where the
same access would raise. -/
structure RBS where
  stepsize : Real
  wrap : Bool
  paramNames : List String
  x0 : List Real
  xmin : List Real
  xmax : List Real
  xRange : List Real
  absOrderMag : List Real
  relBounds : Option (List (String × String × Real × String))

/-- np.random.uniform(a, b) idealised: the unit draw u picks the convex
combination a + (b - a) * u. -/
noncomputable def uniform (a b u : Real) : Real := a + (b - a) * u

/-- self.logmod. -/
noncomputable def logmod (x offset factor : Real) : Real :=
  Real.logb 10 (x * factor + offset)

/-- self.logmod_inv (10. ** logmod_x is real exponentiation). -/
noncomputable def logmodInv (logmodX offset factor : Real) : Real :=
  ((10 : Real) ^ logmodX - offset) / factor

/-- RelativeBoundedStep.logmod_bounds: returns (xi_logmin, xi_logmax) and
the (offset, factor) pair, with none standing for the (None, None) of the
sign-spanning and degenerate cases. -/
noncomputable def logmodBounds (ximin ximax : Real) :
    Real × Real × Option (Real × Real) :=
  if ximin < 0 then
    if ximax < 0 then
      (logmod ximax 0 (-1), logmod ximin 0 (-1), some (0, -1))
    else if ximax = 0 then
      let thisOrderMag0 := Real.logb 10 (ximin * (-1))
      let thisOrderMag : Real :=
        if 0 < thisOrderMag0 then (⌈thisOrderMag0⌉ : Int) else (⌊thisOrderMag0⌋ : Int)
      let offset := (10 : Real) ^ (min 0 (thisOrderMag - 2))
      (logmod ximax offset (-1), logmod ximin offset (-1), some (offset, -1))
    else
      (0, 0, none)
  else if ximin = 0 then
    if ximax = 0 then
      (0, 0, none)
    else
      let thisOrderMag0 := Real.logb 10 (ximax * 1)
      let thisOrderMag : Real :=
        if 0 < thisOrderMag0 then (⌈thisOrderMag0⌉ : Int) else (⌊thisOrderMag0⌋ : Int)
      let offset := (10 : Real) ^ (min 0 (thisOrderMag - 2))
      (logmod ximin offset 1, logmod ximax offset 1, some (offset, 1))
  else
    (logmod ximin 0 1, logmod ximax 0 1, some (0, 1))

/-- RelativeBoundedStep.linear_step with the stepsize and wrap already
resolved; consumes one unit draw. -/
noncomputable def linearStep (s : RBS) (xi : Real) (i : Nat)
    (ximin ximax stepsize : Real) (wrap : Bool) (u : Real) : Real :=
  let step := stepsize * s.xRange.getD i 0 / 2
  if wrap then
    let step2 := min step (ximax - ximin)
    let newxi := xi + uniform (-step2) step2 u
    if ximin > newxi then max (ximax - (ximin - newxi)) ximin
    else if ximax < newxi then min (ximin + (newxi - ximax)) ximax
    else newxi
  else
    uniform (max ximin (xi - step)) (min ximax (xi + step)) u

/-- RelativeBoundedStep.log10_step with stepsize and wrap resolved;
consumes one unit draw. -/
noncomputable def log10Step (s : RBS) (xi : Real) (i : Nat)
    (xilogmin xilogmax offset factor stepsize : Real) (wrap : Bool) (u : Real) : Real :=
  let xilog := logmod xi offset factor
  let step := stepsize * s.absOrderMag.getD i 0 / 2
  if wrap then
    let step2 := min step (xilogmax - xilogmin)
    let stepxilog := xilog + uniform (-step2) step2 u
    let adjusted :=
      if xilogmin > stepxilog then max (xilogmax - (xilogmin - stepxilog)) xilogmin
      else if xilogmax < stepxilog then min (xilogmin + (stepxilog - xilogmax)) xilogmax
      else stepxilog
    logmodInv adjusted offset factor
  else
    logmodInv (uniform (max xilogmin (xilog - step)) (min xilogmax (xilog + step)) u)
      offset factor

/-- RelativeBoundedStep.generate_param: a fixed parameter is returned
as-is without consuming a draw; otherwise the step is linear unless the
effective order of magnitude exceeds 1, in which case it is taken in
log10 space. When logmod_bounds returns no offset/factor the difference
xi_logmax - xi_logmin is 0, so order_mag is at most 0 and the log branch
cannot be reached; that arm returns xi without a draw. -/
noncomputable def generateParam (s : RBS) (xi : Real) (i : Nat)
    (ximin ximax stepsize : Real) (wrap : Bool) (us : Nat → Real) (k : Nat) :
    Real × Nat :=
  if ximin = ximax then (ximin, k)
  else if s.absOrderMag.getD i 0 ≤ 1 then
    (linearStep s xi i ximin ximax stepsize wrap (us k), k + 1)
  else
    let lb := logmodBounds ximin ximax
    let orderMag := min (lb.2.1 - lb.1) (s.absOrderMag.getD i 0 * stepsize)
    if orderMag ≤ 1 then
      (linearStep s xi i ximin ximax stepsize wrap (us k), k + 1)
    else
      match lb.2.2 with
      | some pr => (log10Step s xi i lb.1 lb.2.1 pr.1 pr.2 stepsize wrap (us k), k + 1)
      | none => (xi, k)

/-- The per-parameter loop of RelativeBoundedStep.__call__. -/
noncomputable def stepLoop (s : RBS) (stepsize : Real) (wrap : Bool)
    (us : Nat → Real) : List Real → Nat → Nat → List Real × Nat
  | [], _, k => ([], k)
  | xi :: rest, i, k =>
    let p := generateParam s xi i (s.xmin.getD i 0) (s.xmax.getD i 0) stepsize wrap us k
    let q := stepLoop s stepsize wrap us rest (i + 1) p.2
    (p.1 :: q.1, q.2)

/-- Position of a parameter name (param_indexes lookup; none is a
KeyError). -/
def paramIdx (names : List String) (p : String) : Option Nat :=
  names.findIdx? (fun q => q = p)

/-- RelativeBoundedStep.apply_rel_bounds: one pass over the rules,
narrowing new_min/new_max and resampling the dependent parameter when it
falls outside the narrowed interval. np.nextafter of the <= and > cases is
the identity over idealised reals. The = rule checks against the absolute
bounds and raises when violated. -/
noncomputable def applyRelBoundsLoop (s : RBS) (stepsize : Real)
    (us : Nat → Real) :
    List (String × String × Real × String) → List Real → List Real →
      List Real → Nat → Except String (List Real × Nat)
  | [], newX, _, _, k => Except.ok (newX, k)
  | rule :: rest, newX, newMin, newMax, k =>
    match paramIdx s.paramNames rule.1 with
    | none => Except.error "KeyError"
    | some depInd =>
      if newX.length ≤ depInd then
        Except.error "Dependent parameter index is out of bounds for rule %d."
      else
        match paramIdx s.paramNames rule.2.2.2 with
        | none => Except.error "KeyError"
        | some indInd =>
          if newX.length ≤ indInd then
            Except.error "Independent parameter index is out of bounds for rule %d."
          else
            let factor := rule.2.2.1
            if rule.2.1 = "=" then
              let newxi := factor * newX.getD indInd 0
              if s.xmin.getD depInd 0 ≤ newxi ∧ newxi < s.xmax.getD depInd 0 then
                applyRelBoundsLoop s stepsize us rest (newX.set depInd newxi)
                  newMin newMax k
              else
                Except.error "Relative bounds rule %d contradicts fixed parameter bounds."
            else
              let newMin2 :=
                if rule.2.1 = ">=" ∨ rule.2.1 = ">" then
                  newMin.set depInd (min (max (newMin.getD depInd 0)
                    (factor * newX.getD indInd 0)) (newMax.getD depInd 0))
                else newMin
              let newMax2 :=
                if rule.2.1 = "<" ∨ rule.2.1 = "<=" then
                  newMax.set depInd (max (min (newMax.getD depInd 0)
                    (factor * newX.getD indInd 0)) (newMin.getD depInd 0))
                else newMax
              if ¬ (newMin2.getD depInd 0 ≤ newX.getD depInd 0 ∧
                  newX.getD depInd 0 < newMax2.getD depInd 0) then
                let newxi := min (max (newX.getD depInd 0) (newMin2.getD depInd 0))
                  (newMax2.getD depInd 0)
                let p := generateParam s newxi depInd (newMin2.getD depInd 0)
                  (newMax2.getD depInd 0) stepsize false us k
                applyRelBoundsLoop s stepsize us rest (newX.set depInd p.1)
                  newMin2 newMax2 p.2
              else
                applyRelBoundsLoop s stepsize us rest newX newMin2 newMax2 k

/-- RelativeBoundedStep.__call__: resolve the per-call stepsize, wrap and
start vector, step every parameter, then apply the relative-bound rules
when configured. -/
noncomputable def callRBS (s : RBS) (currentX : Option (List Real))
    (stepsizeArg : Option Real) (wrapArg : Option Bool)
    (us : Nat → Real) (k : Nat) : Except String (List Real × Nat) :=
  let stepsize := stepsizeArg.getD s.stepsize
  let wrap := wrapArg.getD s.wrap
  let x := currentX.getD s.x0
  let p := stepLoop s stepsize wrap us x 0 k
  match s.relBounds with
  | some rb => applyRelBoundsLoop s stepsize us rb p.1 s.xmin s.xmax p.2
  | none => Except.ok (p.1, p.2)

/-- The absolute-bounds pass of RelativeBoundedStep.check_bounds. -/
noncomputable def checkAbs (xmin xmax : List Real) : List Real → Nat → Bool
  | [], _ => true
  | xi :: rest, i =>
    if xi = xmin.getD i 0 ∧ xi = xmax.getD i 0 then checkAbs xmin xmax rest (i + 1)
    else if xi < xmin.getD i 0 then false
    else if xmax.getD i 0 < xi then false
    else checkAbs xmin xmax rest (i + 1)

/-- The relative-rules pass of RelativeBoundedStep.check_bounds; an
operator string outside the five known ones leaves the Python local
operator unbound, a NameError. -/
noncomputable def checkRel (s : RBS) (x : List Real) :
    List (String × String × Real × String) → Except String Bool
  | [] => Except.ok true
  | rule :: rest =>
    match paramIdx s.paramNames rule.1 with
    | none => Except.error "KeyError"
    | some depInd =>
      if x.length ≤ depInd then
        Except.error "Dependent parameter index is out of bounds for rule %d."
      else
        match paramIdx s.paramNames rule.2.2.2 with
        | none => Except.error "KeyError"
        | some indInd =>
          if x.length ≤ indInd then
            Except.error "Independent parameter index is out of bounds for rule %d."
          else
            let factor := rule.2.2.1
            let vdep := x.getD depInd 0
            let vind := x.getD indInd 0
            if rule.2.1 = "=" then
              (if vdep = factor * vind then checkRel s x rest else Except.ok false)
            else if rule.2.1 = "<" then
              (if vdep < factor * vind then checkRel s x rest else Except.ok false)
            else if rule.2.1 = "<=" then
              (if vdep ≤ factor * vind then checkRel s x rest else Except.ok false)
            else if rule.2.1 = ">=" then
              (if factor * vind ≤ vdep then checkRel s x rest else Except.ok false)
            else if rule.2.1 = ">" then
              (if factor * vind < vdep then checkRel s x rest else Except.ok false)
            else Except.error "NameError"

/-- RelativeBoundedStep.check_bounds. -/
noncomputable def checkBounds (s : RBS) (x : List Real) : Except String Bool :=
  if checkAbs s.xmin s.xmax x 0 = false then Except.ok false
  else
    match s.relBounds with
    | some rb => checkRel s x rb
    | none => Except.ok true

/-- The abs_order_mag list computed by RelativeBoundedStep.__init__. -/
noncomputable def mkAbsOrderMag (xmin xmax : List Real) : List Real :=
  (List.range xmin.length).map (fun i =>
    (logmodBounds (xmin.getD i 0) (xmax.getD i 0)).2.1
      - (logmodBounds (xmin.getD i 0) (xmax.getD i 0)).1)


lemma uniform_mem (a b u lo hi : Real) (ha1 : lo ≤ a) (ha2 : a ≤ hi)
    (hb1 : lo ≤ b) (hb2 : b ≤ hi) (hu1 : 0 ≤ u) (hu2 : u ≤ 1) :
    lo ≤ uniform a b u ∧ uniform a b u ≤ hi := by
  unfold uniform
  constructor <;> nlinarith

lemma linearStep_spec (s : RBS) (xi : Real) (i : Nat)
    (ximin ximax stepsize : Real) (wrap : Bool) (u : Real)
    (hmm : ximin ≤ ximax) (hx1 : ximin ≤ xi) (hx2 : xi ≤ ximax)
    (hstep : 0 ≤ stepsize) (hrange : 0 ≤ s.xRange.getD i 0)
    (hu1 : 0 ≤ u) (hu2 : u ≤ 1) :
    ximin ≤ linearStep s xi i ximin ximax stepsize wrap u ∧
    linearStep s xi i ximin ximax stepsize wrap u ≤ ximax := by
  unfold linearStep
  have hstep0 : 0 ≤ stepsize * s.xRange.getD i 0 / 2 := by positivity
  cases wrap with
  | true =>
    dsimp only
    rw [if_pos (by decide : (true : Bool) = true)]
    set newxi := xi + uniform (-(min (stepsize * s.xRange.getD i 0 / 2) (ximax - ximin)))
      (min (stepsize * s.xRange.getD i 0 / 2) (ximax - ximin)) u with hnewxi
    by_cases h1 : ximin > newxi
    · rw [if_pos h1]
      constructor
      · exact le_max_right _ _
      · apply max_le _ hmm
        linarith
    · rw [if_neg h1]
      by_cases h2 : ximax < newxi
      · rw [if_pos h2]
        constructor
        · apply le_min _ hmm
          linarith
        · exact min_le_right _ _
      · rw [if_neg h2]
        constructor <;> linarith [not_lt.mp h1, not_lt.mp h2]
  | false =>
    dsimp only
    apply uniform_mem
    · exact le_max_left _ _
    · apply max_le hmm
      linarith
    · apply le_min hmm
      linarith
    · exact min_le_left _ _
    · exact hu1
    · exact hu2

lemma log10Step_spec (s : RBS) (xi : Real) (i : Nat)
    (xilogmin xilogmax offset factor stepsize : Real) (wrap : Bool) (u : Real)
    (ximin ximax : Real)
    (hlm : xilogmin ≤ xilogmax)
    (hxilog1 : xilogmin ≤ logmod xi offset factor)
    (hxilog2 : logmod xi offset factor ≤ xilogmax)
    (hmono : ∀ r, xilogmin ≤ r → r ≤ xilogmax →
      ximin ≤ logmodInv r offset factor ∧ logmodInv r offset factor ≤ ximax)
    (hstep : 0 ≤ stepsize) (habs : 0 ≤ s.absOrderMag.getD i 0)
    (hu1 : 0 ≤ u) (hu2 : u ≤ 1) :
    ximin ≤ log10Step s xi i xilogmin xilogmax offset factor stepsize wrap u ∧
    log10Step s xi i xilogmin xilogmax offset factor stepsize wrap u ≤ ximax := by
  unfold log10Step
  cases wrap with
  | true =>
    dsimp only
    rw [if_pos (by decide : (true : Bool) = true)]
    set stepxilog := logmod xi offset factor
      + uniform (-(min (stepsize * s.absOrderMag.getD i 0 / 2) (xilogmax - xilogmin)))
        (min (stepsize * s.absOrderMag.getD i 0 / 2) (xilogmax - xilogmin)) u with hsx
    by_cases h1 : xilogmin > stepxilog
    · rw [if_pos h1]
      apply hmono
      · exact le_max_right _ _
      · apply max_le _ hlm
        linarith
    · rw [if_neg h1]
      by_cases h2 : xilogmax < stepxilog
      · rw [if_pos h2]
        apply hmono
        · apply le_min _ hlm
          linarith
        · exact min_le_right _ _
      · rw [if_neg h2]
        exact hmono _ (not_lt.mp h1) (not_lt.mp h2)
  | false =>
    dsimp only
    rw [if_neg (by decide : ¬ (false : Bool) = true)]
    have hstep0 : 0 ≤ stepsize * s.absOrderMag.getD i 0 / 2 := by positivity
    have hur := uniform_mem (max xilogmin (logmod xi offset factor - stepsize * s.absOrderMag.getD i 0 / 2))
      (min xilogmax (logmod xi offset factor + stepsize * s.absOrderMag.getD i 0 / 2)) u
      xilogmin xilogmax
      (le_max_left _ _)
      (max_le hlm (by linarith))
      (le_min hlm (by linarith))
      (min_le_left _ _) hu1 hu2
    exact hmono _ hur.1 hur.2

lemma rbs_logb_mono (x y : Real) (hx : 0 < x) (h : x ≤ y) :
    Real.logb 10 x ≤ Real.logb 10 y :=
  (Real.logb_le_logb (by norm_num) hx (by linarith)).mpr h

lemma rbs_le_rpow (x r : Real) (hx : 0 < x) (h : Real.logb 10 x ≤ r) :
    x ≤ (10 : Real) ^ r := by
  calc x = (10 : Real) ^ Real.logb 10 x :=
        (Real.rpow_logb (by norm_num) (by norm_num) hx).symm
  _ ≤ (10 : Real) ^ r := (Real.rpow_le_rpow_left_iff (by norm_num)).mpr h

lemma rbs_rpow_le (x r : Real) (hx : 0 < x) (h : r ≤ Real.logb 10 x) :
    (10 : Real) ^ r ≤ x := by
  calc (10 : Real) ^ r ≤ (10 : Real) ^ Real.logb 10 x :=
        (Real.rpow_le_rpow_left_iff (by norm_num)).mpr h
  _ = x := Real.rpow_logb (by norm_num) (by norm_num) hx

lemma logmod_pos_case (ximin ximax xi : Real)
    (h0 : 0 < ximin) (h1 : ximin ≤ xi) (h2 : xi ≤ ximax) :
    logmod ximin 0 1 ≤ logmod ximax 0 1 ∧
    (logmod ximin 0 1 ≤ logmod xi 0 1 ∧ logmod xi 0 1 ≤ logmod ximax 0 1) ∧
    ∀ r, logmod ximin 0 1 ≤ r → r ≤ logmod ximax 0 1 →
      ximin ≤ logmodInv r 0 1 ∧ logmodInv r 0 1 ≤ ximax := by
  have e : ∀ y : Real, logmod y 0 1 = Real.logb 10 y := by
    intro y
    unfold logmod
    norm_num
  have einv : ∀ r : Real, logmodInv r 0 1 = (10 : Real) ^ r := by
    intro r
    unfold logmodInv
    norm_num
  rw [e, e, e]
  refine ⟨rbs_logb_mono _ _ h0 (by linarith), ⟨rbs_logb_mono _ _ h0 h1,
    rbs_logb_mono _ _ (by linarith) h2⟩, ?_⟩
  intro r hr1 hr2
  rw [einv]
  exact ⟨rbs_le_rpow _ _ h0 hr1, rbs_rpow_le _ _ (by linarith) hr2⟩

lemma logmod_negneg_case (ximin ximax xi : Real)
    (hmax : ximax < 0) (h1 : ximin ≤ xi) (h2 : xi ≤ ximax) :
    logmod ximax 0 (-1) ≤ logmod ximin 0 (-1) ∧
    (logmod ximax 0 (-1) ≤ logmod xi 0 (-1) ∧ logmod xi 0 (-1) ≤ logmod ximin 0 (-1)) ∧
    ∀ r, logmod ximax 0 (-1) ≤ r → r ≤ logmod ximin 0 (-1) →
      ximin ≤ logmodInv r 0 (-1) ∧ logmodInv r 0 (-1) ≤ ximax := by
  have e : ∀ y : Real, logmod y 0 (-1) = Real.logb 10 (-y) := by
    intro y
    unfold logmod
    ring_nf
  have einv : ∀ r : Real, logmodInv r 0 (-1) = -((10 : Real) ^ r) := by
    intro r
    unfold logmodInv
    ring
  rw [e, e, e]
  refine ⟨rbs_logb_mono _ _ (by linarith) (by linarith), ⟨rbs_logb_mono _ _ (by linarith) (by linarith),
    rbs_logb_mono _ _ (by linarith) (by linarith)⟩, ?_⟩
  intro r hr1 hr2
  rw [einv]
  constructor
  · have := rbs_rpow_le (-ximin) r (by linarith) hr2
    linarith
  · have := rbs_le_rpow (-ximax) r (by linarith) hr1
    linarith

lemma logmod_negzero_case (ximin xi o : Real)
    (ho : 0 < o) (hmin : ximin < 0) (h1 : ximin ≤ xi) (h2 : xi ≤ 0) :
    logmod 0 o (-1) ≤ logmod ximin o (-1) ∧
    (logmod 0 o (-1) ≤ logmod xi o (-1) ∧ logmod xi o (-1) ≤ logmod ximin o (-1)) ∧
    ∀ r, logmod 0 o (-1) ≤ r → r ≤ logmod ximin o (-1) →
      ximin ≤ logmodInv r o (-1) ∧ logmodInv r o (-1) ≤ 0 := by
  have e : ∀ y : Real, logmod y o (-1) = Real.logb 10 (-y + o) := by
    intro y
    unfold logmod
    ring_nf
  have einv : ∀ r : Real, logmodInv r o (-1) = o - (10 : Real) ^ r := by
    intro r
    unfold logmodInv
    ring
  rw [e, e, e]
  refine ⟨rbs_logb_mono _ _ (by linarith) (by linarith), ⟨rbs_logb_mono _ _ (by linarith) (by linarith),
    rbs_logb_mono _ _ (by linarith) (by linarith)⟩, ?_⟩
  intro r hr1 hr2
  rw [einv]
  constructor
  · have := rbs_rpow_le (-ximin + o) r (by linarith) hr2
    linarith
  · have := rbs_le_rpow (-(0 : Real) + o) r (by linarith) hr1
    linarith

lemma logmod_zeropos_case (ximax xi o : Real)
    (ho : 0 < o) (hmax : 0 < ximax) (h1 : 0 ≤ xi) (h2 : xi ≤ ximax) :
    logmod 0 o 1 ≤ logmod ximax o 1 ∧
    (logmod 0 o 1 ≤ logmod xi o 1 ∧ logmod xi o 1 ≤ logmod ximax o 1) ∧
    ∀ r, logmod 0 o 1 ≤ r → r ≤ logmod ximax o 1 →
      (0 : Real) ≤ logmodInv r o 1 ∧ logmodInv r o 1 ≤ ximax := by
  have e : ∀ y : Real, logmod y o 1 = Real.logb 10 (y + o) := by
    intro y
    unfold logmod
    ring_nf
  have einv : ∀ r : Real, logmodInv r o 1 = (10 : Real) ^ r - o := by
    intro r
    unfold logmodInv
    ring
  rw [e, e, e]
  refine ⟨rbs_logb_mono _ _ (by linarith) (by linarith), ⟨rbs_logb_mono _ _ (by linarith) (by linarith),
    rbs_logb_mono _ _ (by linarith) (by linarith)⟩, ?_⟩
  intro r hr1 hr2
  rw [einv]
  constructor
  · have := rbs_le_rpow ((0 : Real) + o) r (by linarith) hr1
    linarith
  · have := rbs_rpow_le (ximax + o) r (by linarith) hr2
    linarith

/-- The offset computed by logmod_bounds in its (negative, zero) case. -/
noncomputable def rbsOffsetNeg (ximin : Real) : Real :=
  let thisOrderMag0 := Real.logb 10 (ximin * (-1))
  let thisOrderMag : Real :=
    if 0 < thisOrderMag0 then (⌈thisOrderMag0⌉ : Int) else (⌊thisOrderMag0⌋ : Int)
  (10 : Real) ^ (min 0 (thisOrderMag - 2))

/-- The offset computed by logmod_bounds in its (zero, positive) case. -/
noncomputable def rbsOffsetPos (ximax : Real) : Real :=
  let thisOrderMag0 := Real.logb 10 (ximax * 1)
  let thisOrderMag : Real :=
    if 0 < thisOrderMag0 then (⌈thisOrderMag0⌉ : Int) else (⌊thisOrderMag0⌋ : Int)
  (10 : Real) ^ (min 0 (thisOrderMag - 2))

lemma generateParam_spec (s : RBS) (xi : Real) (i : Nat)
    (ximin ximax stepsize : Real) (wrap : Bool) (us : Nat → Real) (k : Nat)
    (hmm : ximin ≤ ximax) (hx1 : ximin ≤ xi) (hx2 : xi ≤ ximax)
    (hstep : 0 ≤ stepsize) (habs : 0 ≤ s.absOrderMag.getD i 0)
    (hrange : 0 ≤ s.xRange.getD i 0)
    (hus : ∀ n, 0 ≤ us n ∧ us n ≤ 1) :
    ximin ≤ (generateParam s xi i ximin ximax stepsize wrap us k).1 ∧
    (generateParam s xi i ximin ximax stepsize wrap us k).1 ≤ ximax := by
  unfold generateParam
  by_cases heq : ximin = ximax
  · rw [if_pos heq]
    exact ⟨le_refl ximin, heq.le⟩
  · rw [if_neg heq]
    have hlt : ximin < ximax := lt_of_le_of_ne hmm heq
    by_cases habs1 : s.absOrderMag.getD i 0 ≤ 1
    · rw [if_pos habs1]
      exact linearStep_spec s xi i ximin ximax stepsize wrap (us k)
        hmm hx1 hx2 hstep hrange (hus k).1 (hus k).2
    · rw [if_neg habs1]
      dsimp only
      by_cases hA : 0 < ximin
      · have hlb : logmodBounds ximin ximax
            = (logmod ximin 0 1, logmod ximax 0 1, some (0, 1)) := by
          unfold logmodBounds
          rw [if_neg (by linarith), if_neg (by intro h; rw [h] at hA; exact lt_irrefl 0 hA)]
        rw [hlb]
        obtain ⟨c1, ⟨c2, c3⟩, c4⟩ := logmod_pos_case ximin ximax xi hA hx1 hx2
        by_cases hom : min (logmod ximax 0 1 - logmod ximin 0 1)
            (s.absOrderMag.getD i 0 * stepsize) ≤ 1
        · rw [if_pos hom]
          exact linearStep_spec s xi i ximin ximax stepsize wrap (us k)
            hmm hx1 hx2 hstep hrange (hus k).1 (hus k).2
        · rw [if_neg hom]
          exact log10Step_spec s xi i (logmod ximin 0 1) (logmod ximax 0 1) 0 1
            stepsize wrap (us k) ximin ximax c1 c2 c3 c4 hstep habs (hus k).1 (hus k).2
      · by_cases hB : ximax < 0
        · have hlb : logmodBounds ximin ximax
              = (logmod ximax 0 (-1), logmod ximin 0 (-1), some (0, -1)) := by
            unfold logmodBounds
            rw [if_pos (by linarith), if_pos hB]
          rw [hlb]
          obtain ⟨c1, ⟨c2, c3⟩, c4⟩ := logmod_negneg_case ximin ximax xi hB hx1 hx2
          by_cases hom : min (logmod ximin 0 (-1) - logmod ximax 0 (-1))
              (s.absOrderMag.getD i 0 * stepsize) ≤ 1
          · rw [if_pos hom]
            exact linearStep_spec s xi i ximin ximax stepsize wrap (us k)
              hmm hx1 hx2 hstep hrange (hus k).1 (hus k).2
          · rw [if_neg hom]
            exact log10Step_spec s xi i (logmod ximax 0 (-1)) (logmod ximin 0 (-1)) 0 (-1)
              stepsize wrap (us k) ximin ximax c1 c2 c3 c4 hstep habs (hus k).1 (hus k).2
        · by_cases hC : ximax = 0
          · subst hC
            have hminneg : ximin < 0 := hlt
            have hlb : logmodBounds ximin 0
                = (logmod 0 (rbsOffsetNeg ximin) (-1), logmod ximin (rbsOffsetNeg ximin) (-1),
                  some (rbsOffsetNeg ximin, -1)) := by
              unfold logmodBounds rbsOffsetNeg
              rw [if_pos (by linarith), if_neg (by norm_num), if_pos rfl]
            rw [hlb]
            have ho : 0 < rbsOffsetNeg ximin := Real.rpow_pos_of_pos (by norm_num) _
            obtain ⟨c1, ⟨c2, c3⟩, c4⟩ :=
              logmod_negzero_case ximin xi (rbsOffsetNeg ximin) ho hminneg hx1 hx2
            by_cases hom : min (logmod ximin (rbsOffsetNeg ximin) (-1)
                  - logmod 0 (rbsOffsetNeg ximin) (-1))
                (s.absOrderMag.getD i 0 * stepsize) ≤ 1
            · rw [if_pos hom]
              exact linearStep_spec s xi i ximin 0 stepsize wrap (us k)
                hmm hx1 hx2 hstep hrange (hus k).1 (hus k).2
            · rw [if_neg hom]
              exact log10Step_spec s xi i (logmod 0 (rbsOffsetNeg ximin) (-1))
                (logmod ximin (rbsOffsetNeg ximin) (-1)) (rbsOffsetNeg ximin) (-1)
                stepsize wrap (us k) ximin 0 c1 c2 c3 c4 hstep habs (hus k).1 (hus k).2
          · by_cases hD : ximin = 0
            · subst hD
              have hmaxpos : 0 < ximax := hlt
              have hlb : logmodBounds 0 ximax
                  = (logmod 0 (rbsOffsetPos ximax) 1, logmod ximax (rbsOffsetPos ximax) 1,
                    some (rbsOffsetPos ximax, 1)) := by
                unfold logmodBounds rbsOffsetPos
                rw [if_neg (by norm_num), if_pos rfl, if_neg hC]
              rw [hlb]
              have ho : 0 < rbsOffsetPos ximax := Real.rpow_pos_of_pos (by norm_num) _
              obtain ⟨c1, ⟨c2, c3⟩, c4⟩ :=
                logmod_zeropos_case ximax xi (rbsOffsetPos ximax) ho hmaxpos hx1 hx2
              by_cases hom : min (logmod ximax (rbsOffsetPos ximax) 1
                    - logmod 0 (rbsOffsetPos ximax) 1)
                  (s.absOrderMag.getD i 0 * stepsize) ≤ 1
              · rw [if_pos hom]
                exact linearStep_spec s xi i 0 ximax stepsize wrap (us k)
                  hmm hx1 hx2 hstep hrange (hus k).1 (hus k).2
              · rw [if_neg hom]
                exact log10Step_spec s xi i (logmod 0 (rbsOffsetPos ximax) 1)
                  (logmod ximax (rbsOffsetPos ximax) 1) (rbsOffsetPos ximax) 1
                  stepsize wrap (us k) 0 ximax c1 c2 c3 c4 hstep habs (hus k).1 (hus k).2
            · have hminneg : ximin < 0 := lt_of_le_of_ne (not_lt.mp hA) hD
              have hmaxpos : 0 < ximax := lt_of_le_of_ne (not_lt.mp hB) (fun h => hC h.symm)
              have hlb : logmodBounds ximin ximax = (0, 0, none) := by
                unfold logmodBounds
                rw [if_pos hminneg, if_neg (by linarith), if_neg (by linarith)]
              rw [hlb]
              rw [if_pos (by
                simp only []
                have : min ((0 : Real) - 0) (s.absOrderMag.getD i 0 * stepsize) ≤ 0 := by
                  apply le_trans (min_le_left _ _)
                  norm_num
                linarith)]
              exact linearStep_spec s xi i ximin ximax stepsize wrap (us k)
                hmm hx1 hx2 hstep hrange (hus k).1 (hus k).2

lemma stepLoop_spec (s : RBS) (stepsize : Real) (wrap : Bool) (us : Nat → Real)
    (hstep : 0 ≤ stepsize)
    (hmm : ∀ i, s.xmin.getD i 0 ≤ s.xmax.getD i 0)
    (habs : ∀ i, 0 ≤ s.absOrderMag.getD i 0)
    (hrange : ∀ i, 0 ≤ s.xRange.getD i 0)
    (hus : ∀ n, 0 ≤ us n ∧ us n ≤ 1) :
    ∀ (xs : List Real) (i : Nat) (k : Nat),
      (∀ j, j < xs.length →
        s.xmin.getD (i + j) 0 ≤ xs.getD j 0 ∧ xs.getD j 0 ≤ s.xmax.getD (i + j) 0) →
      (stepLoop s stepsize wrap us xs i k).1.length = xs.length ∧
      ∀ j, j < xs.length →
        s.xmin.getD (i + j) 0 ≤ (stepLoop s stepsize wrap us xs i k).1.getD j 0 ∧
        (stepLoop s stepsize wrap us xs i k).1.getD j 0 ≤ s.xmax.getD (i + j) 0 := by
  intro xs
  induction xs with
  | nil =>
    intro i k hx
    exact ⟨rfl, fun j hj => absurd hj (by simp)⟩
  | cons x0 rest ih =>
    intro i k hx
    have hx0 := hx 0 (by simp)
    have hhead := generateParam_spec s x0 i (s.xmin.getD i 0) (s.xmax.getD i 0)
      stepsize wrap us k (hmm i)
      (by simpa using hx0.1) (by simpa using hx0.2) hstep (habs i) (hrange i) hus
    have htail := ih (i + 1)
      (generateParam s x0 i (s.xmin.getD i 0) (s.xmax.getD i 0) stepsize wrap us k).2
      (by
        intro j hj
        have := hx (j + 1) (by simpa using Nat.succ_lt_succ hj)
        have he : i + (j + 1) = i + 1 + j := by omega
        rw [he] at this
        simpa using this)
    have hsl : stepLoop s stepsize wrap us (x0 :: rest) i k
        = ((generateParam s x0 i (s.xmin.getD i 0) (s.xmax.getD i 0) stepsize wrap us k).1
            :: (stepLoop s stepsize wrap us rest (i + 1)
              (generateParam s x0 i (s.xmin.getD i 0) (s.xmax.getD i 0)
                stepsize wrap us k).2).1,
           (stepLoop s stepsize wrap us rest (i + 1)
              (generateParam s x0 i (s.xmin.getD i 0) (s.xmax.getD i 0)
                stepsize wrap us k).2).2) := rfl
    refine ⟨?_, ?_⟩
    · rw [hsl]
      simp only [List.length_cons]
      rw [htail.1]
    · intro j hj
      rw [hsl]
      match j with
      | 0 =>
        simpa using hhead
      | j2 + 1 =>
        have hj2 : j2 < rest.length := by simpa using Nat.lt_of_succ_lt_succ hj
        have := htail.2 j2 hj2
        have he : i + 1 + j2 = i + (j2 + 1) := by omega
        rw [he] at this
        simpa using this

lemma getD_set_oob (l : List Real) (n : Nat) (a d : Real) (h : ¬ n < l.length) :
    (l.set n a).getD n d = l.getD n d := by
  rw [List.set_eq_of_length_le (by omega)]

lemma getD_set_pointwise (l : List Real) (n : Nat) (a d : Real)
    (P : Nat → Real → Prop)
    (hP : ∀ i, P i (l.getD i d)) (hPa : P n a) :
    ∀ i, P i ((l.set n a).getD i d) := by
  intro i
  by_cases h : n = i
  · subst h
    by_cases hlen : n < l.length
    · rw [getD_set_self l n a d hlen]
      exact hPa
    · rw [getD_set_oob l n a d hlen]
      exact hP n
  · rw [getD_set_ne l n i a d h]
    exact hP i

lemma applyRelBoundsLoop_spec (s : RBS) (stepsize : Real) (us : Nat → Real)
    (hstep : 0 ≤ stepsize)
    (habs : ∀ i, 0 ≤ s.absOrderMag.getD i 0)
    (hrange : ∀ i, 0 ≤ s.xRange.getD i 0)
    (hus : ∀ n, 0 ≤ us n ∧ us n ≤ 1) :
    ∀ (rules : List (String × String × Real × String))
      (newX newMin newMax : List Real) (k : Nat) (v : List Real) (k2 : Nat),
      (∀ i, s.xmin.getD i 0 ≤ newMin.getD i 0) →
      (∀ i, newMax.getD i 0 ≤ s.xmax.getD i 0) →
      (∀ i, newMin.getD i 0 ≤ newMax.getD i 0) →
      (∀ j, j < newX.length →
        s.xmin.getD j 0 ≤ newX.getD j 0 ∧ newX.getD j 0 ≤ s.xmax.getD j 0) →
      applyRelBoundsLoop s stepsize us rules newX newMin newMax k = Except.ok (v, k2) →
      v.length = newX.length ∧
      ∀ j, j < v.length →
        s.xmin.getD j 0 ≤ v.getD j 0 ∧ v.getD j 0 ≤ s.xmax.getD j 0 := by
  intro rules
  induction rules with
  | nil =>
    intro newX newMin newMax k v k2 h1 h2 h3 h4 happ
    rw [applyRelBoundsLoop.eq_def] at happ
    dsimp only at happ
    have h5 := Except.ok.inj happ
    rw [Prod.mk.injEq] at h5
    rw [← h5.1]
    exact ⟨rfl, h4⟩
  | cons rule rest ih =>
    intro newX newMin newMax k v k2 h1 h2 h3 h4 happ
    rw [applyRelBoundsLoop.eq_def] at happ
    dsimp only at happ
    cases hdep : paramIdx s.paramNames rule.1 with
    | none =>
      rw [hdep] at happ
      exact absurd happ (by simp)
    | some depInd =>
      rw [hdep] at happ
      dsimp only at happ
      by_cases hlen1 : newX.length ≤ depInd
      · rw [if_pos hlen1] at happ
        exact absurd happ (by simp)
      · rw [if_neg hlen1] at happ
        cases hind : paramIdx s.paramNames rule.2.2.2 with
        | none =>
          rw [hind] at happ
          exact absurd happ (by simp)
        | some indInd =>
          rw [hind] at happ
          dsimp only at happ
          by_cases hlen2 : newX.length ≤ indInd
          · rw [if_pos hlen2] at happ
            exact absurd happ (by simp)
          · rw [if_neg hlen2] at happ
            by_cases hEq : rule.2.1 = "="
            · rw [if_pos hEq] at happ
              by_cases hck : s.xmin.getD depInd 0 ≤ rule.2.2.1 * newX.getD indInd 0 ∧
                  rule.2.2.1 * newX.getD indInd 0 < s.xmax.getD depInd 0
              · rw [if_pos hck] at happ
                have h4a : ∀ j, j < (newX.set depInd (rule.2.2.1 * newX.getD indInd 0)).length →
                    s.xmin.getD j 0
                      ≤ (newX.set depInd (rule.2.2.1 * newX.getD indInd 0)).getD j 0 ∧
                    (newX.set depInd (rule.2.2.1 * newX.getD indInd 0)).getD j 0
                      ≤ s.xmax.getD j 0 := by
                  intro j hj
                  rw [List.length_set] at hj
                  by_cases hji : depInd = j
                  · subst hji
                    rw [getD_set_self _ _ _ _ hj]
                    exact ⟨hck.1, le_of_lt hck.2⟩
                  · rw [getD_set_ne _ _ _ _ _ hji]
                    exact h4 j hj
                have hres := ih _ _ _ _ v k2 h1 h2 h3 h4a happ
                rw [List.length_set] at hres
                exact hres
              · rw [if_neg hck] at happ
                exact absurd happ (by simp)
            · rw [if_neg hEq] at happ
              set nmin2 := (if rule.2.1 = ">=" ∨ rule.2.1 = ">" then
                newMin.set depInd (min (max (newMin.getD depInd 0)
                  (rule.2.2.1 * newX.getD indInd 0)) (newMax.getD depInd 0))
                else newMin) with hnmin2
              set nmax2 := (if rule.2.1 = "<" ∨ rule.2.1 = "<=" then
                newMax.set depInd (max (min (newMax.getD depInd 0)
                  (rule.2.2.1 * newX.getD indInd 0)) (newMin.getD depInd 0))
                else newMax) with hnmax2
              have hmin2a : ∀ i, s.xmin.getD i 0 ≤ nmin2.getD i 0 := by
                rw [hnmin2]
                by_cases hc : rule.2.1 = ">=" ∨ rule.2.1 = ">"
                · rw [if_pos hc]
                  exact getD_set_pointwise newMin depInd _ 0
                    (fun i w => s.xmin.getD i 0 ≤ w) h1
                    (le_min (le_trans (h1 depInd) (le_max_left _ _))
                      (le_trans (h1 depInd) (h3 depInd)))
                · rw [if_neg hc]
                  exact h1
              have hmax2a : ∀ i, nmax2.getD i 0 ≤ s.xmax.getD i 0 := by
                rw [hnmax2]
                by_cases hc : rule.2.1 = "<" ∨ rule.2.1 = "<="
                · rw [if_pos hc]
                  exact getD_set_pointwise newMax depInd _ 0
                    (fun i w => w ≤ s.xmax.getD i 0) h2
                    (max_le (le_trans (min_le_left _ _) (h2 depInd))
                      (le_trans (h3 depInd) (h2 depInd)))
                · rw [if_neg hc]
                  exact h2
              have hmm2 : ∀ i, nmin2.getD i 0 ≤ nmax2.getD i 0 := by
                rw [hnmin2, hnmax2]
                by_cases hc1 : rule.2.1 = ">=" ∨ rule.2.1 = ">"
                · by_cases hc2 : rule.2.1 = "<" ∨ rule.2.1 = "<="
                  · exfalso
                    rcases hc1 with h | h <;> rcases hc2 with h5 | h5 <;>
                      (rw [h] at h5; exact absurd h5 (by decide))
                  · rw [if_pos hc1, if_neg hc2]
                    exact getD_set_pointwise newMin depInd _ 0
                      (fun i w => w ≤ newMax.getD i 0) h3 (min_le_right _ _)
                · rw [if_neg hc1]
                  by_cases hc2 : rule.2.1 = "<" ∨ rule.2.1 = "<="
                  · rw [if_pos hc2]
                    exact getD_set_pointwise newMax depInd _ 0
                      (fun i w => newMin.getD i 0 ≤ w) h3 (le_max_right _ _)
                  · rw [if_neg hc2]
                    exact h3
              by_cases hchk : ¬ (nmin2.getD depInd 0 ≤ newX.getD depInd 0 ∧
                  newX.getD depInd 0 < nmax2.getD depInd 0)
              · rw [if_pos hchk] at happ
                have hp := generateParam_spec s
                  (min (max (newX.getD depInd 0) (nmin2.getD depInd 0)) (nmax2.getD depInd 0))
                  depInd (nmin2.getD depInd 0) (nmax2.getD depInd 0) stepsize false us k
                  (hmm2 depInd)
                  (le_min (le_max_right _ _) (hmm2 depInd))
                  (min_le_right _ _)
                  hstep (habs depInd) (hrange depInd) hus
                have h4a : ∀ j, j < (newX.set depInd
                    (generateParam s
                      (min (max (newX.getD depInd 0) (nmin2.getD depInd 0))
                        (nmax2.getD depInd 0))
                      depInd (nmin2.getD depInd 0) (nmax2.getD depInd 0)
                      stepsize false us k).1).length →
                    s.xmin.getD j 0 ≤ (newX.set depInd
                      (generateParam s
                        (min (max (newX.getD depInd 0) (nmin2.getD depInd 0))
                          (nmax2.getD depInd 0))
                        depInd (nmin2.getD depInd 0) (nmax2.getD depInd 0)
                        stepsize false us k).1).getD j 0 ∧
                    (newX.set depInd
                      (generateParam s
                        (min (max (newX.getD depInd 0) (nmin2.getD depInd 0))
                          (nmax2.getD depInd 0))
                        depInd (nmin2.getD depInd 0) (nmax2.getD depInd 0)
                        stepsize false us k).1).getD j 0 ≤ s.xmax.getD j 0 := by
                  intro j hj
                  rw [List.length_set] at hj
                  by_cases hji : depInd = j
                  · subst hji
                    rw [getD_set_self _ _ _ _ hj]
                    exact ⟨le_trans (hmin2a depInd) hp.1, le_trans hp.2 (hmax2a depInd)⟩
                  · rw [getD_set_ne _ _ _ _ _ hji]
                    exact h4 j hj
                have hres := ih _ _ _ _ v k2 hmin2a hmax2a hmm2 h4a happ
                rw [List.length_set] at hres
                exact hres
              · rw [if_neg hchk] at happ
                exact ih newX nmin2 nmax2 k v k2 hmin2a hmax2a hmm2 h4 happ

/-- C2: a successful RelativeBoundedStep.__call__ returns a vector of the
same length as current_x whose every component lies within the absolute
bounds [xmin_i, xmax_i]. (The configured relative-bound rules, by
contrast, are not guaranteed on the result: see the counterexample, where
a returned vector violates a strict rule and fails check_bounds.) -/
theorem c2_step_within_abs_bounds (s : RBS) (x : List Real) (us : Nat → Real)
    (k : Nat) (stepsizeArg : Option Real) (wrapArg : Option Bool)
    (v : List Real) (k2 : Nat)
    (hstep : 0 ≤ stepsizeArg.getD s.stepsize)
    (hmm : ∀ i, s.xmin.getD i 0 ≤ s.xmax.getD i 0)
    (habs : ∀ i, 0 ≤ s.absOrderMag.getD i 0)
    (hrange : ∀ i, 0 ≤ s.xRange.getD i 0)
    (hus : ∀ n, 0 ≤ us n ∧ us n ≤ 1)
    (hx : ∀ j, j < x.length →
      s.xmin.getD j 0 ≤ x.getD j 0 ∧ x.getD j 0 ≤ s.xmax.getD j 0)
    (hcall : callRBS s (some x) stepsizeArg wrapArg us k = Except.ok (v, k2)) :
    v.length = x.length ∧
    ∀ j, j < v.length →
      s.xmin.getD j 0 ≤ v.getD j 0 ∧ v.getD j 0 ≤ s.xmax.getD j 0 := by
  have hsl := stepLoop_spec s (stepsizeArg.getD s.stepsize) (wrapArg.getD s.wrap)
    us hstep hmm habs hrange hus x 0 k
    (by intro j hj; simpa using hx j hj)
  simp only [Nat.zero_add] at hsl
  unfold callRBS at hcall
  dsimp only at hcall
  simp only [Option.getD_some] at hcall
  cases hrb : s.relBounds with
  | none =>
    rw [hrb] at hcall
    have h5 := Except.ok.inj hcall
    rw [Prod.mk.injEq] at h5
    rw [← h5.1]
    exact ⟨hsl.1, fun j hj => hsl.2 j (by rw [← hsl.1]; exact hj)⟩
  | some rb =>
    rw [hrb] at hcall
    have hres := applyRelBoundsLoop_spec s (stepsizeArg.getD s.stepsize) us
      hstep habs hrange hus rb
      (stepLoop s (stepsizeArg.getD s.stepsize) (wrapArg.getD s.wrap) us x 0 k).1
      s.xmin s.xmax
      (stepLoop s (stepsizeArg.getD s.stepsize) (wrapArg.getD s.wrap) us x 0 k).2
      v k2 (fun i => le_refl _) (fun i => le_refl _) hmm
      (fun j hj => hsl.2 j (by rw [← hsl.1]; exact hj)) hcall
    rw [hsl.1] at hres
    exact hres

/-- The step object of the counterexample: two parameters a and b, both
bounded by (1, 10), default stepsize 0.5, no wrap, and the single relative
rule a < 0.2 * b. abs_order_mag is the value __init__ computes. -/
noncomputable def sCE : RBS :=
  { stepsize := 1/2,
    wrap := false,
    paramNames := ["a", "b"],
    x0 := [1, 10],
    xmin := [1, 1],
    xmax := [10, 10],
    xRange := [9, 9],
    absOrderMag := mkAbsOrderMag [1, 1] [10, 10],
    relBounds := some [("a", "<", 1/5, "b")] }

/-- The unit draws driving the counterexample run. -/
noncomputable def usCE : Nat → Real := fun n => if n = 1 then 0 else 1

lemma logb_ten : Real.logb 10 10 = 1 := Real.logb_self_eq_one (by norm_num)

lemma lb110 : logmodBounds 1 10 = (0, 1, some (0, 1)) := by
  unfold logmodBounds
  rw [if_neg (by norm_num), if_neg (by norm_num)]
  unfold logmod
  norm_num [Real.logb_one, logb_ten]

lemma habsCE : sCE.absOrderMag = [1, 1] := by
  show mkAbsOrderMag [1, 1] [10, 10] = [1, 1]
  unfold mkAbsOrderMag
  simp [List.range_succ, lb110]

lemma ce_gen0 : generateParam sCE 1 0 1 10 (1/2) false usCE 0 = (13/4, 1) := by
  unfold generateParam
  rw [if_neg (by norm_num : ¬ (1 : Real) = 10)]
  rw [if_pos (by rw [habsCE]; norm_num)]
  unfold linearStep uniform
  rw [if_neg (by decide : ¬ (false : Bool) = true)]
  have hu : usCE 0 = 1 := by norm_num [usCE]
  rw [hu]
  show (_, (1 : Nat)) = _
  rw [Prod.mk.injEq]
  refine ⟨?_, rfl⟩
  show max 1 (1 - 1/2 * (sCE.xRange.getD 0 0) / 2)
      + (min 10 (1 + 1/2 * (sCE.xRange.getD 0 0) / 2)
        - max 1 (1 - 1/2 * (sCE.xRange.getD 0 0) / 2)) * 1 = 13/4
  have hr : sCE.xRange.getD 0 0 = 9 := rfl
  rw [hr]
  rw [max_eq_left (by norm_num), min_eq_right (by norm_num)]
  norm_num

lemma ce_gen1 : generateParam sCE 10 1 1 10 (1/2) false usCE 1 = (31/4, 2) := by
  unfold generateParam
  rw [if_neg (by norm_num : ¬ (1 : Real) = 10)]
  rw [if_pos (by rw [habsCE]; norm_num)]
  unfold linearStep uniform
  rw [if_neg (by decide : ¬ (false : Bool) = true)]
  have hu : usCE 1 = 0 := by norm_num [usCE]
  rw [hu]
  show (_, (2 : Nat)) = _
  rw [Prod.mk.injEq]
  refine ⟨?_, rfl⟩
  show max 1 (10 - 1/2 * (sCE.xRange.getD 1 0) / 2)
      + (min 10 (10 + 1/2 * (sCE.xRange.getD 1 0) / 2)
        - max 1 (10 - 1/2 * (sCE.xRange.getD 1 0) / 2)) * 0 = 31/4
  have hr : sCE.xRange.getD 1 0 = 9 := rfl
  rw [hr]
  rw [max_eq_right (by norm_num)]
  norm_num

lemma ce_gen2 : generateParam sCE (31/20) 0 1 (31/20) (1/2) false usCE 2 = (31/20, 3) := by
  unfold generateParam
  rw [if_neg (by norm_num : ¬ (1 : Real) = 31/20)]
  rw [if_pos (by rw [habsCE]; norm_num)]
  unfold linearStep uniform
  rw [if_neg (by decide : ¬ (false : Bool) = true)]
  have hu : usCE 2 = 1 := by norm_num [usCE]
  rw [hu]
  show (_, (3 : Nat)) = _
  rw [Prod.mk.injEq]
  refine ⟨?_, rfl⟩
  show max 1 (31/20 - 1/2 * (sCE.xRange.getD 0 0) / 2)
      + (min (31/20) (31/20 + 1/2 * (sCE.xRange.getD 0 0) / 2)
        - max 1 (31/20 - 1/2 * (sCE.xRange.getD 0 0) / 2)) * 1 = 31/20
  have hr : sCE.xRange.getD 0 0 = 9 := rfl
  rw [hr]
  rw [max_eq_left (by norm_num), min_eq_left (by norm_num)]
  norm_num

lemma ce_steploop : stepLoop sCE (1/2) false usCE [1, 10] 0 0 = ([13/4, 31/4], 2) := by
  have t1 : stepLoop sCE (1/2) false usCE [10] 1 1 = ([31/4], 2) := by
    rw [stepLoop.eq_def]
    dsimp only
    rw [show sCE.xmin.getD 1 0 = 1 from rfl, show sCE.xmax.getD 1 0 = 10 from rfl, ce_gen1]
    rfl
  rw [stepLoop.eq_def]
  dsimp only
  rw [show sCE.xmin.getD 0 0 = 1 from rfl, show sCE.xmax.getD 0 0 = 10 from rfl, ce_gen0]
  dsimp only
  rw [t1]

lemma ce_apply : applyRelBoundsLoop sCE (1/2) usCE [("a", "<", 1/5, "b")]
    [13/4, 31/4] [1, 1] [10, 10] 2 = Except.ok ([31/20, 31/4], 3) := by
  rw [applyRelBoundsLoop.eq_def]
  dsimp only
  rw [show paramIdx sCE.paramNames "a" = some 0 from rfl]
  dsimp only
  rw [if_neg (by norm_num : ¬ ([(13/4 : Real), 31/4]).length ≤ 0)]
  rw [show paramIdx sCE.paramNames "b" = some 1 from rfl]
  dsimp only
  rw [if_neg (by norm_num : ¬ ([(13/4 : Real), 31/4]).length ≤ 1)]
  rw [if_neg (by decide : ¬ ("<" : String) = "=")]
  rw [if_neg (by decide : ¬ (("<" : String) = ">=" ∨ ("<" : String) = ">"))]
  rw [if_pos (by decide : (("<" : String) = "<" ∨ ("<" : String) = "<="))]
  have hv1 : (max (min (([(10 : Real), 10]).getD 0 0)
      ((1/5 : Real) * (([(13/4 : Real), 31/4]).getD 1 0))) (([(1 : Real), 1]).getD 0 0))
      = 31/20 := by
    norm_num [min_def, max_def]
  rw [hv1]
  have hset : ([(10 : Real), 10]).set 0 (31/20) = [31/20, 10] := rfl
  rw [hset]
  rw [if_pos (by norm_num : ¬ ((([(1 : Real), 1]).getD 0 0
      ≤ ([(13/4 : Real), 31/4]).getD 0 0) ∧
    (([(13/4 : Real), 31/4]).getD 0 0 < ([(31/20 : Real), 10]).getD 0 0)))]
  have hv2 : (min (max (([(13/4 : Real), 31/4]).getD 0 0) (([(1 : Real), 1]).getD 0 0))
      (([(31/20 : Real), 10]).getD 0 0)) = 31/20 := by
    norm_num [min_def, max_def]
  rw [hv2]
  rw [show ([(1 : Real), 1]).getD 0 0 = 1 from rfl]
  rw [show ([(31/20 : Real), 10]).getD 0 0 = 31/20 from rfl]
  rw [ce_gen2]
  dsimp only
  rw [applyRelBoundsLoop.eq_def]
  dsimp only
  rw [show ([(13/4 : Real), 31/4]).set 0 (31/20) = [31/20, 31/4] from rfl]

lemma ce_call : callRBS sCE (some [1, 10]) none none usCE 0
    = Except.ok ([31/20, 31/4], 3) := by
  unfold callRBS
  dsimp only
  rw [show (none : Option Real).getD sCE.stepsize = 1/2 from rfl]
  rw [show (none : Option Bool).getD sCE.wrap = false from rfl]
  rw [show (some [(1 : Real), 10]).getD sCE.x0 = [1, 10] from rfl]
  rw [ce_steploop]
  rw [show sCE.relBounds = some [("a", "<", 1/5, "b")] from rfl]
  dsimp only
  rw [show sCE.xmin = [1, 1] from rfl, show sCE.xmax = [10, 10] from rfl]
  exact ce_apply

lemma ce_checkAbs_start : checkAbs sCE.xmin sCE.xmax [1, 10] 0 = true := by
  rw [show sCE.xmin = [1, 1] from rfl, show sCE.xmax = [10, 10] from rfl]
  rw [checkAbs.eq_def]
  dsimp only
  rw [if_neg (by norm_num), if_neg (by norm_num), if_neg (by norm_num)]
  rw [checkAbs.eq_def]
  dsimp only
  rw [if_neg (by norm_num), if_neg (by norm_num), if_neg (by norm_num)]
  rw [checkAbs.eq_def]

lemma ce_checkAbs_result : checkAbs sCE.xmin sCE.xmax [31/20, 31/4] 0 = true := by
  rw [show sCE.xmin = [1, 1] from rfl, show sCE.xmax = [10, 10] from rfl]
  rw [checkAbs.eq_def]
  dsimp only
  rw [if_neg (by norm_num), if_neg (by norm_num), if_neg (by norm_num)]
  rw [checkAbs.eq_def]
  dsimp only
  rw [if_neg (by norm_num), if_neg (by norm_num), if_neg (by norm_num)]
  rw [checkAbs.eq_def]

lemma ce_check_start : checkBounds sCE [1, 10] = Except.ok true := by
  unfold checkBounds
  rw [if_neg (by rw [ce_checkAbs_start]; exact fun h => absurd h (by decide))]
  rw [show sCE.relBounds = some [("a", "<", 1/5, "b")] from rfl]
  dsimp only
  rw [checkRel.eq_def]
  dsimp only
  rw [show paramIdx sCE.paramNames "a" = some 0 from rfl]
  dsimp only
  rw [if_neg (by norm_num : ¬ ([(1 : Real), 10]).length ≤ 0)]
  rw [show paramIdx sCE.paramNames "b" = some 1 from rfl]
  dsimp only
  rw [if_neg (by norm_num : ¬ ([(1 : Real), 10]).length ≤ 1)]
  rw [if_neg (by decide : ¬ ("<" : String) = "="),
    if_pos (by decide : ("<" : String) = "<")]
  rw [if_pos (by norm_num : ([(1 : Real), 10]).getD 0 0
    < (1/5 : Real) * ([(1 : Real), 10]).getD 1 0)]
  rw [checkRel.eq_def]

lemma ce_check_result : checkBounds sCE [31/20, 31/4] = Except.ok false := by
  unfold checkBounds
  rw [if_neg (by rw [ce_checkAbs_result]; exact fun h => absurd h (by decide))]
  rw [show sCE.relBounds = some [("a", "<", 1/5, "b")] from rfl]
  dsimp only
  rw [checkRel.eq_def]
  dsimp only
  rw [show paramIdx sCE.paramNames "a" = some 0 from rfl]
  dsimp only
  rw [if_neg (by norm_num : ¬ ([(31/20 : Real), 31/4]).length ≤ 0)]
  rw [show paramIdx sCE.paramNames "b" = some 1 from rfl]
  dsimp only
  rw [if_neg (by norm_num : ¬ ([(31/20 : Real), 31/4]).length ≤ 1)]
  rw [if_neg (by decide : ¬ ("<" : String) = "="),
    if_pos (by decide : ("<" : String) = "<")]
  rw [if_neg (by norm_num : ¬ ([(31/20 : Real), 31/4]).getD 0 0
    < (1/5 : Real) * ([(31/20 : Real), 31/4]).getD 1 0)]

/-- The start vector [1, 10] passes check_bounds, yet one step returns
[31/20, 31/4], on which check_bounds is False: after the rule a < 0.2 b
clamps the narrowed maximum to exactly 0.2 * b, the resample draws the
boundary itself, violating the strict rule. -/
theorem c2_counterexample :
    ∃ v k2, callRBS sCE (some [1, 10]) none none usCE 0 = Except.ok (v, k2) ∧
      checkBounds sCE [1, 10] = Except.ok true ∧
      checkBounds sCE v = Except.ok false :=
  ⟨[31/20, 31/4], 3, ce_call, ce_check_start, ce_check_result⟩

theorem c2_step_within_abs_bounds_witness :
    ([(31/20 : Real), 31/4]).length = ([(1 : Real), 10]).length ∧
    ∀ j, j < ([(31/20 : Real), 31/4]).length →
      sCE.xmin.getD j 0 ≤ ([(31/20 : Real), 31/4]).getD j 0 ∧
      ([(31/20 : Real), 31/4]).getD j 0 ≤ sCE.xmax.getD j 0 :=
  c2_step_within_abs_bounds sCE [1, 10] usCE 0 none none [31/20, 31/4] 3
    (by norm_num [show (none : Option Real).getD sCE.stepsize = 1/2 from rfl])
    (by
      intro i
      rw [show sCE.xmin = [1, 1] from rfl, show sCE.xmax = [10, 10] from rfl]
      match i with
      | 0 => norm_num
      | 1 => norm_num
      | n + 2 => norm_num)
    (by
      intro i
      rw [habsCE]
      match i with
      | 0 => norm_num
      | 1 => norm_num
      | n + 2 => norm_num)
    (by
      intro i
      rw [show sCE.xRange = [9, 9] from rfl]
      match i with
      | 0 => norm_num
      | 1 => norm_num
      | n + 2 => norm_num)
    (by
      intro n
      unfold usCE
      by_cases h : n = 1
      · rw [if_pos h]
        norm_num
      · rw [if_neg h]
        norm_num)
    (by
      intro j hj
      rw [show sCE.xmin = [1, 1] from rfl, show sCE.xmax = [10, 10] from rfl]
      match j, hj with
      | 0, _ => norm_num
      | 1, _ => norm_num
      | n + 2, hj => exact absurd hj (by norm_num))
    ce_call
